import Mathlib

/-!
Verification development for the pylidar binning/stratification core
(`pylidar/userclasses.py`).

Numpy arrays are embedded as shape records with a total `get` function and a
`store` function modelling the dtype's write conversion (`id` for exact
integer dtypes, `% 65536` for `numpy.uint16`).  Element writes are
bounds-checked (numpy raises `IndexError` on an out-of-range index), so the
stateful loops live in the `Option` monad: `none` models a raised exception.
-/

set_option maxRecDepth 10000

/-- A 3-d numpy array: shape `(d0, d1, d2)`, dtype write-conversion `store`,
contents `get`. -/
structure Arr3 (α : Type) where
  d0 : Nat
  d1 : Nat
  d2 : Nat
  store : α → α
  get : Nat → Nat → Nat → α

/-- A 4-d numpy array. -/
structure Arr4 (α : Type) where
  d0 : Nat
  d1 : Nat
  d2 : Nat
  d3 : Nat
  store : α → α
  get : Nat → Nat → Nat → Nat → α

/-- Unchecked pointwise update (the dtype conversion is applied on write). -/
def Arr3.upd {α : Type} (a : Arr3 α) (i j k : Nat) (v : α) : Arr3 α :=
  { a with get := fun i' j' k' =>
      if i' = i ∧ j' = j ∧ k' = k then a.store v else a.get i' j' k' }

/-- Bounds-checked element assignment, `none` on an out-of-range index. -/
def Arr3.set {α : Type} (a : Arr3 α) (i j k : Nat) (v : α) : Option (Arr3 α) :=
  if i < a.d0 ∧ j < a.d1 ∧ k < a.d2 then some (a.upd i j k v) else none

/-- Unchecked pointwise update of a 4-d array. -/
def Arr4.upd {α : Type} (a : Arr4 α) (i j k l : Nat) (v : α) : Arr4 α :=
  { a with get := fun i' j' k' l' =>
      if i' = i ∧ j' = j ∧ k' = k ∧ l' = l then a.store v else a.get i' j' k' l' }

/-- Bounds-checked element assignment of a 4-d array. -/
def Arr4.set {α : Type} (a : Arr4 α) (i j k l : Nat) (v : α) : Option (Arr4 α) :=
  if i < a.d0 ∧ j < a.d1 ∧ k < a.d2 ∧ l < a.d3 then some (a.upd i j k l v) else none

/-- `for i in range(n): ...` over fallible state transformers: applies
`f 0`, `f 1`, …, `f (n-1)` in order, propagating an exception. -/
def iterN {σ : Type} (f : Nat → σ → Option σ) : Nat → σ → Option σ
  | 0, st => some st
  | n + 1, st => (iterN f n st).bind (f n)

/-- The mutable state threaded through `stratify3DArrayByValue`: the four
output arrays and the occupancy-count array. -/
structure StratState where
  rowA : Arr4 Nat
  colA : Arr4 Nat
  pA : Arr4 Nat
  maskA : Arr4 Bool
  countA : Arr3 Nat

/-- `bins[b] <= v < bins[b+1]` (source line 66). -/
def inBin (bins : List Int) (b : Nat) (v : Int) : Bool :=
  decide (bins.getD b 0 ≤ v) && decide (v < bins.getD (b + 1) 0)

/-- Body of the inner `for b in range(nBins)` loop of
`stratify3DArrayByValue` (source lines 65-75), for one element at
`(p, r, c)` with value `v`. -/
def binBody (counting : Bool) (bins : List Int) (r c p : Nat) (v : Int)
    (b : Nat) (st : StratState) : Option StratState :=
  if inBin bins b v then
    if counting then
      (st.countA.set b r c (st.countA.get b r c + 1)).map fun cnt =>
        { st with countA := cnt }
    else
      (st.rowA.set (st.countA.get b r c) b r c r).bind fun rowA' =>
      (st.colA.set (st.countA.get b r c) b r c c).bind fun colA' =>
      (st.pA.set (st.countA.get b r c) b r c p).bind fun pA' =>
      (st.maskA.set (st.countA.get b r c) b r c false).bind fun maskA' =>
      (st.countA.set b r c (st.countA.get b r c + 1)).map fun cnt =>
        { rowA := rowA', colA := colA', pA := pA', maskA := maskA', countA := cnt }
  else some st

/-- Body of the `for p in range(nPts)` loop (source lines 62-75): skip the
element when its validity-mask bit is set, otherwise scan the bins. -/
def pBody (counting : Bool) (vals : Arr3 Int) (vm : Arr3 Bool) (bins : List Int)
    (r c p : Nat) (st : StratState) : Option StratState :=
  if vm.get p r c then some st
  else iterN (binBody counting bins r c p (vals.get p r c)) (bins.length - 1) st

/-- `stratify3DArrayByValue` (source lines 28-75): triple loop over
`(r, c, p)` in row-major order, stratifying each valid element into height
bins; in counting mode only the occupancy counts are updated, otherwise the
`(row, col, p)` coordinates are recorded at the per-(bin,cell) write cursor
and the output mask bit is cleared. -/
def stratify3DArrayByValue (vals : Arr3 Int) (vm : Arr3 Bool)
    (outIdxs_row outIdxs_col outIdxs_p : Arr4 Nat) (outIdxsMask : Arr4 Bool)
    (outIdxsCount : Arr3 Nat) (bins : List Int) (counting : Bool) :
    Option StratState :=
  iterN (fun r =>
      iterN (fun c =>
          iterN (fun p => pBody counting vals vm bins r c p) vals.d0)
        vals.d2)
    vals.d1
    ⟨outIdxs_row, outIdxs_col, outIdxs_p, outIdxsMask, outIdxsCount⟩

/-! ### Specification-side counting definitions -/

/-- The element at slot `p` of cell `(r, c)` is valid and falls in bin `b`. -/
def matchesB (vals : Arr3 Int) (vm : Arr3 Bool) (bins : List Int)
    (b r c : Nat) (p : Nat) : Bool :=
  !vm.get p r c && inBin bins b (vals.get p r c)

/-- Slots `< k` of cell `(r, c)` whose element is valid and in bin `b`,
in scan order. -/
def matchListUpTo (vals : Arr3 Int) (vm : Arr3 Bool) (bins : List Int)
    (b r c k : Nat) : List Nat :=
  (List.range k).filter (matchesB vals vm bins b r c)

/-- Number of valid elements of cell `(r, c)` among slots `< k` falling in
bin `b`. -/
def countUpTo (vals : Arr3 Int) (vm : Arr3 Bool) (bins : List Int)
    (b r c k : Nat) : Nat :=
  (matchListUpTo vals vm bins b r c k).length

/-- All slots of cell `(r, c)` whose element is valid and in bin `b`. -/
def matchList (vals : Arr3 Int) (vm : Arr3 Bool) (bins : List Int)
    (b r c : Nat) : List Nat :=
  matchListUpTo vals vm bins b r c vals.d0

/-- Number of valid elements of cell `(r, c)` falling in bin `b`: the
contract for `count[b, r, c]`. -/
def countSpec (vals : Arr3 Int) (vm : Arr3 Bool) (bins : List Int)
    (b r c : Nat) : Nat :=
  (matchList vals vm bins b r c).length

/-- The element at slot `p` of cell `(r, c)` is valid and its value lies in
the overall range `[edges, edges[-1])`. -/
def rangeMatchB (vals : Arr3 Int) (vm : Arr3 Bool) (bins : List Int)
    (r c : Nat) (p : Nat) : Bool :=
  !vm.get p r c && decide (bins.getD 0 0 ≤ vals.get p r c) &&
    decide (vals.get p r c < bins.getD (bins.length - 1) 0)

/-- Number of valid elements of cell `(r, c)` whose value lies in
`[edges, edges[-1])`. -/
def rangeCount (vals : Arr3 Int) (vm : Arr3 Bool) (bins : List Int)
    (r c : Nat) : Nat :=
  ((List.range vals.d0).filter (rangeMatchB vals vm bins r c)).length

/-! ### rebinPtsByHeight (source lines 254-299) -/

/-- The `numpy.uint16` write conversion. -/
def u16 (x : Nat) : Nat := x % 65536

/-- `numpy.zeros((a, b, c), dtype=numpy.uint16)`. -/
def zeros3u16 (a b c : Nat) : Arr3 Nat := ⟨a, b, c, u16, fun _ _ _ => 0⟩

/-- `numpy.zeros((a, b, c, d), dtype=numpy.uint16)`. -/
def zeros4u16 (a b c d : Nat) : Arr4 Nat := ⟨a, b, c, d, u16, fun _ _ _ _ => 0⟩

/-- `numpy.ones((a, b, c, d), dtype=numpy.bool)`. -/
def ones4bool (a b c d : Nat) : Arr4 Bool := ⟨a, b, c, d, id, fun _ _ _ _ => true⟩

/-- `arr.max()` on a 3-d unsigned array; numpy raises `ValueError` on an
empty array (zero-size reduction), modelled by `none`. -/
def Arr3.maxVal (a : Arr3 Nat) : Option Nat :=
  if a.d0 = 0 ∨ a.d1 = 0 ∨ a.d2 = 0 then none
  else some (((List.range a.d0).map fun i =>
      ((List.range a.d1).map fun j =>
          ((List.range a.d2).map fun k => a.get i j k).foldl max 0).foldl
        max 0).foldl max 0)

/-- `arr.fill(0)`. -/
def Arr3.fillZero (a : Arr3 Nat) : Arr3 Nat := { a with get := fun _ _ _ => 0 }

/-- `pointsByBin[(idx_p, idx_row, idx_col)]`: numpy advanced indexing with
three same-shaped index arrays, bounds-checked. -/
def gatherPts (src : Arr3 Int) (ip ir ic : Arr4 Nat) : Option (Arr4 Int) :=
  if ∀ q, q < ip.d0 → ∀ b, b < ip.d1 → ∀ r, r < ip.d2 → ∀ c, c < ip.d3 →
      ip.get q b r c < src.d0 ∧ ir.get q b r c < src.d1 ∧ ic.get q b r c < src.d2
  then
    some ⟨ip.d0, ip.d1, ip.d2, ip.d3, id, fun q b r c =>
      src.get (ip.get q b r c) (ir.get q b r c) (ic.get q b r c)⟩
  else none

/-- A masked 4-d array (`numpy.ma.array(data, mask=mask)`). -/
structure Masked4 where
  data : Arr4 Int
  mask : Arr4 Bool

/-- The first (`counting=True`) call of `rebinPtsByHeight` (source lines
266-279): `uint16` dummies for the unused outputs, a zeroed `uint16`
occupancy array of shape `(nbins, nrows, ncols)`. -/
def rebinCountPass (pointsByBin : Arr3 Int) (pbMask : Arr3 Bool)
    (bins : List Int) : Option StratState :=
  stratify3DArrayByValue pointsByBin pbMask (zeros4u16 1 1 1 1)
    (zeros4u16 1 1 1 1) (zeros4u16 1 1 1 1) (ones4bool 1 1 1 1)
    (zeros3u16 (bins.length - 1) pointsByBin.d1 pointsByBin.d2) bins true

/-- The second (`counting=False`) call of `rebinPtsByHeight` (source lines
282-292): freshly allocated `uint16` index arrays of shape
`(ptsPerHgtBin, nbins, nrows, ncols)`, an all-ones mask, and the re-zeroed
occupancy array. -/
def rebinFillPass (pointsByBin : Arr3 Int) (pbMask : Arr3 Bool)
    (bins : List Int) (ptsPerHgtBin : Nat) (count1 : Arr3 Nat) :
    Option StratState :=
  stratify3DArrayByValue pointsByBin pbMask
    (zeros4u16 ptsPerHgtBin (bins.length - 1) pointsByBin.d1 pointsByBin.d2)
    (zeros4u16 ptsPerHgtBin (bins.length - 1) pointsByBin.d1 pointsByBin.d2)
    (zeros4u16 ptsPerHgtBin (bins.length - 1) pointsByBin.d1 pointsByBin.d2)
    (ones4bool ptsPerHgtBin (bins.length - 1) pointsByBin.d1 pointsByBin.d2)
    count1.fillZero bins false

/-- `LidarData.rebinPtsByHeight` (source lines 254-299), on the height field
of the 3-d ragged masked point array: counting pass, `ptsPerHgtBin =
idxCount.max()`, fill pass, then the gather producing the masked 4-d
result.  `numpy.zeros` with `len(bins) - 1 = -1` raises, modelled by the
leading guard. -/
def rebinPtsByHeight (pointsByBin : Arr3 Int) (pbMask : Arr3 Bool)
    (bins : List Int) : Option Masked4 :=
  if bins.length = 0 then none
  else
    (rebinCountPass pointsByBin pbMask bins).bind fun st1 =>
    st1.countA.maxVal.bind fun ptsPerHgtBin =>
    (rebinFillPass pointsByBin pbMask bins ptsPerHgtBin st1.countA).bind fun st2 =>
    (gatherPts pointsByBin st2.pA st2.rowA st2.colA).map fun rebinned =>
      ⟨rebinned, st2.maskA⟩

/-- The true maximum per-(bin,cell) occupancy (same reduction shape as
`Arr3.maxVal` applied to the exact counts). -/
def capSpec (vals : Arr3 Int) (vm : Arr3 Bool) (bins : List Int) : Nat :=
  ((List.range (bins.length - 1)).map fun b =>
      ((List.range vals.d1).map fun r =>
          ((List.range vals.d2).map fun c =>
              countSpec vals vm bins b r c).foldl max 0).foldl max 0).foldl
    max 0

/-- C-order reshape of the rebinned data from `(cap, nbins, rows, cols)` to
`(cap * nbins, rows, cols)`: a 3-d ragged population again. -/
def flatData (out : Masked4) (nb : Nat) : Arr3 Int :=
  ⟨out.data.d0 * nb, out.data.d2, out.data.d3, id,
    fun q r c => out.data.get (q / nb) (q % nb) r c⟩

/-- C-order reshape of the rebinned mask to `(cap * nbins, rows, cols)`. -/
def flatMask (out : Masked4) (nb : Nat) : Arr3 Bool :=
  ⟨out.mask.d0 * nb, out.mask.d2, out.mask.d3, id,
    fun q r c => out.mask.get (q / nb) (q % nb) r c⟩

/-! ### The user-facing accessor classes -/

/-- The error raised by the spatial accessors in non-spatial mode
(`generic.LiDARNonSpatialProcessing`). -/
inductive LiDARError where
  | liDARNonSpatialProcessing : String → LiDARError
  deriving DecidableEq

/-- The LiDAR file driver as seen by `LidarData`: the spatial-processing
flag from its controls, the by-bins readers, and the log of data handed
over by `writeData` calls. -/
structure LidarDriver where
  spatialProcessing : Bool
  pulsesByBinsRead : Option Int → Option Int → Int
  pointsByBinsRead : Option Int → Option Int → Int
  writeLog : List (Option (List Int) × Option (List Int) × Option (List Int) × Option (List Int))

/-- `LidarData` (source lines 150-381): driver binding, the cached
spatial-processing flag, and the four write buffers. -/
structure LidarData where
  driver : LidarDriver
  spatialProcessing : Bool
  pointsToWrite : Option (List Int)
  pulsesToWrite : Option (List Int)
  receivedToWrite : Option (List Int)
  transmittedToWrite : Option (List Int)

/-- `LidarData.__init__` (source lines 159-168). -/
def mkLidarData (driver : LidarDriver) : LidarData :=
  ⟨driver, driver.spatialProcessing, none, none, none, none⟩

/-- `LidarData.getPulsesByBins` (source lines 200-225). -/
def LidarData.getPulsesByBins (ld : LidarData) (extent colNames : Option Int) :
    Except LiDARError Int :=
  if ld.spatialProcessing then
    Except.ok (ld.driver.pulsesByBinsRead extent colNames)
  else
    Except.error (LiDARError.liDARNonSpatialProcessing
      "Call only valid when doing spatial processing")

/-- `LidarData.getPointsByBins` (source lines 227-252). -/
def LidarData.getPointsByBins (ld : LidarData) (extent colNames : Option Int) :
    Except LiDARError Int :=
  if ld.spatialProcessing then
    Except.ok (ld.driver.pointsByBinsRead extent colNames)
  else
    Except.error (LiDARError.liDARNonSpatialProcessing
      "Call only valid when doing spatial processing")

/-- `LidarData.setPoints` (source lines 350-358). -/
def LidarData.setPoints (ld : LidarData) (points : List Int) : LidarData :=
  { ld with pointsToWrite := some points }

/-- `LidarData.setPulses` (source lines 360-368). -/
def LidarData.setPulses (ld : LidarData) (pulses : List Int) : LidarData :=
  { ld with pulsesToWrite := some pulses }

/-- `LidarData.setReceived` (source lines 343-348). -/
def LidarData.setReceived (ld : LidarData) (received : List Int) : LidarData :=
  { ld with receivedToWrite := some received }

/-- `LidarData.setTransmitted` (source lines 336-341). -/
def LidarData.setTransmitted (ld : LidarData) (transmitted : List Int) : LidarData :=
  { ld with transmittedToWrite := some transmitted }

/-- `LidarData.flush` (source lines 370-381): the `driver.writeData(...)`
call is commented out in the source (a `TODO`), so the driver's write log
is untouched; only the four buffers are reset. -/
def LidarData.flush (ld : LidarData) : LidarData :=
  { ld with pointsToWrite := none, pulsesToWrite := none,
            receivedToWrite := none, transmittedToWrite := none }

/-- The image driver as seen by `ImageData`: the log of `setData` calls. -/
structure ImageDriver where
  setLog : List (Option (List Int))

/-- `ImageData` (source lines 383-415). -/
structure ImageData where
  driver : ImageDriver
  data : Option (List Int)

/-- `ImageData.setData` (source lines 403-408). -/
def ImageData.setData (img : ImageData) (d : List Int) : ImageData :=
  { img with data := some d }

/-- `ImageData.flush` (source lines 410-415): hands `self.data` to the
driver, then resets it. -/
def ImageData.flush (img : ImageData) : ImageData :=
  ⟨⟨img.driver.setLog ++ [img.data]⟩, none⟩

/-! ### Shape-preservation predicates -/

/-- Two 3-d arrays agree in shape and dtype. -/
def SameA3 {α : Type} (a b : Arr3 α) : Prop :=
  a.d0 = b.d0 ∧ a.d1 = b.d1 ∧ a.d2 = b.d2 ∧ a.store = b.store

/-- Two 4-d arrays agree in shape and dtype. -/
def SameA4 {α : Type} (a b : Arr4 α) : Prop :=
  a.d0 = b.d0 ∧ a.d1 = b.d1 ∧ a.d2 = b.d2 ∧ a.d3 = b.d3 ∧ a.store = b.store

/-- Two stratify states agree in all array shapes and dtypes. -/
def ShapeEq (s t : StratState) : Prop :=
  SameA4 s.rowA t.rowA ∧ SameA4 s.colA t.colA ∧ SameA4 s.pA t.pA ∧
    SameA4 s.maskA t.maskA ∧ SameA3 s.countA t.countA

/-! ### Concrete arrays used in witnesses and counterexamples -/

def valsW : Arr3 Int := ⟨1, 1, 1, id, fun _ _ _ => 5⟩

def vmW : Arr3 Bool := ⟨1, 1, 1, id, fun _ _ _ => false⟩

def binsW : List Int := [0, 10]

def count0W : Arr3 Nat := ⟨1, 1, 1, id, fun _ _ _ => 0⟩

def row4W : Arr4 Nat := ⟨1, 1, 1, 1, id, fun _ _ _ _ => 0⟩

def mask4W : Arr4 Bool := ⟨1, 1, 1, 1, id, fun _ _ _ _ => true⟩

def valsE : Arr3 Int := ⟨1, 0, 1, id, fun _ _ _ => 0⟩

def vmE : Arr3 Bool := ⟨1, 0, 1, id, fun _ _ _ => true⟩

def vmAllMaskedW : Arr3 Bool := ⟨1, 1, 1, id, fun _ _ _ => true⟩

def vals2W : Arr3 Int := ⟨2, 1, 1, id, fun _ _ _ => 0⟩

def vm2W : Arr3 Bool := ⟨2, 1, 1, id, fun _ _ _ => false⟩

def vals3W : Arr3 Int := ⟨3, 1, 1, id, fun _ _ _ => 0⟩

def vm3W : Arr3 Bool := ⟨3, 1, 1, id, fun _ _ _ => false⟩

def binsU : List Int := [0, 1]

def binsNM : List Int := [1, 0]

/-- A ragged population with 65537 slots in a single grid cell.  Only slot
65536 — just past the `uint16` range — is valid; its value 5 falls in the
single bin `[0, 10)`.  The (masked) slot 0 holds 999, outside every bin. -/
def valsBig : Arr3 Int :=
  ⟨65537, 1, 1, id, fun p _ _ => if p = 65536 then 5 else 999⟩

/-- Validity mask for `valsBig`: every slot masked except slot 65536. -/
def vmBig : Arr3 Bool := ⟨65537, 1, 1, id, fun p _ _ => decide (p ≠ 65536)⟩

/-! ## Basic lemmas about the array model -/

theorem arr3_upd_get {α : Type} (a : Arr3 α) (i j k : Nat) (v : α)
    (i' j' k' : Nat) :
    (a.upd i j k v).get i' j' k' =
      if i' = i ∧ j' = j ∧ k' = k then a.store v else a.get i' j' k' := rfl

theorem arr4_upd_get {α : Type} (a : Arr4 α) (i j k l : Nat) (v : α)
    (i' j' k' l' : Nat) :
    (a.upd i j k l v).get i' j' k' l' =
      if i' = i ∧ j' = j ∧ k' = k ∧ l' = l then a.store v
      else a.get i' j' k' l' := rfl

theorem sameA3_refl {α : Type} (a : Arr3 α) : SameA3 a a := ⟨rfl, rfl, rfl, rfl⟩

theorem sameA4_refl {α : Type} (a : Arr4 α) : SameA4 a a :=
  ⟨rfl, rfl, rfl, rfl, rfl⟩

theorem sameA3_trans {α : Type} {a b c : Arr3 α} (h1 : SameA3 a b)
    (h2 : SameA3 b c) : SameA3 a c :=
  ⟨h1.1.trans h2.1, h1.2.1.trans h2.2.1, h1.2.2.1.trans h2.2.2.1,
    h1.2.2.2.trans h2.2.2.2⟩

theorem sameA4_trans {α : Type} {a b c : Arr4 α} (h1 : SameA4 a b)
    (h2 : SameA4 b c) : SameA4 a c :=
  ⟨h1.1.trans h2.1, h1.2.1.trans h2.2.1, h1.2.2.1.trans h2.2.2.1,
    h1.2.2.2.1.trans h2.2.2.2.1, h1.2.2.2.2.trans h2.2.2.2.2⟩

theorem sameA3_upd {α : Type} (a : Arr3 α) (i j k : Nat) (v : α) :
    SameA3 (a.upd i j k v) a := ⟨rfl, rfl, rfl, rfl⟩

theorem sameA4_upd {α : Type} (a : Arr4 α) (i j k l : Nat) (v : α) :
    SameA4 (a.upd i j k l v) a := ⟨rfl, rfl, rfl, rfl, rfl⟩

theorem arr3_set_pos {α : Type} (a : Arr3 α) {i j k : Nat} (v : α)
    (h : i < a.d0 ∧ j < a.d1 ∧ k < a.d2) :
    a.set i j k v = some (a.upd i j k v) := by
  unfold Arr3.set; rw [if_pos h]

theorem arr3_set_none {α : Type} (a : Arr3 α) {i j k : Nat} (v : α)
    (h : ¬(i < a.d0 ∧ j < a.d1 ∧ k < a.d2)) : a.set i j k v = none := by
  unfold Arr3.set; rw [if_neg h]

theorem arr4_set_pos {α : Type} (a : Arr4 α) {i j k l : Nat} (v : α)
    (h : i < a.d0 ∧ j < a.d1 ∧ k < a.d2 ∧ l < a.d3) :
    a.set i j k l v = some (a.upd i j k l v) := by
  unfold Arr4.set; rw [if_pos h]

theorem arr4_set_none {α : Type} (a : Arr4 α) {i j k l : Nat} (v : α)
    (h : ¬(i < a.d0 ∧ j < a.d1 ∧ k < a.d2 ∧ l < a.d3)) :
    a.set i j k l v = none := by
  unfold Arr4.set; rw [if_neg h]

theorem iterN_succ {σ : Type} (f : Nat → σ → Option σ) (n : Nat) (st : σ) :
    iterN f (n + 1) st = (iterN f n st).bind (f n) := rfl

theorem mod_idem (x m : Nat) : x % m % m = x % m := by
  cases m with
  | zero => simp
  | succ m => exact Nat.mod_eq_of_lt (Nat.mod_lt _ (Nat.succ_pos m))

theorem mod_exact_of_le {x y m : Nat} (hxy : x ≤ y) (hy : y % m = y) :
    x % m = x := by
  cases m with
  | zero => simp
  | succ m =>
    have hy' : y < m + 1 := by
      by_contra hcon
      have hlt : y % (m + 1) < m + 1 := Nat.mod_lt _ (Nat.succ_pos m)
      rw [hy] at hlt
      omega
    exact Nat.mod_eq_of_lt (Nat.lt_of_le_of_lt hxy hy')

/-! ## Lemmas about the counting specification -/

theorem countUpTo_succ (vals : Arr3 Int) (vm : Arr3 Bool) (bins : List Int)
    (b r c k : Nat) :
    countUpTo vals vm bins b r c (k + 1) =
      countUpTo vals vm bins b r c k +
        (if matchesB vals vm bins b r c k = true then 1 else 0) := by
  unfold countUpTo matchListUpTo
  rw [List.range_succ, List.filter_append, List.length_append]
  by_cases h : matchesB vals vm bins b r c k = true <;> simp [h]

theorem matchListUpTo_succ (vals : Arr3 Int) (vm : Arr3 Bool) (bins : List Int)
    (b r c k : Nat) :
    matchListUpTo vals vm bins b r c (k + 1) =
      matchListUpTo vals vm bins b r c k ++
        (if matchesB vals vm bins b r c k = true then [k] else []) := by
  unfold matchListUpTo
  rw [List.range_succ, List.filter_append]
  by_cases h : matchesB vals vm bins b r c k = true <;> simp [h]

theorem countUpTo_mono (vals : Arr3 Int) (vm : Arr3 Bool) (bins : List Int)
    (b r c : Nat) {k k' : Nat} (h : k ≤ k') :
    countUpTo vals vm bins b r c k ≤ countUpTo vals vm bins b r c k' := by
  induction k' with
  | zero => simp [Nat.le_zero.mp h]
  | succ k' ih =>
    rcases Nat.lt_or_ge k (k' + 1) with hk | hk
    · calc countUpTo vals vm bins b r c k ≤ countUpTo vals vm bins b r c k' :=
            ih (Nat.lt_succ_iff.mp hk)
        _ ≤ countUpTo vals vm bins b r c (k' + 1) := by
            rw [countUpTo_succ]; exact Nat.le_add_right _ _
    · have : k = k' + 1 := Nat.le_antisymm h hk
      subst this; exact Nat.le_refl _

theorem countUpTo_le (vals : Arr3 Int) (vm : Arr3 Bool) (bins : List Int)
    (b r c k : Nat) : countUpTo vals vm bins b r c k ≤ k := by
  unfold countUpTo matchListUpTo
  calc ((List.range k).filter (matchesB vals vm bins b r c)).length
      ≤ (List.range k).length := List.length_filter_le _ _
    _ = k := List.length_range k

theorem countSpec_le_d0 (vals : Arr3 Int) (vm : Arr3 Bool) (bins : List Int)
    (b r c : Nat) : countSpec vals vm bins b r c ≤ vals.d0 :=
  countUpTo_le vals vm bins b r c vals.d0

/-! ## The counting pass (`counting=True`) -/

theorem binLoop_counting (bins : List Int) (r c p : Nat) (v : Int)
    (st : StratState) (n : Nat)
    (hn : n ≤ st.countA.d0) (hr : r < st.countA.d1) (hc : c < st.countA.d2) :
    ∃ st', iterN (binBody true bins r c p v) n st = some st' ∧
      st'.rowA = st.rowA ∧ st'.colA = st.colA ∧ st'.pA = st.pA ∧
      st'.maskA = st.maskA ∧ SameA3 st'.countA st.countA ∧
      ∀ b' r' c', st'.countA.get b' r' c' =
        if b' < n ∧ r' = r ∧ c' = c ∧ inBin bins b' v = true
        then st.countA.store (st.countA.get b' r' c' + 1)
        else st.countA.get b' r' c' := by
  induction n with
  | zero =>
    refine ⟨st, rfl, rfl, rfl, rfl, rfl, sameA3_refl _, fun b' r' c' => ?_⟩
    simp
  | succ n ih =>
    obtain ⟨st', hrun, hrow, hcol, hp, hmask, hsame, hget⟩ :=
      ih (Nat.le_of_succ_le hn)
    rw [iterN_succ, hrun]
    have hb0 : n < st'.countA.d0 := by rw [hsame.1]; omega
    have hb1 : r < st'.countA.d1 := by rw [hsame.2.1]; exact hr
    have hb2 : c < st'.countA.d2 := by rw [hsame.2.2.1]; exact hc
    by_cases hbin : inBin bins n v = true
    · refine ⟨{ st' with countA := st'.countA.upd n r c (st'.countA.get n r c + 1) },
        ?_, hrow, hcol, hp, hmask, sameA3_trans (sameA3_upd _ _ _ _ _) hsame, ?_⟩
      · show binBody true bins r c p v n st' = _
        unfold binBody
        rw [if_pos hbin, if_pos rfl, arr3_set_pos _ _ ⟨hb0, hb1, hb2⟩]
        rfl
      · intro b' r' c'
        have hsto : st'.countA.store = st.countA.store := hsame.2.2.2
        have hgn : st'.countA.get n r c = st.countA.get n r c := by
          rw [hget n r c]; simp
        dsimp only
        rw [arr3_upd_get]
        by_cases h1 : b' = n ∧ r' = r ∧ c' = c
        · rw [if_pos h1]
          obtain ⟨e1, e2, e3⟩ := h1
          subst e1; subst e2; subst e3
          rw [hgn, hsto, if_pos ⟨Nat.lt_succ_self _, rfl, rfl, hbin⟩]
        · rw [if_neg h1, hget b' r' c']
          by_cases h2 : b' < n ∧ r' = r ∧ c' = c ∧ inBin bins b' v = true
          · rw [if_pos h2, if_pos ⟨Nat.lt_succ_of_lt h2.1, h2.2⟩]
          · rw [if_neg h2, if_neg ?_]
            intro h3
            apply h2
            refine ⟨?_, h3.2⟩
            rcases Nat.lt_or_ge b' n with h | h
            · exact h
            · have : b' = n := by omega
              exact absurd ⟨this, h3.2.1, h3.2.2.1⟩ h1
    · refine ⟨st', ?_, hrow, hcol, hp, hmask, hsame, ?_⟩
      · show binBody true bins r c p v n st' = _
        unfold binBody
        rw [if_neg hbin]
      · intro b' r' c'
        rw [hget b' r' c']
        by_cases h2 : b' < n ∧ r' = r ∧ c' = c ∧ inBin bins b' v = true
        · rw [if_pos h2, if_pos ⟨Nat.lt_succ_of_lt h2.1, h2.2⟩]
        · rw [if_neg h2, if_neg ?_]
          intro h3
          apply h2
          refine ⟨?_, h3.2⟩
          rcases Nat.lt_or_ge b' n with h | h
          · exact h
          · have he : b' = n := by omega
            subst he
            exact absurd h3.2.2.2 hbin

theorem pLoop_counting (vals : Arr3 Int) (vm : Arr3 Bool) (bins : List Int)
    (r c : Nat) (m : Nat) (st : StratState) (k : Nat)
    (hn : bins.length - 1 ≤ st.countA.d0) (hr : r < st.countA.d1)
    (hc : c < st.countA.d2) (hst : st.countA.store = (· % m))
    (hred : ∀ b' r' c', st.countA.get b' r' c' % m = st.countA.get b' r' c') :
    ∃ st', iterN (fun p => pBody true vals vm bins r c p) k st = some st' ∧
      st'.rowA = st.rowA ∧ st'.colA = st.colA ∧ st'.pA = st.pA ∧
      st'.maskA = st.maskA ∧ SameA3 st'.countA st.countA ∧
      ∀ b' r' c', st'.countA.get b' r' c' =
        if b' < bins.length - 1 ∧ r' = r ∧ c' = c
        then (st.countA.get b' r' c' + countUpTo vals vm bins b' r c k) % m
        else st.countA.get b' r' c' := by
  induction k with
  | zero =>
    refine ⟨st, rfl, rfl, rfl, rfl, rfl, sameA3_refl _, fun b' r' c' => ?_⟩
    by_cases h : b' < bins.length - 1 ∧ r' = r ∧ c' = c
    · have h0 : countUpTo vals vm bins b' r c 0 = 0 := rfl
      rw [if_pos h, h0, Nat.add_zero]
      exact (hred b' r' c').symm
    · rw [if_neg h]
  | succ k ih =>
    obtain ⟨st', hrun, hrow, hcol, hp, hmask, hsame, hget⟩ := ih
    rw [iterN_succ, hrun]
    by_cases hmk : vm.get k r c = true
    · refine ⟨st', ?_, hrow, hcol, hp, hmask, hsame, ?_⟩
      · show pBody true vals vm bins r c k st' = _
        unfold pBody
        rw [if_pos hmk]
      · intro b' r' c'
        rw [hget b' r' c']
        have hmB : matchesB vals vm bins b' r c k = false := by
          simp [matchesB, hmk]
        have hcnt : countUpTo vals vm bins b' r c (k + 1) =
            countUpTo vals vm bins b' r c k := by
          rw [countUpTo_succ, hmB]
          simp
        rw [hcnt]
    · have hmF : vm.get k r c = false := by
        revert hmk
        cases vm.get k r c <;> simp
      have hn' : bins.length - 1 ≤ st'.countA.d0 := by rw [hsame.1]; exact hn
      have hr' : r < st'.countA.d1 := by rw [hsame.2.1]; exact hr
      have hc' : c < st'.countA.d2 := by rw [hsame.2.2.1]; exact hc
      obtain ⟨st'', hrun2, hrow2, hcol2, hp2, hmask2, hsame2, hget2⟩ :=
        binLoop_counting bins r c k (vals.get k r c) st' (bins.length - 1)
          hn' hr' hc'
      refine ⟨st'', ?_, hrow2.trans hrow, hcol2.trans hcol, hp2.trans hp,
        hmask2.trans hmask, sameA3_trans hsame2 hsame, ?_⟩
      · show pBody true vals vm bins r c k st' = _
        unfold pBody
        rw [if_neg hmk]
        exact hrun2
      · intro b' r' c'
        rw [hget2 b' r' c']
        have hsto : st'.countA.store = (· % m) := by
          rw [hsame.2.2.2]; exact hst
        by_cases h : b' < bins.length - 1 ∧ r' = r ∧ c' = c
        · obtain ⟨hb, he1, he2⟩ := h
          subst he1; subst he2
          by_cases hbin : inBin bins b' (vals.get k r' c') = true
          · have hmB : matchesB vals vm bins b' r' c' k = true := by
              simp [matchesB, hmF, hbin]
            rw [if_pos ⟨hb, rfl, rfl, hbin⟩, hget b' r' c', if_pos ⟨hb, rfl, rfl⟩,
              hsto, countUpTo_succ, hmB]
            simp only [if_true]
            show ((st.countA.get b' r' c' + countUpTo vals vm bins b' r' c' k) % m + 1) % m = _
            rw [Nat.mod_add_mod, Nat.add_assoc]
            simp [hb]
          · have hmB : matchesB vals vm bins b' r' c' k = false := by
              simp [matchesB, hmF, hbin]
            rw [if_neg ?_, hget b' r' c', if_pos ⟨hb, rfl, rfl⟩, countUpTo_succ, hmB]
            · simp [hb]
            · intro hcon
              exact hbin hcon.2.2.2
        · rw [if_neg ?_, hget b' r' c', if_neg h]
          · rw [if_neg h]
          · intro hcon
            exact h ⟨hcon.1, hcon.2.1, hcon.2.2.1⟩

theorem cLoop_counting (vals : Arr3 Int) (vm : Arr3 Bool) (bins : List Int)
    (r : Nat) (m : Nat) (st : StratState) (k : Nat)
    (hn : bins.length - 1 ≤ st.countA.d0) (hr : r < st.countA.d1)
    (hk : k ≤ st.countA.d2) (hst : st.countA.store = (· % m))
    (hred : ∀ b' r' c', st.countA.get b' r' c' % m = st.countA.get b' r' c') :
    ∃ st', iterN (fun c => iterN (fun p => pBody true vals vm bins r c p)
        vals.d0) k st = some st' ∧
      st'.rowA = st.rowA ∧ st'.colA = st.colA ∧ st'.pA = st.pA ∧
      st'.maskA = st.maskA ∧ SameA3 st'.countA st.countA ∧
      ∀ b' r' c', st'.countA.get b' r' c' =
        if b' < bins.length - 1 ∧ r' = r ∧ c' < k
        then (st.countA.get b' r' c' + countSpec vals vm bins b' r c') % m
        else st.countA.get b' r' c' := by
  induction k with
  | zero =>
    refine ⟨st, rfl, rfl, rfl, rfl, rfl, sameA3_refl _, fun b' r' c' => by simp⟩
  | succ k ih =>
    obtain ⟨st', hrun, hrow, hcol, hp, hmask, hsame, hget⟩ :=
      ih (Nat.le_of_succ_le hk)
    rw [iterN_succ, hrun]
    have hn' : bins.length - 1 ≤ st'.countA.d0 := by rw [hsame.1]; exact hn
    have hr' : r < st'.countA.d1 := by rw [hsame.2.1]; exact hr
    have hck : k < st'.countA.d2 := by rw [hsame.2.2.1]; omega
    have hst' : st'.countA.store = (· % m) := by rw [hsame.2.2.2]; exact hst
    have hred' : ∀ b' r' c', st'.countA.get b' r' c' % m = st'.countA.get b' r' c' := by
      intro b' r' c'
      rw [hget b' r' c']
      by_cases h : b' < bins.length - 1 ∧ r' = r ∧ c' < k
      · rw [if_pos h]; exact mod_idem _ _
      · rw [if_neg h]; exact hred b' r' c'
    obtain ⟨st'', hrun2, hrow2, hcol2, hp2, hmask2, hsame2, hget2⟩ :=
      pLoop_counting vals vm bins r k m st' vals.d0 hn' hr' hck hst' hred'
    refine ⟨st'', hrun2, hrow2.trans hrow, hcol2.trans hcol, hp2.trans hp,
      hmask2.trans hmask, sameA3_trans hsame2 hsame, ?_⟩
    intro b' r' c'
    rw [hget2 b' r' c']
    by_cases h1 : b' < bins.length - 1 ∧ r' = r ∧ c' = k
    · obtain ⟨hb, he1, he2⟩ := h1
      rw [if_pos ⟨hb, he1, he2⟩, hget b' r' c', if_neg ?_,
        if_pos ⟨hb, he1, by rw [he2]; omega⟩, he2]
      · rfl
      · intro hcon
        rw [he2] at hcon
        exact Nat.lt_irrefl _ hcon.2.2
    · rw [if_neg h1, hget b' r' c']
      by_cases h2 : b' < bins.length - 1 ∧ r' = r ∧ c' < k
      · rw [if_pos h2, if_pos ⟨h2.1, h2.2.1, Nat.lt_succ_of_lt h2.2.2⟩]
      · rw [if_neg h2, if_neg ?_]
        intro hcon
        apply h2
        refine ⟨hcon.1, hcon.2.1, ?_⟩
        rcases Nat.lt_or_ge c' k with h | h
        · exact h
        · have he : c' = k := by omega
          exact absurd ⟨hcon.1, hcon.2.1, he⟩ h1

theorem rLoop_counting (vals : Arr3 Int) (vm : Arr3 Bool) (bins : List Int)
    (m : Nat) (st : StratState) (k : Nat)
    (hn : bins.length - 1 ≤ st.countA.d0) (hk : k ≤ st.countA.d1)
    (hc2 : vals.d2 ≤ st.countA.d2) (hst : st.countA.store = (· % m))
    (hred : ∀ b' r' c', st.countA.get b' r' c' % m = st.countA.get b' r' c') :
    ∃ st', iterN (fun r => iterN (fun c =>
        iterN (fun p => pBody true vals vm bins r c p) vals.d0) vals.d2) k st =
        some st' ∧
      st'.rowA = st.rowA ∧ st'.colA = st.colA ∧ st'.pA = st.pA ∧
      st'.maskA = st.maskA ∧ SameA3 st'.countA st.countA ∧
      ∀ b' r' c', st'.countA.get b' r' c' =
        if b' < bins.length - 1 ∧ r' < k ∧ c' < vals.d2
        then (st.countA.get b' r' c' + countSpec vals vm bins b' r' c') % m
        else st.countA.get b' r' c' := by
  induction k with
  | zero =>
    refine ⟨st, rfl, rfl, rfl, rfl, rfl, sameA3_refl _, fun b' r' c' => by simp⟩
  | succ k ih =>
    obtain ⟨st', hrun, hrow, hcol, hp, hmask, hsame, hget⟩ :=
      ih (Nat.le_of_succ_le hk)
    rw [iterN_succ, hrun]
    have hn' : bins.length - 1 ≤ st'.countA.d0 := by rw [hsame.1]; exact hn
    have hrk : k < st'.countA.d1 := by rw [hsame.2.1]; omega
    have hc2' : vals.d2 ≤ st'.countA.d2 := by rw [hsame.2.2.1]; exact hc2
    have hst' : st'.countA.store = (· % m) := by rw [hsame.2.2.2]; exact hst
    have hred' : ∀ b' r' c', st'.countA.get b' r' c' % m = st'.countA.get b' r' c' := by
      intro b' r' c'
      rw [hget b' r' c']
      by_cases h : b' < bins.length - 1 ∧ r' < k ∧ c' < vals.d2
      · rw [if_pos h]; exact mod_idem _ _
      · rw [if_neg h]; exact hred b' r' c'
    obtain ⟨st'', hrun2, hrow2, hcol2, hp2, hmask2, hsame2, hget2⟩ :=
      cLoop_counting vals vm bins k m st' vals.d2 hn' hrk hc2' hst' hred'
    refine ⟨st'', hrun2, hrow2.trans hrow, hcol2.trans hcol, hp2.trans hp,
      hmask2.trans hmask, sameA3_trans hsame2 hsame, ?_⟩
    intro b' r' c'
    rw [hget2 b' r' c']
    by_cases h1 : b' < bins.length - 1 ∧ r' = k ∧ c' < vals.d2
    · obtain ⟨hb, he1, he2⟩ := h1
      rw [if_pos ⟨hb, he1, he2⟩, hget b' r' c', if_neg ?_,
        if_pos ⟨hb, by rw [he1]; omega, he2⟩, he1]
      intro hcon
      rw [he1] at hcon
      exact Nat.lt_irrefl _ hcon.2.1
    · rw [if_neg h1, hget b' r' c']
      by_cases h2 : b' < bins.length - 1 ∧ r' < k ∧ c' < vals.d2
      · rw [if_pos h2, if_pos ⟨h2.1, Nat.lt_succ_of_lt h2.2.1, h2.2.2⟩]
      · rw [if_neg h2, if_neg ?_]
        intro hcon
        apply h2
        refine ⟨hcon.1, ?_, hcon.2.2⟩
        rcases Nat.lt_or_ge r' k with h | h
        · exact h
        · have he : r' = k := by omega
          exact absurd ⟨hcon.1, he, hcon.2.2⟩ h1

theorem stratify_counting_general (vals : Arr3 Int) (vm : Arr3 Bool)
    (rA cA pA4 : Arr4 Nat) (mA : Arr4 Bool) (count : Arr3 Nat)
    (bins : List Int) (m : Nat)
    (hn : bins.length - 1 ≤ count.d0) (h1 : vals.d1 ≤ count.d1)
    (h2 : vals.d2 ≤ count.d2) (hst : count.store = (· % m))
    (hred : ∀ b' r' c', count.get b' r' c' % m = count.get b' r' c') :
    ∃ st', stratify3DArrayByValue vals vm rA cA pA4 mA count bins true = some st' ∧
      st'.rowA = rA ∧ st'.colA = cA ∧ st'.pA = pA4 ∧ st'.maskA = mA ∧
      SameA3 st'.countA count ∧
      ∀ b' r' c', st'.countA.get b' r' c' =
        if b' < bins.length - 1 ∧ r' < vals.d1 ∧ c' < vals.d2
        then (count.get b' r' c' + countSpec vals vm bins b' r' c') % m
        else count.get b' r' c' := by
  unfold stratify3DArrayByValue
  exact rLoop_counting vals vm bins m ⟨rA, cA, pA4, mA, count⟩ vals.d1 hn h1 h2
    hst hred

theorem shapeEq_refl (s : StratState) : ShapeEq s s :=
  ⟨sameA4_refl _, sameA4_refl _, sameA4_refl _, sameA4_refl _, sameA3_refl _⟩

theorem shapeEq_trans {a b c : StratState} (h1 : ShapeEq a b)
    (h2 : ShapeEq b c) : ShapeEq a c :=
  ⟨sameA4_trans h1.1 h2.1, sameA4_trans h1.2.1 h2.2.1,
    sameA4_trans h1.2.2.1 h2.2.2.1, sameA4_trans h1.2.2.2.1 h2.2.2.2.1,
    sameA3_trans h1.2.2.2.2 h2.2.2.2.2⟩

/-- One element of the fill pass (`counting=False`): effect of the inner bin
loop on all five arrays, assuming every write cursor is below capacity. -/
theorem binLoop_fill (bins : List Int) (r c p : Nat) (v : Int)
    (st : StratState) (n cap : Nat)
    (hrow : st.rowA.d0 = cap ∧ n ≤ st.rowA.d1 ∧ r < st.rowA.d2 ∧ c < st.rowA.d3)
    (hcol : st.colA.d0 = cap ∧ n ≤ st.colA.d1 ∧ r < st.colA.d2 ∧ c < st.colA.d3)
    (hpa : st.pA.d0 = cap ∧ n ≤ st.pA.d1 ∧ r < st.pA.d2 ∧ c < st.pA.d3)
    (hma : st.maskA.d0 = cap ∧ n ≤ st.maskA.d1 ∧ r < st.maskA.d2 ∧ c < st.maskA.d3)
    (hcnt : n ≤ st.countA.d0 ∧ r < st.countA.d1 ∧ c < st.countA.d2)
    (hok : ∀ b, b < n → inBin bins b v = true → st.countA.get b r c < cap) :
    ∃ st', iterN (binBody false bins r c p v) n st = some st' ∧ ShapeEq st' st ∧
      (∀ b' r' c', st'.countA.get b' r' c' =
        if b' < n ∧ r' = r ∧ c' = c ∧ inBin bins b' v = true
        then st.countA.store (st.countA.get b' r' c' + 1)
        else st.countA.get b' r' c') ∧
      (∀ j b' r' c', st'.rowA.get j b' r' c' =
        if b' < n ∧ r' = r ∧ c' = c ∧ inBin bins b' v = true ∧
            j = st.countA.get b' r' c'
        then st.rowA.store r else st.rowA.get j b' r' c') ∧
      (∀ j b' r' c', st'.colA.get j b' r' c' =
        if b' < n ∧ r' = r ∧ c' = c ∧ inBin bins b' v = true ∧
            j = st.countA.get b' r' c'
        then st.colA.store c else st.colA.get j b' r' c') ∧
      (∀ j b' r' c', st'.pA.get j b' r' c' =
        if b' < n ∧ r' = r ∧ c' = c ∧ inBin bins b' v = true ∧
            j = st.countA.get b' r' c'
        then st.pA.store p else st.pA.get j b' r' c') ∧
      (∀ j b' r' c', st'.maskA.get j b' r' c' =
        if b' < n ∧ r' = r ∧ c' = c ∧ inBin bins b' v = true ∧
            j = st.countA.get b' r' c'
        then st.maskA.store false else st.maskA.get j b' r' c') := by
  induction n with
  | zero =>
    exact ⟨st, rfl, shapeEq_refl st, fun b' r' c' => by simp,
      fun j b' r' c' => by simp, fun j b' r' c' => by simp,
      fun j b' r' c' => by simp, fun j b' r' c' => by simp⟩
  | succ n ih =>
    obtain ⟨st', hrun, hsh, hgc, hgr, hgl, hgp, hgm⟩ :=
      ih ⟨hrow.1, Nat.le_of_succ_le hrow.2.1, hrow.2.2⟩
        ⟨hcol.1, Nat.le_of_succ_le hcol.2.1, hcol.2.2⟩
        ⟨hpa.1, Nat.le_of_succ_le hpa.2.1, hpa.2.2⟩
        ⟨hma.1, Nat.le_of_succ_le hma.2.1, hma.2.2⟩
        ⟨Nat.le_of_succ_le hcnt.1, hcnt.2⟩
        (fun b hb => hok b (Nat.lt_succ_of_lt hb))
    rw [iterN_succ, hrun]
    by_cases hbin : inBin bins n v = true
    case neg =>
      refine ⟨st', ?_, hsh, ?_, ?_, ?_, ?_, ?_⟩
      · show binBody false bins r c p v n st' = _
        unfold binBody
        rw [if_neg hbin]
      · intro b' r' c'
        rw [hgc b' r' c']
        by_cases h2 : b' < n ∧ r' = r ∧ c' = c ∧ inBin bins b' v = true
        · rw [if_pos h2, if_pos ⟨Nat.lt_succ_of_lt h2.1, h2.2⟩]
        · rw [if_neg h2, if_neg ?_]
          intro h3
          apply h2
          refine ⟨?_, h3.2⟩
          rcases Nat.lt_or_ge b' n with h | h
          · exact h
          · have he : b' = n := by omega
            rw [he] at h3
            exact absurd h3.2.2.2 hbin
      all_goals
        intro j b' r' c'
      · rw [hgr j b' r' c']
        by_cases h2 : b' < n ∧ r' = r ∧ c' = c ∧ inBin bins b' v = true ∧
            j = st.countA.get b' r' c'
        · rw [if_pos h2, if_pos ⟨Nat.lt_succ_of_lt h2.1, h2.2⟩]
        · rw [if_neg h2, if_neg ?_]
          intro h3
          apply h2
          refine ⟨?_, h3.2⟩
          rcases Nat.lt_or_ge b' n with h | h
          · exact h
          · have he : b' = n := by omega
            rw [he] at h3
            exact absurd h3.2.2.2.1 hbin
      · rw [hgl j b' r' c']
        by_cases h2 : b' < n ∧ r' = r ∧ c' = c ∧ inBin bins b' v = true ∧
            j = st.countA.get b' r' c'
        · rw [if_pos h2, if_pos ⟨Nat.lt_succ_of_lt h2.1, h2.2⟩]
        · rw [if_neg h2, if_neg ?_]
          intro h3
          apply h2
          refine ⟨?_, h3.2⟩
          rcases Nat.lt_or_ge b' n with h | h
          · exact h
          · have he : b' = n := by omega
            rw [he] at h3
            exact absurd h3.2.2.2.1 hbin
      · rw [hgp j b' r' c']
        by_cases h2 : b' < n ∧ r' = r ∧ c' = c ∧ inBin bins b' v = true ∧
            j = st.countA.get b' r' c'
        · rw [if_pos h2, if_pos ⟨Nat.lt_succ_of_lt h2.1, h2.2⟩]
        · rw [if_neg h2, if_neg ?_]
          intro h3
          apply h2
          refine ⟨?_, h3.2⟩
          rcases Nat.lt_or_ge b' n with h | h
          · exact h
          · have he : b' = n := by omega
            rw [he] at h3
            exact absurd h3.2.2.2.1 hbin
      · rw [hgm j b' r' c']
        by_cases h2 : b' < n ∧ r' = r ∧ c' = c ∧ inBin bins b' v = true ∧
            j = st.countA.get b' r' c'
        · rw [if_pos h2, if_pos ⟨Nat.lt_succ_of_lt h2.1, h2.2⟩]
        · rw [if_neg h2, if_neg ?_]
          intro h3
          apply h2
          refine ⟨?_, h3.2⟩
          rcases Nat.lt_or_ge b' n with h | h
          · exact h
          · have he : b' = n := by omega
            rw [he] at h3
            exact absurd h3.2.2.2.1 hbin
    case pos =>
      have hgn : st'.countA.get n r c = st.countA.get n r c := by
        rw [hgc n r c]; simp
      have hxcap : st.countA.get n r c < cap := hok n (Nat.lt_succ_self n) hbin
      have hstoR : st'.rowA.store = st.rowA.store := hsh.1.2.2.2.2
      have hstoC : st'.colA.store = st.colA.store := hsh.2.1.2.2.2.2
      have hstoP : st'.pA.store = st.pA.store := hsh.2.2.1.2.2.2.2
      have hstoM : st'.maskA.store = st.maskA.store := hsh.2.2.2.1.2.2.2.2
      have hstoN : st'.countA.store = st.countA.store := hsh.2.2.2.2.2.2.2
      have hbrow : st'.countA.get n r c < st'.rowA.d0 ∧ n < st'.rowA.d1 ∧
          r < st'.rowA.d2 ∧ c < st'.rowA.d3 := by
        refine ⟨?_, ?_, ?_, ?_⟩
        · rw [hgn, hsh.1.1, hrow.1]; exact hxcap
        · rw [hsh.1.2.1]; exact hrow.2.1
        · rw [hsh.1.2.2.1]; exact hrow.2.2.1
        · rw [hsh.1.2.2.2.1]; exact hrow.2.2.2
      have hbcol : st'.countA.get n r c < st'.colA.d0 ∧ n < st'.colA.d1 ∧
          r < st'.colA.d2 ∧ c < st'.colA.d3 := by
        refine ⟨?_, ?_, ?_, ?_⟩
        · rw [hgn, hsh.2.1.1, hcol.1]; exact hxcap
        · rw [hsh.2.1.2.1]; exact hcol.2.1
        · rw [hsh.2.1.2.2.1]; exact hcol.2.2.1
        · rw [hsh.2.1.2.2.2.1]; exact hcol.2.2.2
      have hbp : st'.countA.get n r c < st'.pA.d0 ∧ n < st'.pA.d1 ∧
          r < st'.pA.d2 ∧ c < st'.pA.d3 := by
        refine ⟨?_, ?_, ?_, ?_⟩
        · rw [hgn, hsh.2.2.1.1, hpa.1]; exact hxcap
        · rw [hsh.2.2.1.2.1]; exact hpa.2.1
        · rw [hsh.2.2.1.2.2.1]; exact hpa.2.2.1
        · rw [hsh.2.2.1.2.2.2.1]; exact hpa.2.2.2
      have hbmask : st'.countA.get n r c < st'.maskA.d0 ∧ n < st'.maskA.d1 ∧
          r < st'.maskA.d2 ∧ c < st'.maskA.d3 := by
        refine ⟨?_, ?_, ?_, ?_⟩
        · rw [hgn, hsh.2.2.2.1.1, hma.1]; exact hxcap
        · rw [hsh.2.2.2.1.2.1]; exact hma.2.1
        · rw [hsh.2.2.2.1.2.2.1]; exact hma.2.2.1
        · rw [hsh.2.2.2.1.2.2.2.1]; exact hma.2.2.2
      have hbcnt : n < st'.countA.d0 ∧ r < st'.countA.d1 ∧ c < st'.countA.d2 := by
        refine ⟨?_, ?_, ?_⟩
        · rw [hsh.2.2.2.2.1]; exact hcnt.1
        · rw [hsh.2.2.2.2.2.1]; exact hcnt.2.1
        · rw [hsh.2.2.2.2.2.2.1]; exact hcnt.2.2
      refine ⟨⟨st'.rowA.upd (st'.countA.get n r c) n r c r,
        st'.colA.upd (st'.countA.get n r c) n r c c,
        st'.pA.upd (st'.countA.get n r c) n r c p,
        st'.maskA.upd (st'.countA.get n r c) n r c false,
        st'.countA.upd n r c (st'.countA.get n r c + 1)⟩, ?_, ?_, ?_, ?_, ?_, ?_, ?_⟩
      · show binBody false bins r c p v n st' = _
        unfold binBody
        rw [if_pos hbin, if_neg (by simp), arr4_set_pos _ _ hbrow,
          arr4_set_pos _ _ hbcol, arr4_set_pos _ _ hbp,
          arr4_set_pos _ _ hbmask, arr3_set_pos _ _ hbcnt]
        rfl
      · exact shapeEq_trans
          ⟨sameA4_upd _ _ _ _ _ _, sameA4_upd _ _ _ _ _ _, sameA4_upd _ _ _ _ _ _,
            sameA4_upd _ _ _ _ _ _, sameA3_upd _ _ _ _ _⟩ hsh
      · intro b' r' c'
        dsimp only
        rw [arr3_upd_get]
        by_cases h1 : b' = n ∧ r' = r ∧ c' = c
        · obtain ⟨e1, e2, e3⟩ := h1
          rw [e1, e2, e3, if_pos ⟨rfl, rfl, rfl⟩,
            if_pos ⟨Nat.lt_succ_self n, rfl, rfl, hbin⟩, hgn, hstoN]
        · rw [if_neg h1, hgc b' r' c']
          by_cases h2 : b' < n ∧ r' = r ∧ c' = c ∧ inBin bins b' v = true
          · rw [if_pos h2, if_pos ⟨Nat.lt_succ_of_lt h2.1, h2.2⟩]
          · rw [if_neg h2, if_neg ?_]
            intro h3
            rcases Nat.lt_or_ge b' n with h | h
            · exact h2 ⟨h, h3.2⟩
            · have he : b' = n := by omega
              exact h1 ⟨he, h3.2.1, h3.2.2.1⟩
      · intro j b' r' c'
        dsimp only
        rw [arr4_upd_get]
        by_cases h1 : j = st'.countA.get n r c ∧ b' = n ∧ r' = r ∧ c' = c
        · obtain ⟨e0, e1, e2, e3⟩ := h1
          rw [e0, e1, e2, e3, if_pos ⟨rfl, rfl, rfl, rfl⟩,
            if_pos ⟨Nat.lt_succ_self n, rfl, rfl, hbin, hgn⟩, hstoR]
        · rw [if_neg h1, hgr j b' r' c']
          by_cases h2 : b' < n ∧ r' = r ∧ c' = c ∧ inBin bins b' v = true ∧
              j = st.countA.get b' r' c'
          · rw [if_pos h2, if_pos ⟨Nat.lt_succ_of_lt h2.1, h2.2⟩]
          · rw [if_neg h2, if_neg ?_]
            intro h3
            rcases Nat.lt_or_ge b' n with h | h
            · exact h2 ⟨h, h3.2⟩
            · have he : b' = n := by omega
              refine h1 ⟨?_, he, h3.2.1, h3.2.2.1⟩
              rw [h3.2.2.2.2, he, h3.2.1, h3.2.2.1, hgn]
      · intro j b' r' c'
        dsimp only
        rw [arr4_upd_get]
        by_cases h1 : j = st'.countA.get n r c ∧ b' = n ∧ r' = r ∧ c' = c
        · obtain ⟨e0, e1, e2, e3⟩ := h1
          rw [e0, e1, e2, e3, if_pos ⟨rfl, rfl, rfl, rfl⟩,
            if_pos ⟨Nat.lt_succ_self n, rfl, rfl, hbin, hgn⟩, hstoC]
        · rw [if_neg h1, hgl j b' r' c']
          by_cases h2 : b' < n ∧ r' = r ∧ c' = c ∧ inBin bins b' v = true ∧
              j = st.countA.get b' r' c'
          · rw [if_pos h2, if_pos ⟨Nat.lt_succ_of_lt h2.1, h2.2⟩]
          · rw [if_neg h2, if_neg ?_]
            intro h3
            rcases Nat.lt_or_ge b' n with h | h
            · exact h2 ⟨h, h3.2⟩
            · have he : b' = n := by omega
              refine h1 ⟨?_, he, h3.2.1, h3.2.2.1⟩
              rw [h3.2.2.2.2, he, h3.2.1, h3.2.2.1, hgn]
      · intro j b' r' c'
        dsimp only
        rw [arr4_upd_get]
        by_cases h1 : j = st'.countA.get n r c ∧ b' = n ∧ r' = r ∧ c' = c
        · obtain ⟨e0, e1, e2, e3⟩ := h1
          rw [e0, e1, e2, e3, if_pos ⟨rfl, rfl, rfl, rfl⟩,
            if_pos ⟨Nat.lt_succ_self n, rfl, rfl, hbin, hgn⟩, hstoP]
        · rw [if_neg h1, hgp j b' r' c']
          by_cases h2 : b' < n ∧ r' = r ∧ c' = c ∧ inBin bins b' v = true ∧
              j = st.countA.get b' r' c'
          · rw [if_pos h2, if_pos ⟨Nat.lt_succ_of_lt h2.1, h2.2⟩]
          · rw [if_neg h2, if_neg ?_]
            intro h3
            rcases Nat.lt_or_ge b' n with h | h
            · exact h2 ⟨h, h3.2⟩
            · have he : b' = n := by omega
              refine h1 ⟨?_, he, h3.2.1, h3.2.2.1⟩
              rw [h3.2.2.2.2, he, h3.2.1, h3.2.2.1, hgn]
      · intro j b' r' c'
        dsimp only
        rw [arr4_upd_get]
        by_cases h1 : j = st'.countA.get n r c ∧ b' = n ∧ r' = r ∧ c' = c
        · obtain ⟨e0, e1, e2, e3⟩ := h1
          rw [e0, e1, e2, e3, if_pos ⟨rfl, rfl, rfl, rfl⟩,
            if_pos ⟨Nat.lt_succ_self n, rfl, rfl, hbin, hgn⟩, hstoM]
        · rw [if_neg h1, hgm j b' r' c']
          by_cases h2 : b' < n ∧ r' = r ∧ c' = c ∧ inBin bins b' v = true ∧
              j = st.countA.get b' r' c'
          · rw [if_pos h2, if_pos ⟨Nat.lt_succ_of_lt h2.1, h2.2⟩]
          · rw [if_neg h2, if_neg ?_]
            intro h3
            rcases Nat.lt_or_ge b' n with h | h
            · exact h2 ⟨h, h3.2⟩
            · have he : b' = n := by omega
              refine h1 ⟨?_, he, h3.2.1, h3.2.2.1⟩
              rw [h3.2.2.2.2, he, h3.2.1, h3.2.2.1, hgn]

theorem sameA4_dims {α : Type} {a b : Arr4 α} (h : SameA4 a b)
    {cap n r c : Nat} (hb : b.d0 = cap ∧ n ≤ b.d1 ∧ r < b.d2 ∧ c < b.d3) :
    a.d0 = cap ∧ n ≤ a.d1 ∧ r < a.d2 ∧ c < a.d3 :=
  ⟨by rw [h.1]; exact hb.1, by rw [h.2.1]; exact hb.2.1,
    by rw [h.2.2.1]; exact hb.2.2.1, by rw [h.2.2.2.1]; exact hb.2.2.2⟩

theorem sameA3_dims {α : Type} {a b : Arr3 α} (h : SameA3 a b)
    {n r c : Nat} (hb : n ≤ b.d0 ∧ r < b.d1 ∧ c < b.d2) :
    n ≤ a.d0 ∧ r < a.d1 ∧ c < a.d2 :=
  ⟨by rw [h.1]; exact hb.1, by rw [h.2.1]; exact hb.2.1,
    by rw [h.2.2.1]; exact hb.2.2⟩

theorem shapeEq_stores {s t : StratState} (h : ShapeEq s t) :
    s.rowA.store = t.rowA.store ∧ s.colA.store = t.colA.store ∧
      s.pA.store = t.pA.store ∧ s.maskA.store = t.maskA.store ∧
      s.countA.store = t.countA.store :=
  ⟨h.1.2.2.2.2, h.2.1.2.2.2.2, h.2.2.1.2.2.2.2, h.2.2.2.1.2.2.2.2,
    h.2.2.2.2.2.2.2⟩

theorem getD_append_lt {α : Type} (l l' : List α) (d : α) (i : Nat)
    (h : i < l.length) : (l ++ l').getD i d = l.getD i d := by
  induction l generalizing i with
  | nil => simp at h
  | cons a t ihl =>
    cases i with
    | zero => rfl
    | succ i =>
      simp only [List.cons_append, List.getD_cons_succ]
      exact ihl i (by simpa using h)

theorem getD_append_len {α : Type} (l : List α) (a : α) (d : α) :
    (l ++ [a]).getD l.length d = a := by
  induction l with
  | nil => rfl
  | cons x t ihl => simpa only [List.cons_append, List.getD_cons_succ] using ihl

/-- If the cell of the current element has a bin already at capacity, the
fill pass dies with an index error at that write. -/
theorem binLoop_fill_none (bins : List Int) (r c p : Nat) (v : Int)
    (st : StratState) (n cap : Nat)
    (hrow : st.rowA.d0 = cap ∧ n ≤ st.rowA.d1 ∧ r < st.rowA.d2 ∧ c < st.rowA.d3)
    (hcol : st.colA.d0 = cap ∧ n ≤ st.colA.d1 ∧ r < st.colA.d2 ∧ c < st.colA.d3)
    (hpa : st.pA.d0 = cap ∧ n ≤ st.pA.d1 ∧ r < st.pA.d2 ∧ c < st.pA.d3)
    (hma : st.maskA.d0 = cap ∧ n ≤ st.maskA.d1 ∧ r < st.maskA.d2 ∧ c < st.maskA.d3)
    (hcnt : n ≤ st.countA.d0 ∧ r < st.countA.d1 ∧ c < st.countA.d2)
    (hbad : ∃ b, b < n ∧ inBin bins b v = true ∧ cap ≤ st.countA.get b r c) :
    iterN (binBody false bins r c p v) n st = none := by
  induction n with
  | zero =>
    obtain ⟨b, hb, -, -⟩ := hbad
    omega
  | succ n ih =>
    by_cases hprev : ∃ b, b < n ∧ inBin bins b v = true ∧
        cap ≤ st.countA.get b r c
    · rw [iterN_succ,
        ih ⟨hrow.1, Nat.le_of_succ_le hrow.2.1, hrow.2.2⟩
          ⟨hcol.1, Nat.le_of_succ_le hcol.2.1, hcol.2.2⟩
          ⟨hpa.1, Nat.le_of_succ_le hpa.2.1, hpa.2.2⟩
          ⟨hma.1, Nat.le_of_succ_le hma.2.1, hma.2.2⟩
          ⟨Nat.le_of_succ_le hcnt.1, hcnt.2⟩ hprev]
      rfl
    · obtain ⟨b0, hb0, hbin0, hcap0⟩ := hbad
      have hb0n : b0 = n := by
        rcases Nat.lt_or_ge b0 n with h | h
        · exact absurd ⟨b0, h, hbin0, hcap0⟩ hprev
        · omega
      rw [hb0n] at hbin0 hcap0
      have hok : ∀ b, b < n → inBin bins b v = true →
          st.countA.get b r c < cap := by
        intro b hb hbin
        rcases Nat.lt_or_ge (st.countA.get b r c) cap with h | h
        · exact h
        · exact absurd ⟨b, hb, hbin, h⟩ hprev
      obtain ⟨st', hrun, hsh, hgc, -, -, -, -⟩ :=
        binLoop_fill bins r c p v st n cap
          ⟨hrow.1, Nat.le_of_succ_le hrow.2.1, hrow.2.2⟩
          ⟨hcol.1, Nat.le_of_succ_le hcol.2.1, hcol.2.2⟩
          ⟨hpa.1, Nat.le_of_succ_le hpa.2.1, hpa.2.2⟩
          ⟨hma.1, Nat.le_of_succ_le hma.2.1, hma.2.2⟩
          ⟨Nat.le_of_succ_le hcnt.1, hcnt.2⟩ hok
      rw [iterN_succ, hrun]
      show binBody false bins r c p v n st' = none
      unfold binBody
      rw [if_pos hbin0, if_neg (by simp)]
      have hgn : st'.countA.get n r c = st.countA.get n r c := by
        rw [hgc n r c]; simp
      rw [arr4_set_none]
      · rfl
      · intro hcon
        have hd0 : st'.rowA.d0 = cap := by rw [hsh.1.1]; exact hrow.1
        have h1 := hcon.1
        rw [hgn, hd0] at h1
        omega

/-- Invariant of the fill pass over one cell, after processing the first `k`
elements: counts track the matches seen so far, slot `j` of each bin holds
the coordinates of the `j`-th match, unused slots and other cells are
untouched. -/
theorem pLoop_fill (vals : Arr3 Int) (vm : Arr3 Bool) (bins : List Int)
    (r c : Nat) (st0 : StratState) (k cap m : Nat)
    (hrow : st0.rowA.d0 = cap ∧ bins.length - 1 ≤ st0.rowA.d1 ∧
      r < st0.rowA.d2 ∧ c < st0.rowA.d3)
    (hcol : st0.colA.d0 = cap ∧ bins.length - 1 ≤ st0.colA.d1 ∧
      r < st0.colA.d2 ∧ c < st0.colA.d3)
    (hpa : st0.pA.d0 = cap ∧ bins.length - 1 ≤ st0.pA.d1 ∧
      r < st0.pA.d2 ∧ c < st0.pA.d3)
    (hma : st0.maskA.d0 = cap ∧ bins.length - 1 ≤ st0.maskA.d1 ∧
      r < st0.maskA.d2 ∧ c < st0.maskA.d3)
    (hcnt : bins.length - 1 ≤ st0.countA.d0 ∧ r < st0.countA.d1 ∧
      c < st0.countA.d2)
    (hstC : st0.countA.store = (· % m))
    (hc0 : ∀ b, b < bins.length - 1 → st0.countA.get b r c = 0)
    (hexact : ∀ b, b < bins.length - 1 →
      countUpTo vals vm bins b r c k % m = countUpTo vals vm bins b r c k)
    (hcap : ∀ b, b < bins.length - 1 → countUpTo vals vm bins b r c k ≤ cap) :
    ∃ st', iterN (fun p => pBody false vals vm bins r c p) k st0 = some st' ∧
      ShapeEq st' st0 ∧
      (∀ b' r' c', ¬(r' = r ∧ c' = c) →
        st'.countA.get b' r' c' = st0.countA.get b' r' c') ∧
      (∀ j b' r' c', ¬(r' = r ∧ c' = c) →
        st'.rowA.get j b' r' c' = st0.rowA.get j b' r' c' ∧
        st'.colA.get j b' r' c' = st0.colA.get j b' r' c' ∧
        st'.pA.get j b' r' c' = st0.pA.get j b' r' c' ∧
        st'.maskA.get j b' r' c' = st0.maskA.get j b' r' c') ∧
      (∀ b, b < bins.length - 1 →
        st'.countA.get b r c = countUpTo vals vm bins b r c k) ∧
      (∀ b j, b < bins.length - 1 → j < countUpTo vals vm bins b r c k →
        st'.rowA.get j b r c = st0.rowA.store r ∧
        st'.colA.get j b r c = st0.colA.store c ∧
        st'.pA.get j b r c =
          st0.pA.store ((matchListUpTo vals vm bins b r c k).getD j 0) ∧
        st'.maskA.get j b r c = st0.maskA.store false) ∧
      (∀ b j, b < bins.length - 1 → countUpTo vals vm bins b r c k ≤ j →
        st'.rowA.get j b r c = st0.rowA.get j b r c ∧
        st'.colA.get j b r c = st0.colA.get j b r c ∧
        st'.pA.get j b r c = st0.pA.get j b r c ∧
        st'.maskA.get j b r c = st0.maskA.get j b r c) := by
  induction k with
  | zero =>
    refine ⟨st0, rfl, shapeEq_refl st0, fun b' r' c' _ => rfl,
      fun j b' r' c' _ => ⟨rfl, rfl, rfl, rfl⟩, fun b hb => hc0 b hb,
      fun b j hb hj => by simp [countUpTo, matchListUpTo] at hj,
      fun b j hb hj => ⟨rfl, rfl, rfl, rfl⟩⟩
  | succ k ih =>
    obtain ⟨st1, hrun1, hsh1, hfc1, hf41, hcnt1, hfill1, hunf1⟩ :=
      ih (fun b hb => mod_exact_of_le
            (countUpTo_mono vals vm bins b r c (Nat.le_succ k)) (hexact b hb))
        (fun b hb => Nat.le_trans
            (countUpTo_mono vals vm bins b r c (Nat.le_succ k)) (hcap b hb))
    rw [iterN_succ, hrun1]
    by_cases hmk : vm.get k r c = true
    case pos =>
      refine ⟨st1, ?_, hsh1, hfc1, hf41, ?_, ?_, ?_⟩
      · show pBody false vals vm bins r c k st1 = _
        unfold pBody
        rw [if_pos hmk]
      · intro b hb
        have hmB : matchesB vals vm bins b r c k = false := by
          simp [matchesB, hmk]
        rw [countUpTo_succ, hmB, hcnt1 b hb]
        simp
      · intro b j hb hj
        have hmB : matchesB vals vm bins b r c k = false := by
          simp [matchesB, hmk]
        rw [countUpTo_succ, hmB] at hj
        simp at hj
        rw [matchListUpTo_succ, hmB]
        simpa using hfill1 b j hb hj
      · intro b j hb hj
        have hmB : matchesB vals vm bins b r c k = false := by
          simp [matchesB, hmk]
        rw [countUpTo_succ, hmB] at hj
        simp at hj
        exact hunf1 b j hb hj
    case neg =>
      have hmF : vm.get k r c = false := by
        revert hmk
        cases vm.get k r c <;> simp
      have hstoX := shapeEq_stores hsh1
      have hok : ∀ b, b < bins.length - 1 →
          inBin bins b (vals.get k r c) = true →
          st1.countA.get b r c < cap := by
        intro b hb hbin
        rw [hcnt1 b hb]
        have hmB : matchesB vals vm bins b r c k = true := by
          simp [matchesB, hmF, hbin]
        have hle := hcap b hb
        rw [countUpTo_succ, hmB] at hle
        simp at hle
        omega
      obtain ⟨st2, hrun2, hsh2, hgc2, hgr2, hgl2, hgp2, hgm2⟩ :=
        binLoop_fill bins r c k (vals.get k r c) st1 (bins.length - 1) cap
          (sameA4_dims hsh1.1 hrow) (sameA4_dims hsh1.2.1 hcol)
          (sameA4_dims hsh1.2.2.1 hpa) (sameA4_dims hsh1.2.2.2.1 hma)
          (sameA3_dims hsh1.2.2.2.2 hcnt) hok
      refine ⟨st2, ?_, shapeEq_trans hsh2 hsh1, ?_, ?_, ?_, ?_, ?_⟩
      · show pBody false vals vm bins r c k st1 = _
        unfold pBody
        rw [if_neg hmk]
        exact hrun2
      · intro b' r' c' hne
        rw [hgc2 b' r' c', if_neg (fun hcon => hne ⟨hcon.2.1, hcon.2.2.1⟩),
          hfc1 b' r' c' hne]
      · intro j b' r' c' hne
        have h4 := hf41 j b' r' c' hne
        refine ⟨?_, ?_, ?_, ?_⟩
        · rw [hgr2 j b' r' c', if_neg (fun hcon => hne ⟨hcon.2.1, hcon.2.2.1⟩),
            h4.1]
        · rw [hgl2 j b' r' c', if_neg (fun hcon => hne ⟨hcon.2.1, hcon.2.2.1⟩),
            h4.2.1]
        · rw [hgp2 j b' r' c', if_neg (fun hcon => hne ⟨hcon.2.1, hcon.2.2.1⟩),
            h4.2.2.1]
        · rw [hgm2 j b' r' c', if_neg (fun hcon => hne ⟨hcon.2.1, hcon.2.2.1⟩),
            h4.2.2.2]
      · intro b hb
        rw [hgc2 b r c]
        by_cases hbin : inBin bins b (vals.get k r c) = true
        · have hmB : matchesB vals vm bins b r c k = true := by
            simp [matchesB, hmF, hbin]
          rw [if_pos ⟨hb, rfl, rfl, hbin⟩, hcnt1 b hb, hstoX.2.2.2.2, hstC,
            countUpTo_succ, hmB]
          simp only [if_pos]
          have hex1 := hexact b hb
          rw [countUpTo_succ, hmB] at hex1
          simpa using hex1
        · have hmB : matchesB vals vm bins b r c k = false := by
            simp [matchesB, hmF, hbin]
          rw [if_neg (fun hcon => hbin hcon.2.2.2), hcnt1 b hb,
            countUpTo_succ, hmB]
          simp
      · intro b j hb hj
        by_cases hbin : inBin bins b (vals.get k r c) = true
        case neg =>
          have hmB : matchesB vals vm bins b r c k = false := by
            simp [matchesB, hmF, hbin]
          have hcu : countUpTo vals vm bins b r c (k + 1) =
              countUpTo vals vm bins b r c k := by
            rw [countUpTo_succ, hmB]; simp
          have hml : matchListUpTo vals vm bins b r c (k + 1) =
              matchListUpTo vals vm bins b r c k := by
            rw [matchListUpTo_succ, hmB]; simp
          rw [hcu] at hj
          have hf := hfill1 b j hb hj
          have hcond : ¬(b < bins.length - 1 ∧ r = r ∧ c = c ∧
              inBin bins b (vals.get k r c) = true ∧
              j = st1.countA.get b r c) := fun hcon => hbin hcon.2.2.2.1
          rw [hml]
          refine ⟨?_, ?_, ?_, ?_⟩
          · rw [hgr2 j b r c, if_neg hcond, hf.1]
          · rw [hgl2 j b r c, if_neg hcond, hf.2.1]
          · rw [hgp2 j b r c, if_neg hcond, hf.2.2.1]
          · rw [hgm2 j b r c, if_neg hcond, hf.2.2.2]
        case pos =>
          have hmB : matchesB vals vm bins b r c k = true := by
            simp [matchesB, hmF, hbin]
          have hcu : countUpTo vals vm bins b r c (k + 1) =
              countUpTo vals vm bins b r c k + 1 := by
            rw [countUpTo_succ, hmB]; simp
          have hml : matchListUpTo vals vm bins b r c (k + 1) =
              matchListUpTo vals vm bins b r c k ++ [k] := by
            rw [matchListUpTo_succ, hmB]; simp
          rcases Nat.lt_or_ge j (countUpTo vals vm bins b r c k) with hjlt | hjge
          · have hf := hfill1 b j hb hjlt
            have hcond : ¬(b < bins.length - 1 ∧ r = r ∧ c = c ∧
                inBin bins b (vals.get k r c) = true ∧
                j = st1.countA.get b r c) := by
              intro hcon
              have hje := hcon.2.2.2.2
              rw [hcnt1 b hb] at hje
              omega
            rw [hml]
            refine ⟨?_, ?_, ?_, ?_⟩
            · rw [hgr2 j b r c, if_neg hcond, hf.1]
            · rw [hgl2 j b r c, if_neg hcond, hf.2.1]
            · rw [hgp2 j b r c, if_neg hcond, hf.2.2.1,
                getD_append_lt _ _ _ _ hjlt]
            · rw [hgm2 j b r c, if_neg hcond, hf.2.2.2]
          · have hje : j = countUpTo vals vm bins b r c k := by
              rw [hcu] at hj
              omega
            have hcond : b < bins.length - 1 ∧ r = r ∧ c = c ∧
                inBin bins b (vals.get k r c) = true ∧
                j = st1.countA.get b r c :=
              ⟨hb, rfl, rfl, hbin, by rw [hcnt1 b hb]; exact hje⟩
            rw [hml]
            refine ⟨?_, ?_, ?_, ?_⟩
            · rw [hgr2 j b r c, if_pos hcond, hstoX.1]
            · rw [hgl2 j b r c, if_pos hcond, hstoX.2.1]
            · rw [hgp2 j b r c, if_pos hcond, hstoX.2.2.1, hje]
              show st0.pA.store k = st0.pA.store
                ((matchListUpTo vals vm bins b r c k ++ [k]).getD
                  (matchListUpTo vals vm bins b r c k).length 0)
              rw [getD_append_len]
            · rw [hgm2 j b r c, if_pos hcond, hstoX.2.2.2.1]
      · intro b j hb hj
        have hjk : countUpTo vals vm bins b r c k ≤ j :=
          Nat.le_trans (countUpTo_mono vals vm bins b r c (Nat.le_succ k)) hj
        have hu := hunf1 b j hb hjk
        have hcond : ¬(b < bins.length - 1 ∧ r = r ∧ c = c ∧
            inBin bins b (vals.get k r c) = true ∧
            j = st1.countA.get b r c) := by
          intro hcon
          have hje := hcon.2.2.2.2
          rw [hcnt1 b hb] at hje
          have hmB : matchesB vals vm bins b r c k = true := by
            simp [matchesB, hmF, hcon.2.2.2.1]
          rw [countUpTo_succ, hmB] at hj
          simp at hj
          omega
        refine ⟨?_, ?_, ?_, ?_⟩
        · rw [hgr2 j b r c, if_neg hcond, hu.1]
        · rw [hgl2 j b r c, if_neg hcond, hu.2.1]
        · rw [hgp2 j b r c, if_neg hcond, hu.2.2.1]
        · rw [hgm2 j b r c, if_neg hcond, hu.2.2.2]

/-- If some bin of cell `(r, c)` collects more than `cap` matches among the
first `k` elements, the fill pass over that cell raises an index error. -/
theorem pLoop_fill_none (vals : Arr3 Int) (vm : Arr3 Bool) (bins : List Int)
    (r c : Nat) (st0 : StratState) (k cap m : Nat)
    (hrow : st0.rowA.d0 = cap ∧ bins.length - 1 ≤ st0.rowA.d1 ∧
      r < st0.rowA.d2 ∧ c < st0.rowA.d3)
    (hcol : st0.colA.d0 = cap ∧ bins.length - 1 ≤ st0.colA.d1 ∧
      r < st0.colA.d2 ∧ c < st0.colA.d3)
    (hpa : st0.pA.d0 = cap ∧ bins.length - 1 ≤ st0.pA.d1 ∧
      r < st0.pA.d2 ∧ c < st0.pA.d3)
    (hma : st0.maskA.d0 = cap ∧ bins.length - 1 ≤ st0.maskA.d1 ∧
      r < st0.maskA.d2 ∧ c < st0.maskA.d3)
    (hcnt : bins.length - 1 ≤ st0.countA.d0 ∧ r < st0.countA.d1 ∧
      c < st0.countA.d2)
    (hstC : st0.countA.store = (· % m))
    (hc0 : ∀ b, b < bins.length - 1 → st0.countA.get b r c = 0)
    (hexact : ∀ b, b < bins.length - 1 →
      countUpTo vals vm bins b r c k % m = countUpTo vals vm bins b r c k)
    (hbad : ∃ b, b < bins.length - 1 ∧ cap < countUpTo vals vm bins b r c k) :
    iterN (fun p => pBody false vals vm bins r c p) k st0 = none := by
  induction k with
  | zero =>
    obtain ⟨b, hb, hlt⟩ := hbad
    have h0 : countUpTo vals vm bins b r c 0 = 0 := rfl
    omega
  | succ k ih =>
    by_cases hprev : ∃ b, b < bins.length - 1 ∧
        cap < countUpTo vals vm bins b r c k
    · rw [iterN_succ,
        ih (fun b hb => mod_exact_of_le
            (countUpTo_mono vals vm bins b r c (Nat.le_succ k)) (hexact b hb))
          hprev]
      rfl
    · obtain ⟨b0, hb0, hlt0⟩ := hbad
      have hcapk : ∀ b, b < bins.length - 1 →
          countUpTo vals vm bins b r c k ≤ cap := by
        intro b hb
        rcases Nat.lt_or_ge cap (countUpTo vals vm bins b r c k) with h | h
        · exact absurd ⟨b, hb, h⟩ hprev
        · exact h
      obtain ⟨st1, hrun1, hsh1, -, -, hcnt1, -, -⟩ :=
        pLoop_fill vals vm bins r c st0 k cap m hrow hcol hpa hma hcnt hstC hc0
          (fun b hb => mod_exact_of_le
            (countUpTo_mono vals vm bins b r c (Nat.le_succ k)) (hexact b hb))
          hcapk
      rw [iterN_succ, hrun1]
      have hmB : matchesB vals vm bins b0 r c k = true := by
        cases h : matchesB vals vm bins b0 r c k
        · rw [countUpTo_succ, h] at hlt0
          simp at hlt0
          exact absurd (hcapk b0 hb0) (by omega)
        · rfl
      have hmF : vm.get k r c = false := by
        cases h : vm.get k r c
        · rfl
        · unfold matchesB at hmB
          rw [h] at hmB
          simp at hmB
      have hbin0 : inBin bins b0 (vals.get k r c) = true := by
        unfold matchesB at hmB
        rw [hmF] at hmB
        simpa using hmB
      show pBody false vals vm bins r c k st1 = none
      unfold pBody
      rw [if_neg (by simp [hmF])]
      apply binLoop_fill_none bins r c k (vals.get k r c) st1
        (bins.length - 1) cap
        (sameA4_dims hsh1.1 hrow) (sameA4_dims hsh1.2.1 hcol)
        (sameA4_dims hsh1.2.2.1 hpa) (sameA4_dims hsh1.2.2.2.1 hma)
        (sameA3_dims hsh1.2.2.2.2 hcnt)
      refine ⟨b0, hb0, hbin0, ?_⟩
      rw [hcnt1 b0 hb0]
      rw [countUpTo_succ, hmB] at hlt0
      simp at hlt0
      omega

/-- Fill pass over the first `k` cells of row `r`: processed cells reach
their final contents, everything else is untouched. -/
theorem cLoop_fill (vals : Arr3 Int) (vm : Arr3 Bool) (bins : List Int)
    (r : Nat) (st0 : StratState) (k cap m : Nat) (hk : k ≤ vals.d2)
    (hrow : st0.rowA.d0 = cap ∧ bins.length - 1 ≤ st0.rowA.d1 ∧
      r < st0.rowA.d2 ∧ vals.d2 ≤ st0.rowA.d3)
    (hcol : st0.colA.d0 = cap ∧ bins.length - 1 ≤ st0.colA.d1 ∧
      r < st0.colA.d2 ∧ vals.d2 ≤ st0.colA.d3)
    (hpa : st0.pA.d0 = cap ∧ bins.length - 1 ≤ st0.pA.d1 ∧
      r < st0.pA.d2 ∧ vals.d2 ≤ st0.pA.d3)
    (hma : st0.maskA.d0 = cap ∧ bins.length - 1 ≤ st0.maskA.d1 ∧
      r < st0.maskA.d2 ∧ vals.d2 ≤ st0.maskA.d3)
    (hcnt : bins.length - 1 ≤ st0.countA.d0 ∧ r < st0.countA.d1 ∧
      vals.d2 ≤ st0.countA.d2)
    (hstC : st0.countA.store = (· % m))
    (hc0 : ∀ b c', b < bins.length - 1 → c' < vals.d2 →
      st0.countA.get b r c' = 0)
    (hexact : ∀ b c', b < bins.length - 1 → c' < vals.d2 →
      countSpec vals vm bins b r c' % m = countSpec vals vm bins b r c')
    (hcap : ∀ b c', b < bins.length - 1 → c' < k →
      countSpec vals vm bins b r c' ≤ cap) :
    ∃ st', iterN (fun c => iterN (fun p => pBody false vals vm bins r c p)
        vals.d0) k st0 = some st' ∧
      ShapeEq st' st0 ∧
      (∀ b' r' c', ¬(r' = r ∧ c' < k) →
        st'.countA.get b' r' c' = st0.countA.get b' r' c') ∧
      (∀ j b' r' c', ¬(r' = r ∧ c' < k) →
        st'.rowA.get j b' r' c' = st0.rowA.get j b' r' c' ∧
        st'.colA.get j b' r' c' = st0.colA.get j b' r' c' ∧
        st'.pA.get j b' r' c' = st0.pA.get j b' r' c' ∧
        st'.maskA.get j b' r' c' = st0.maskA.get j b' r' c') ∧
      (∀ b c', b < bins.length - 1 → c' < k →
        st'.countA.get b r c' = countSpec vals vm bins b r c') ∧
      (∀ b c' j, b < bins.length - 1 → c' < k →
        j < countSpec vals vm bins b r c' →
        st'.rowA.get j b r c' = st0.rowA.store r ∧
        st'.colA.get j b r c' = st0.colA.store c' ∧
        st'.pA.get j b r c' =
          st0.pA.store ((matchList vals vm bins b r c').getD j 0) ∧
        st'.maskA.get j b r c' = st0.maskA.store false) ∧
      (∀ b c' j, b < bins.length - 1 → c' < k →
        countSpec vals vm bins b r c' ≤ j →
        st'.rowA.get j b r c' = st0.rowA.get j b r c' ∧
        st'.colA.get j b r c' = st0.colA.get j b r c' ∧
        st'.pA.get j b r c' = st0.pA.get j b r c' ∧
        st'.maskA.get j b r c' = st0.maskA.get j b r c') := by
  induction k with
  | zero =>
    exact ⟨st0, rfl, shapeEq_refl st0, fun b' r' c' _ => rfl,
      fun j b' r' c' _ => ⟨rfl, rfl, rfl, rfl⟩,
      fun b c' hb hc' => absurd hc' (Nat.not_lt_zero c'),
      fun b c' j hb hc' hj => absurd hc' (Nat.not_lt_zero c'),
      fun b c' j hb hc' hj => absurd hc' (Nat.not_lt_zero c')⟩
  | succ k ih =>
    obtain ⟨st1, hrun1, hsh1, hfc1, hf41, hcell1, hfill1, hunf1⟩ :=
      ih (Nat.le_of_succ_le hk)
        (fun b c' hb hc' => hcap b c' hb (Nat.lt_succ_of_lt hc'))
    rw [iterN_succ, hrun1]
    have hkd2 : k < vals.d2 := hk
    have hstoX1 := shapeEq_stores hsh1
    obtain ⟨st2, hrun2, hsh2, hfc2, hf42, hcell2, hfill2, hunf2⟩ :=
      pLoop_fill vals vm bins r k st1 vals.d0 cap m
        (sameA4_dims hsh1.1
          ⟨hrow.1, hrow.2.1, hrow.2.2.1, Nat.lt_of_lt_of_le hkd2 hrow.2.2.2⟩)
        (sameA4_dims hsh1.2.1
          ⟨hcol.1, hcol.2.1, hcol.2.2.1, Nat.lt_of_lt_of_le hkd2 hcol.2.2.2⟩)
        (sameA4_dims hsh1.2.2.1
          ⟨hpa.1, hpa.2.1, hpa.2.2.1, Nat.lt_of_lt_of_le hkd2 hpa.2.2.2⟩)
        (sameA4_dims hsh1.2.2.2.1
          ⟨hma.1, hma.2.1, hma.2.2.1, Nat.lt_of_lt_of_le hkd2 hma.2.2.2⟩)
        (sameA3_dims hsh1.2.2.2.2
          ⟨hcnt.1, hcnt.2.1, Nat.lt_of_lt_of_le hkd2 hcnt.2.2⟩)
        (by rw [hstoX1.2.2.2.2]; exact hstC)
        (fun b hb => by
          rw [hfc1 b r k (fun hcon => Nat.lt_irrefl k hcon.2)]
          exact hc0 b k hb hkd2)
        (fun b hb => hexact b k hb hkd2)
        (fun b hb => hcap b k hb (Nat.lt_succ_self k))
    refine ⟨st2, ?_, shapeEq_trans hsh2 hsh1, ?_, ?_, ?_, ?_, ?_⟩
    · show iterN (fun p => pBody false vals vm bins r k p) vals.d0 st1 = some st2
      exact hrun2
    · intro b' r' c' hne
      have hne2 : ¬(r' = r ∧ c' = k) := fun hcon =>
        hne ⟨hcon.1, by rw [hcon.2]; exact Nat.lt_succ_self k⟩
      have hne1 : ¬(r' = r ∧ c' < k) := fun hcon =>
        hne ⟨hcon.1, Nat.lt_succ_of_lt hcon.2⟩
      rw [hfc2 b' r' c' hne2, hfc1 b' r' c' hne1]
    · intro j b' r' c' hne
      have hne2 : ¬(r' = r ∧ c' = k) := fun hcon =>
        hne ⟨hcon.1, by rw [hcon.2]; exact Nat.lt_succ_self k⟩
      have hne1 : ¬(r' = r ∧ c' < k) := fun hcon =>
        hne ⟨hcon.1, Nat.lt_succ_of_lt hcon.2⟩
      have h42 := hf42 j b' r' c' hne2
      have h41 := hf41 j b' r' c' hne1
      exact ⟨h42.1.trans h41.1, h42.2.1.trans h41.2.1,
        h42.2.2.1.trans h41.2.2.1, h42.2.2.2.trans h41.2.2.2⟩
    · intro b c' hb hc'
      rcases Nat.lt_or_ge c' k with h | h
      · have hne2 : ¬(r = r ∧ c' = k) := fun hcon => absurd hcon.2 (by omega)
        rw [hfc2 b r c' hne2]
        exact hcell1 b c' hb h
      · have he : c' = k := by omega
        rw [he]
        exact hcell2 b hb
    · intro b c' j hb hc' hj
      rcases Nat.lt_or_ge c' k with h | h
      · have hne2 : ¬(r = r ∧ c' = k) := fun hcon => absurd hcon.2 (by omega)
        have hf := hfill1 b c' j hb h hj
        have h4 := hf42 j b r c' hne2
        exact ⟨h4.1.trans hf.1, h4.2.1.trans hf.2.1, h4.2.2.1.trans hf.2.2.1,
          h4.2.2.2.trans hf.2.2.2⟩
      · have he : c' = k := by omega
        rw [he] at hj ⊢
        refine ⟨?_, ?_, ?_, ?_⟩
        · rw [(hfill2 b j hb hj).1, hstoX1.1]
        · rw [(hfill2 b j hb hj).2.1, hstoX1.2.1]
        · rw [(hfill2 b j hb hj).2.2.1, hstoX1.2.2.1]
          rfl
        · rw [(hfill2 b j hb hj).2.2.2, hstoX1.2.2.2.1]
    · intro b c' j hb hc' hj
      rcases Nat.lt_or_ge c' k with h | h
      · have hne2 : ¬(r = r ∧ c' = k) := fun hcon => absurd hcon.2 (by omega)
        have hu := hunf1 b c' j hb h hj
        have h4 := hf42 j b r c' hne2
        exact ⟨h4.1.trans hu.1, h4.2.1.trans hu.2.1, h4.2.2.1.trans hu.2.2.1,
          h4.2.2.2.trans hu.2.2.2⟩
      · have he : c' = k := by omega
        rw [he] at hj ⊢
        have hu2 := hunf2 b j hb hj
        have hne1 : ¬(r = r ∧ k < k) := fun hcon => Nat.lt_irrefl k hcon.2
        have h41 := hf41 j b r k hne1
        exact ⟨hu2.1.trans h41.1, hu2.2.1.trans h41.2.1,
          hu2.2.2.1.trans h41.2.2.1, hu2.2.2.2.trans h41.2.2.2⟩

/-- If some processed cell of row `r` has a bin whose true count exceeds
`cap`, the fill pass over the first `k` cells raises an index error. -/
theorem cLoop_fill_none (vals : Arr3 Int) (vm : Arr3 Bool) (bins : List Int)
    (r : Nat) (st0 : StratState) (k cap m : Nat) (hk : k ≤ vals.d2)
    (hrow : st0.rowA.d0 = cap ∧ bins.length - 1 ≤ st0.rowA.d1 ∧
      r < st0.rowA.d2 ∧ vals.d2 ≤ st0.rowA.d3)
    (hcol : st0.colA.d0 = cap ∧ bins.length - 1 ≤ st0.colA.d1 ∧
      r < st0.colA.d2 ∧ vals.d2 ≤ st0.colA.d3)
    (hpa : st0.pA.d0 = cap ∧ bins.length - 1 ≤ st0.pA.d1 ∧
      r < st0.pA.d2 ∧ vals.d2 ≤ st0.pA.d3)
    (hma : st0.maskA.d0 = cap ∧ bins.length - 1 ≤ st0.maskA.d1 ∧
      r < st0.maskA.d2 ∧ vals.d2 ≤ st0.maskA.d3)
    (hcnt : bins.length - 1 ≤ st0.countA.d0 ∧ r < st0.countA.d1 ∧
      vals.d2 ≤ st0.countA.d2)
    (hstC : st0.countA.store = (· % m))
    (hc0 : ∀ b c', b < bins.length - 1 → c' < vals.d2 →
      st0.countA.get b r c' = 0)
    (hexact : ∀ b c', b < bins.length - 1 → c' < vals.d2 →
      countSpec vals vm bins b r c' % m = countSpec vals vm bins b r c')
    (hbad : ∃ b c', b < bins.length - 1 ∧ c' < k ∧
      cap < countSpec vals vm bins b r c') :
    iterN (fun c => iterN (fun p => pBody false vals vm bins r c p) vals.d0) k
      st0 = none := by
  induction k with
  | zero =>
    obtain ⟨b, c', hb, hc', hlt⟩ := hbad
    omega
  | succ k ih =>
    by_cases hprev : ∃ b c', b < bins.length - 1 ∧ c' < k ∧
        cap < countSpec vals vm bins b r c'
    · rw [iterN_succ, ih (Nat.le_of_succ_le hk) hprev]
      rfl
    · obtain ⟨b0, c0, hb0, hc0', hlt0⟩ := hbad
      have hc0k : c0 = k := by
        rcases Nat.lt_or_ge c0 k with h | h
        · exact absurd ⟨b0, c0, hb0, h, hlt0⟩ hprev
        · omega
      rw [hc0k] at hlt0
      have hcapk : ∀ b c', b < bins.length - 1 → c' < k →
          countSpec vals vm bins b r c' ≤ cap := by
        intro b c' hb hc'
        rcases Nat.lt_or_ge cap (countSpec vals vm bins b r c') with h | h
        · exact absurd ⟨b, c', hb, hc', h⟩ hprev
        · exact h
      obtain ⟨st1, hrun1, hsh1, hfc1, -, -, -, -⟩ :=
        cLoop_fill vals vm bins r st0 k cap m (Nat.le_of_succ_le hk)
          hrow hcol hpa hma hcnt hstC hc0 hexact hcapk
      rw [iterN_succ, hrun1]
      have hkd2 : k < vals.d2 := hk
      have hstoX1 := shapeEq_stores hsh1
      show iterN (fun p => pBody false vals vm bins r k p) vals.d0 st1 = none
      apply pLoop_fill_none vals vm bins r k st1 vals.d0 cap m
        (sameA4_dims hsh1.1
          ⟨hrow.1, hrow.2.1, hrow.2.2.1, Nat.lt_of_lt_of_le hkd2 hrow.2.2.2⟩)
        (sameA4_dims hsh1.2.1
          ⟨hcol.1, hcol.2.1, hcol.2.2.1, Nat.lt_of_lt_of_le hkd2 hcol.2.2.2⟩)
        (sameA4_dims hsh1.2.2.1
          ⟨hpa.1, hpa.2.1, hpa.2.2.1, Nat.lt_of_lt_of_le hkd2 hpa.2.2.2⟩)
        (sameA4_dims hsh1.2.2.2.1
          ⟨hma.1, hma.2.1, hma.2.2.1, Nat.lt_of_lt_of_le hkd2 hma.2.2.2⟩)
        (sameA3_dims hsh1.2.2.2.2
          ⟨hcnt.1, hcnt.2.1, Nat.lt_of_lt_of_le hkd2 hcnt.2.2⟩)
        (by rw [hstoX1.2.2.2.2]; exact hstC)
        (fun b hb => by
          rw [hfc1 b r k (fun hcon => Nat.lt_irrefl k hcon.2)]
          exact hc0 b k hb hkd2)
        (fun b hb => hexact b k hb hkd2)
        ⟨b0, hb0, hlt0⟩

theorem sameA4_dims' {α : Type} {a b : Arr4 α} (h : SameA4 a b)
    {cap n r c : Nat} (hb : b.d0 = cap ∧ n ≤ b.d1 ∧ r < b.d2 ∧ c ≤ b.d3) :
    a.d0 = cap ∧ n ≤ a.d1 ∧ r < a.d2 ∧ c ≤ a.d3 :=
  ⟨by rw [h.1]; exact hb.1, by rw [h.2.1]; exact hb.2.1,
    by rw [h.2.2.1]; exact hb.2.2.1, by rw [h.2.2.2.1]; exact hb.2.2.2⟩

theorem sameA3_dims' {α : Type} {a b : Arr3 α} (h : SameA3 a b)
    {n r c : Nat} (hb : n ≤ b.d0 ∧ r < b.d1 ∧ c ≤ b.d2) :
    n ≤ a.d0 ∧ r < a.d1 ∧ c ≤ a.d2 :=
  ⟨by rw [h.1]; exact hb.1, by rw [h.2.1]; exact hb.2.1,
    by rw [h.2.2.1]; exact hb.2.2⟩

/-- Fill pass over the first `k` rows: processed rows reach their final
contents, everything else is untouched. -/
theorem rLoop_fill (vals : Arr3 Int) (vm : Arr3 Bool) (bins : List Int)
    (st0 : StratState) (k cap m : Nat) (hk : k ≤ vals.d1)
    (hrow : st0.rowA.d0 = cap ∧ bins.length - 1 ≤ st0.rowA.d1 ∧
      vals.d1 ≤ st0.rowA.d2 ∧ vals.d2 ≤ st0.rowA.d3)
    (hcol : st0.colA.d0 = cap ∧ bins.length - 1 ≤ st0.colA.d1 ∧
      vals.d1 ≤ st0.colA.d2 ∧ vals.d2 ≤ st0.colA.d3)
    (hpa : st0.pA.d0 = cap ∧ bins.length - 1 ≤ st0.pA.d1 ∧
      vals.d1 ≤ st0.pA.d2 ∧ vals.d2 ≤ st0.pA.d3)
    (hma : st0.maskA.d0 = cap ∧ bins.length - 1 ≤ st0.maskA.d1 ∧
      vals.d1 ≤ st0.maskA.d2 ∧ vals.d2 ≤ st0.maskA.d3)
    (hcnt : bins.length - 1 ≤ st0.countA.d0 ∧ vals.d1 ≤ st0.countA.d1 ∧
      vals.d2 ≤ st0.countA.d2)
    (hstC : st0.countA.store = (· % m))
    (hc0 : ∀ b r' c', b < bins.length - 1 → r' < vals.d1 → c' < vals.d2 →
      st0.countA.get b r' c' = 0)
    (hexact : ∀ b r' c', b < bins.length - 1 → r' < vals.d1 → c' < vals.d2 →
      countSpec vals vm bins b r' c' % m = countSpec vals vm bins b r' c')
    (hcap : ∀ b r' c', b < bins.length - 1 → r' < k → c' < vals.d2 →
      countSpec vals vm bins b r' c' ≤ cap) :
    ∃ st', iterN (fun r => iterN (fun c =>
        iterN (fun p => pBody false vals vm bins r c p) vals.d0) vals.d2) k
        st0 = some st' ∧
      ShapeEq st' st0 ∧
      (∀ b' r' c', k ≤ r' → st'.countA.get b' r' c' = st0.countA.get b' r' c') ∧
      (∀ j b' r' c', k ≤ r' →
        st'.rowA.get j b' r' c' = st0.rowA.get j b' r' c' ∧
        st'.colA.get j b' r' c' = st0.colA.get j b' r' c' ∧
        st'.pA.get j b' r' c' = st0.pA.get j b' r' c' ∧
        st'.maskA.get j b' r' c' = st0.maskA.get j b' r' c') ∧
      (∀ b r' c', b < bins.length - 1 → r' < k → c' < vals.d2 →
        st'.countA.get b r' c' = countSpec vals vm bins b r' c') ∧
      (∀ b r' c' j, b < bins.length - 1 → r' < k → c' < vals.d2 →
        j < countSpec vals vm bins b r' c' →
        st'.rowA.get j b r' c' = st0.rowA.store r' ∧
        st'.colA.get j b r' c' = st0.colA.store c' ∧
        st'.pA.get j b r' c' =
          st0.pA.store ((matchList vals vm bins b r' c').getD j 0) ∧
        st'.maskA.get j b r' c' = st0.maskA.store false) ∧
      (∀ b r' c' j, b < bins.length - 1 → r' < k → c' < vals.d2 →
        countSpec vals vm bins b r' c' ≤ j →
        st'.rowA.get j b r' c' = st0.rowA.get j b r' c' ∧
        st'.colA.get j b r' c' = st0.colA.get j b r' c' ∧
        st'.pA.get j b r' c' = st0.pA.get j b r' c' ∧
        st'.maskA.get j b r' c' = st0.maskA.get j b r' c') := by
  induction k with
  | zero =>
    exact ⟨st0, rfl, shapeEq_refl st0, fun b' r' c' _ => rfl,
      fun j b' r' c' _ => ⟨rfl, rfl, rfl, rfl⟩,
      fun b r' c' hb hr' hc' => absurd hr' (Nat.not_lt_zero r'),
      fun b r' c' j hb hr' hc' hj => absurd hr' (Nat.not_lt_zero r'),
      fun b r' c' j hb hr' hc' hj => absurd hr' (Nat.not_lt_zero r')⟩
  | succ k ih =>
    obtain ⟨st1, hrun1, hsh1, hfc1, hf41, hcell1, hfill1, hunf1⟩ :=
      ih (Nat.le_of_succ_le hk)
        (fun b r' c' hb hr' hc' => hcap b r' c' hb (Nat.lt_succ_of_lt hr') hc')
    rw [iterN_succ, hrun1]
    have hkd1 : k < vals.d1 := hk
    have hstoX1 := shapeEq_stores hsh1
    obtain ⟨st2, hrun2, hsh2, hfc2, hf42, hcell2, hfill2, hunf2⟩ :=
      cLoop_fill vals vm bins k st1 vals.d2 cap m (Nat.le_refl _)
        (sameA4_dims' hsh1.1
          ⟨hrow.1, hrow.2.1, Nat.lt_of_lt_of_le hkd1 hrow.2.2.1, hrow.2.2.2⟩)
        (sameA4_dims' hsh1.2.1
          ⟨hcol.1, hcol.2.1, Nat.lt_of_lt_of_le hkd1 hcol.2.2.1, hcol.2.2.2⟩)
        (sameA4_dims' hsh1.2.2.1
          ⟨hpa.1, hpa.2.1, Nat.lt_of_lt_of_le hkd1 hpa.2.2.1, hpa.2.2.2⟩)
        (sameA4_dims' hsh1.2.2.2.1
          ⟨hma.1, hma.2.1, Nat.lt_of_lt_of_le hkd1 hma.2.2.1, hma.2.2.2⟩)
        (sameA3_dims' hsh1.2.2.2.2
          ⟨hcnt.1, Nat.lt_of_lt_of_le hkd1 hcnt.2.1, hcnt.2.2⟩)
        (by rw [hstoX1.2.2.2.2]; exact hstC)
        (fun b c' hb hc' => by
          rw [hfc1 b k c' (Nat.le_refl k)]
          exact hc0 b k c' hb hkd1 hc')
        (fun b c' hb hc' => hexact b k c' hb hkd1 hc')
        (fun b c' hb hc' => hcap b k c' hb (Nat.lt_succ_self k) hc')
    refine ⟨st2, ?_, shapeEq_trans hsh2 hsh1, ?_, ?_, ?_, ?_, ?_⟩
    · show iterN (fun c => iterN (fun p => pBody false vals vm bins k c p)
        vals.d0) vals.d2 st1 = some st2
      exact hrun2
    · intro b' r' c' hge
      have hne2 : ¬(r' = k ∧ c' < vals.d2) := fun hcon => by omega
      rw [hfc2 b' r' c' hne2, hfc1 b' r' c' (by omega)]
    · intro j b' r' c' hge
      have hne2 : ¬(r' = k ∧ c' < vals.d2) := fun hcon => by omega
      have h42 := hf42 j b' r' c' hne2
      have h41 := hf41 j b' r' c' (by omega)
      exact ⟨h42.1.trans h41.1, h42.2.1.trans h41.2.1,
        h42.2.2.1.trans h41.2.2.1, h42.2.2.2.trans h41.2.2.2⟩
    · intro b r' c' hb hr' hc'
      rcases Nat.lt_or_ge r' k with h | h
      · have hne2 : ¬(r' = k ∧ c' < vals.d2) := fun hcon => by omega
        rw [hfc2 b r' c' hne2]
        exact hcell1 b r' c' hb h hc'
      · have he : r' = k := by omega
        rw [he]
        exact hcell2 b c' hb hc'
    · intro b r' c' j hb hr' hc' hj
      rcases Nat.lt_or_ge r' k with h | h
      · have hne2 : ¬(r' = k ∧ c' < vals.d2) := fun hcon => by omega
        have hf := hfill1 b r' c' j hb h hc' hj
        have h4 := hf42 j b r' c' hne2
        exact ⟨h4.1.trans hf.1, h4.2.1.trans hf.2.1, h4.2.2.1.trans hf.2.2.1,
          h4.2.2.2.trans hf.2.2.2⟩
      · have he : r' = k := by omega
        rw [he] at hj ⊢
        have hf2 := hfill2 b c' j hb hc' hj
        refine ⟨?_, ?_, ?_, ?_⟩
        · rw [hf2.1, hstoX1.1]
        · rw [hf2.2.1, hstoX1.2.1]
        · rw [hf2.2.2.1, hstoX1.2.2.1]
        · rw [hf2.2.2.2, hstoX1.2.2.2.1]
    · intro b r' c' j hb hr' hc' hj
      rcases Nat.lt_or_ge r' k with h | h
      · have hne2 : ¬(r' = k ∧ c' < vals.d2) := fun hcon => by omega
        have hu := hunf1 b r' c' j hb h hc' hj
        have h4 := hf42 j b r' c' hne2
        exact ⟨h4.1.trans hu.1, h4.2.1.trans hu.2.1, h4.2.2.1.trans hu.2.2.1,
          h4.2.2.2.trans hu.2.2.2⟩
      · have he : r' = k := by omega
        rw [he] at hj ⊢
        have hu2 := hunf2 b c' j hb hc' hj
        have h41 := hf41 j b k c' (Nat.le_refl k)
        exact ⟨hu2.1.trans h41.1, hu2.2.1.trans h41.2.1,
          hu2.2.2.1.trans h41.2.2.1, hu2.2.2.2.trans h41.2.2.2⟩

/-- If any processed cell has a bin whose true count exceeds `cap`, the fill
pass over the first `k` rows raises an index error. -/
theorem rLoop_fill_none (vals : Arr3 Int) (vm : Arr3 Bool) (bins : List Int)
    (st0 : StratState) (k cap m : Nat) (hk : k ≤ vals.d1)
    (hrow : st0.rowA.d0 = cap ∧ bins.length - 1 ≤ st0.rowA.d1 ∧
      vals.d1 ≤ st0.rowA.d2 ∧ vals.d2 ≤ st0.rowA.d3)
    (hcol : st0.colA.d0 = cap ∧ bins.length - 1 ≤ st0.colA.d1 ∧
      vals.d1 ≤ st0.colA.d2 ∧ vals.d2 ≤ st0.colA.d3)
    (hpa : st0.pA.d0 = cap ∧ bins.length - 1 ≤ st0.pA.d1 ∧
      vals.d1 ≤ st0.pA.d2 ∧ vals.d2 ≤ st0.pA.d3)
    (hma : st0.maskA.d0 = cap ∧ bins.length - 1 ≤ st0.maskA.d1 ∧
      vals.d1 ≤ st0.maskA.d2 ∧ vals.d2 ≤ st0.maskA.d3)
    (hcnt : bins.length - 1 ≤ st0.countA.d0 ∧ vals.d1 ≤ st0.countA.d1 ∧
      vals.d2 ≤ st0.countA.d2)
    (hstC : st0.countA.store = (· % m))
    (hc0 : ∀ b r' c', b < bins.length - 1 → r' < vals.d1 → c' < vals.d2 →
      st0.countA.get b r' c' = 0)
    (hexact : ∀ b r' c', b < bins.length - 1 → r' < vals.d1 → c' < vals.d2 →
      countSpec vals vm bins b r' c' % m = countSpec vals vm bins b r' c')
    (hbad : ∃ b r' c', b < bins.length - 1 ∧ r' < k ∧ c' < vals.d2 ∧
      cap < countSpec vals vm bins b r' c') :
    iterN (fun r => iterN (fun c =>
        iterN (fun p => pBody false vals vm bins r c p) vals.d0) vals.d2) k
      st0 = none := by
  induction k with
  | zero =>
    obtain ⟨b, r', c', hb, hr', -, -⟩ := hbad
    omega
  | succ k ih =>
    by_cases hprev : ∃ b r' c', b < bins.length - 1 ∧ r' < k ∧
        c' < vals.d2 ∧ cap < countSpec vals vm bins b r' c'
    · rw [iterN_succ, ih (Nat.le_of_succ_le hk) hprev]
      rfl
    · obtain ⟨b0, r0, c0, hb0, hr0, hc0', hlt0⟩ := hbad
      have hr0k : r0 = k := by
        rcases Nat.lt_or_ge r0 k with h | h
        · exact absurd ⟨b0, r0, c0, hb0, h, hc0', hlt0⟩ hprev
        · omega
      rw [hr0k] at hlt0
      have hcapk : ∀ b r' c', b < bins.length - 1 → r' < k → c' < vals.d2 →
          countSpec vals vm bins b r' c' ≤ cap := by
        intro b r' c' hb hr' hc'
        rcases Nat.lt_or_ge cap (countSpec vals vm bins b r' c') with h | h
        · exact absurd ⟨b, r', c', hb, hr', hc', h⟩ hprev
        · exact h
      obtain ⟨st1, hrun1, hsh1, hfc1, -, -, -, -⟩ :=
        rLoop_fill vals vm bins st0 k cap m (Nat.le_of_succ_le hk)
          hrow hcol hpa hma hcnt hstC hc0 hexact hcapk
      rw [iterN_succ, hrun1]
      have hkd1 : k < vals.d1 := hk
      have hstoX1 := shapeEq_stores hsh1
      show iterN (fun c => iterN (fun p => pBody false vals vm bins k c p)
        vals.d0) vals.d2 st1 = none
      apply cLoop_fill_none vals vm bins k st1 vals.d2 cap m (Nat.le_refl _)
        (sameA4_dims' hsh1.1
          ⟨hrow.1, hrow.2.1, Nat.lt_of_lt_of_le hkd1 hrow.2.2.1, hrow.2.2.2⟩)
        (sameA4_dims' hsh1.2.1
          ⟨hcol.1, hcol.2.1, Nat.lt_of_lt_of_le hkd1 hcol.2.2.1, hcol.2.2.2⟩)
        (sameA4_dims' hsh1.2.2.1
          ⟨hpa.1, hpa.2.1, Nat.lt_of_lt_of_le hkd1 hpa.2.2.1, hpa.2.2.2⟩)
        (sameA4_dims' hsh1.2.2.2.1
          ⟨hma.1, hma.2.1, Nat.lt_of_lt_of_le hkd1 hma.2.2.1, hma.2.2.2⟩)
        (sameA3_dims' hsh1.2.2.2.2
          ⟨hcnt.1, Nat.lt_of_lt_of_le hkd1 hcnt.2.1, hcnt.2.2⟩)
        (by rw [hstoX1.2.2.2.2]; exact hstC)
        (fun b c' hb hc' => by
          rw [hfc1 b k c' (Nat.le_refl k)]
          exact hc0 b k c' hb hkd1 hc')
        (fun b c' hb hc' => hexact b k c' hb hkd1 hc')
        ⟨b0, c0, hb0, hc0', hlt0⟩

/-- The fill pass (`counting=False`) of `stratify3DArrayByValue`, given
adequately sized output arrays: every cell's slots receive the scan-order
matches, counts end at their exact values, unused entries keep their
initial contents. -/
theorem stratify_fill_general (vals : Arr3 Int) (vm : Arr3 Bool)
    (rA cA pA4 : Arr4 Nat) (mA : Arr4 Bool) (count : Arr3 Nat)
    (bins : List Int) (cap m : Nat)
    (hrow : rA.d0 = cap ∧ bins.length - 1 ≤ rA.d1 ∧ vals.d1 ≤ rA.d2 ∧
      vals.d2 ≤ rA.d3)
    (hcol : cA.d0 = cap ∧ bins.length - 1 ≤ cA.d1 ∧ vals.d1 ≤ cA.d2 ∧
      vals.d2 ≤ cA.d3)
    (hpa : pA4.d0 = cap ∧ bins.length - 1 ≤ pA4.d1 ∧ vals.d1 ≤ pA4.d2 ∧
      vals.d2 ≤ pA4.d3)
    (hma : mA.d0 = cap ∧ bins.length - 1 ≤ mA.d1 ∧ vals.d1 ≤ mA.d2 ∧
      vals.d2 ≤ mA.d3)
    (hcnt : bins.length - 1 ≤ count.d0 ∧ vals.d1 ≤ count.d1 ∧
      vals.d2 ≤ count.d2)
    (hstC : count.store = (· % m))
    (hc0 : ∀ b r' c', b < bins.length - 1 → r' < vals.d1 → c' < vals.d2 →
      count.get b r' c' = 0)
    (hexact : ∀ b r' c', b < bins.length - 1 → r' < vals.d1 → c' < vals.d2 →
      countSpec vals vm bins b r' c' % m = countSpec vals vm bins b r' c')
    (hcap : ∀ b r' c', b < bins.length - 1 → r' < vals.d1 → c' < vals.d2 →
      countSpec vals vm bins b r' c' ≤ cap) :
    ∃ st', stratify3DArrayByValue vals vm rA cA pA4 mA count bins false =
        some st' ∧
      ShapeEq st' ⟨rA, cA, pA4, mA, count⟩ ∧
      (∀ b r' c', b < bins.length - 1 → r' < vals.d1 → c' < vals.d2 →
        st'.countA.get b r' c' = countSpec vals vm bins b r' c') ∧
      (∀ b r' c' j, b < bins.length - 1 → r' < vals.d1 → c' < vals.d2 →
        j < countSpec vals vm bins b r' c' →
        st'.rowA.get j b r' c' = rA.store r' ∧
        st'.colA.get j b r' c' = cA.store c' ∧
        st'.pA.get j b r' c' =
          pA4.store ((matchList vals vm bins b r' c').getD j 0) ∧
        st'.maskA.get j b r' c' = mA.store false) ∧
      (∀ b r' c' j, b < bins.length - 1 → r' < vals.d1 → c' < vals.d2 →
        countSpec vals vm bins b r' c' ≤ j →
        st'.rowA.get j b r' c' = rA.get j b r' c' ∧
        st'.colA.get j b r' c' = cA.get j b r' c' ∧
        st'.pA.get j b r' c' = pA4.get j b r' c' ∧
        st'.maskA.get j b r' c' = mA.get j b r' c') := by
  obtain ⟨st', hrun, hsh, -, -, hcell, hfill, hunf⟩ :=
    rLoop_fill vals vm bins ⟨rA, cA, pA4, mA, count⟩ vals.d1 cap m
      (Nat.le_refl _) hrow hcol hpa hma hcnt hstC hc0 hexact
      (fun b r' c' hb hr' hc' => hcap b r' c' hb hr' hc')
  exact ⟨st', hrun, hsh, hcell,
    fun b r' c' j hb hr' hc' hj => hfill b r' c' j hb hr' hc' hj,
    fun b r' c' j hb hr' hc' hj => hunf b r' c' j hb hr' hc' hj⟩

/-- The fill pass dies with an index error whenever the slot capacity is
below the true per-(bin,cell) maximum. -/
theorem stratify_fill_general_none (vals : Arr3 Int) (vm : Arr3 Bool)
    (rA cA pA4 : Arr4 Nat) (mA : Arr4 Bool) (count : Arr3 Nat)
    (bins : List Int) (cap m : Nat)
    (hrow : rA.d0 = cap ∧ bins.length - 1 ≤ rA.d1 ∧ vals.d1 ≤ rA.d2 ∧
      vals.d2 ≤ rA.d3)
    (hcol : cA.d0 = cap ∧ bins.length - 1 ≤ cA.d1 ∧ vals.d1 ≤ cA.d2 ∧
      vals.d2 ≤ cA.d3)
    (hpa : pA4.d0 = cap ∧ bins.length - 1 ≤ pA4.d1 ∧ vals.d1 ≤ pA4.d2 ∧
      vals.d2 ≤ pA4.d3)
    (hma : mA.d0 = cap ∧ bins.length - 1 ≤ mA.d1 ∧ vals.d1 ≤ mA.d2 ∧
      vals.d2 ≤ mA.d3)
    (hcnt : bins.length - 1 ≤ count.d0 ∧ vals.d1 ≤ count.d1 ∧
      vals.d2 ≤ count.d2)
    (hstC : count.store = (· % m))
    (hc0 : ∀ b r' c', b < bins.length - 1 → r' < vals.d1 → c' < vals.d2 →
      count.get b r' c' = 0)
    (hexact : ∀ b r' c', b < bins.length - 1 → r' < vals.d1 → c' < vals.d2 →
      countSpec vals vm bins b r' c' % m = countSpec vals vm bins b r' c')
    (hbad : ∃ b r' c', b < bins.length - 1 ∧ r' < vals.d1 ∧ c' < vals.d2 ∧
      cap < countSpec vals vm bins b r' c') :
    stratify3DArrayByValue vals vm rA cA pA4 mA count bins false = none :=
  rLoop_fill_none vals vm bins ⟨rA, cA, pA4, mA, count⟩ vals.d1 cap m
    (Nat.le_refl _) hrow hcol hpa hma hcnt hstC hc0 hexact hbad

/-! ## Monotone bin edges: partition lemmas -/

theorem chain_le (bins : List Int)
    (hm : ∀ i, i + 1 < bins.length → bins.getD i 0 ≤ bins.getD (i + 1) 0)
    (i j : Nat) (hij : i ≤ j) (hj : j < bins.length) :
    bins.getD i 0 ≤ bins.getD j 0 := by
  induction j with
  | zero =>
    have he : i = 0 := Nat.le_zero.mp hij
    rw [he]
  | succ j ihj =>
    rcases Nat.lt_or_ge i (j + 1) with h | h
    · exact le_trans (ihj (Nat.lt_succ_iff.mp h) (Nat.lt_of_succ_lt hj))
        (hm j hj)
    · have he : i = j + 1 := by omega
      rw [he]

theorem inBin_unique (bins : List Int)
    (hm : ∀ i, i + 1 < bins.length → bins.getD i 0 ≤ bins.getD (i + 1) 0)
    (v : Int) {b b' : Nat} (hb : b < bins.length - 1)
    (hb' : b' < bins.length - 1) (h1 : inBin bins b v = true)
    (h2 : inBin bins b' v = true) : b = b' := by
  simp only [inBin, Bool.and_eq_true, decide_eq_true_eq] at h1 h2
  by_contra hne
  rcases Nat.lt_or_ge b b' with h | h
  · have hle : bins.getD (b + 1) 0 ≤ bins.getD b' 0 :=
      chain_le bins hm (b + 1) b' h (by omega)
    have := lt_of_lt_of_le h1.2 (le_trans hle h2.1)
    exact lt_irrefl v this
  · have hlt : b' < b := by omega
    have hle : bins.getD (b' + 1) 0 ≤ bins.getD b 0 :=
      chain_le bins hm (b' + 1) b hlt (by omega)
    have := lt_of_lt_of_le h2.2 (le_trans hle h1.1)
    exact lt_irrefl v this

theorem inBin_exists (bins : List Int)
    (hm : ∀ i, i + 1 < bins.length → bins.getD i 0 ≤ bins.getD (i + 1) 0)
    (v : Int) (hge : bins.getD 0 0 ≤ v)
    (hlt : v < bins.getD (bins.length - 1) 0) :
    ∃ b, b < bins.length - 1 ∧ inBin bins b v = true := by
  have key : ∀ n, n ≤ bins.length - 1 → v < bins.getD n 0 →
      ∃ b, b < n ∧ inBin bins b v = true := by
    intro n
    induction n with
    | zero =>
      intro _ h0
      exact absurd (lt_of_le_of_lt hge h0) (lt_irrefl _)
    | succ n ihn =>
      intro hn hlt'
      rcases lt_or_le v (bins.getD n 0) with h | h
      · obtain ⟨b, hb, hbin⟩ := ihn (by omega) h
        exact ⟨b, Nat.lt_succ_of_lt hb, hbin⟩
      · refine ⟨n, Nat.lt_succ_self n, ?_⟩
        simp only [inBin, Bool.and_eq_true, decide_eq_true_eq]
        exact ⟨h, hlt'⟩
  exact key (bins.length - 1) (Nat.le_refl _) hlt

theorem length_filter_range_eq_card (n : Nat) (Q : Nat → Bool) :
    ((List.range n).filter Q).length =
      ((Finset.range n).filter (fun x => Q x = true)).card := by
  induction n with
  | zero => rfl
  | succ n ihn =>
    rw [List.range_succ, List.filter_append, List.length_append,
      Finset.range_succ, Finset.filter_insert]
    by_cases h : Q n = true
    · have hnm : n ∉ (Finset.range n).filter (fun x => Q x = true) := by
        intro hmem
        exact absurd (Finset.mem_of_mem_filter n hmem) Finset.not_mem_range_self
      rw [if_pos h, Finset.card_insert_of_not_mem hnm]
      simp [h, ihn]
    · rw [if_neg h]
      simp [h, ihn]

/-- With monotone edges the bins partition `[edges, edges[-1])`: the
per-bin counts of a cell sum to the count of in-range valid elements. -/
theorem countSpec_sum (vals : Arr3 Int) (vm : Arr3 Bool) (bins : List Int)
    (hm : ∀ i, i + 1 < bins.length → bins.getD i 0 ≤ bins.getD (i + 1) 0)
    (r c : Nat) :
    Finset.sum (Finset.range (bins.length - 1))
      (fun b => countSpec vals vm bins b r c) = rangeCount vals vm bins r c := by
  classical
  have hrc : rangeCount vals vm bins r c =
      ((Finset.range vals.d0).filter
        (fun p => rangeMatchB vals vm bins r c p = true)).card :=
    length_filter_range_eq_card vals.d0 (rangeMatchB vals vm bins r c)
  rw [hrc]
  have hstep1 : Finset.sum (Finset.range (bins.length - 1))
      (fun b => countSpec vals vm bins b r c) =
      Finset.sum (Finset.range (bins.length - 1))
        (fun b => ((Finset.range vals.d0).filter
          (fun p => matchesB vals vm bins b r c p = true)).card) := by
    apply Finset.sum_congr rfl
    intro b _
    exact length_filter_range_eq_card vals.d0 (matchesB vals vm bins b r c)
  rw [hstep1]
  have hstep2 : ((Finset.range (bins.length - 1)).biUnion
      (fun b => (Finset.range vals.d0).filter
        (fun p => matchesB vals vm bins b r c p = true))).card =
      Finset.sum (Finset.range (bins.length - 1))
        (fun b => ((Finset.range vals.d0).filter
          (fun p => matchesB vals vm bins b r c p = true)).card) := by
    apply Finset.card_biUnion
    intro b hb b' hb' hne
    rw [Finset.disjoint_left]
    intro q hq hq'
    have h1 := (Finset.mem_filter.mp hq).2
    have h2 := (Finset.mem_filter.mp hq').2
    unfold matchesB at h1 h2
    rw [Bool.and_eq_true] at h1 h2
    exact hne (inBin_unique bins hm (vals.get q r c)
      (Finset.mem_range.mp hb) (Finset.mem_range.mp hb') h1.2 h2.2)
  rw [← hstep2]
  congr 1
  apply Finset.ext
  intro q
  simp only [Finset.mem_biUnion, Finset.mem_filter, Finset.mem_range]
  constructor
  · rintro ⟨b, hb, hq, hmB⟩
    refine ⟨hq, ?_⟩
    unfold matchesB at hmB
    rw [Bool.and_eq_true] at hmB
    obtain ⟨hvm, hbin⟩ := hmB
    simp only [inBin, Bool.and_eq_true, decide_eq_true_eq] at hbin
    unfold rangeMatchB
    simp only [Bool.and_eq_true, decide_eq_true_eq]
    refine ⟨⟨hvm, ?_⟩, ?_⟩
    · exact le_trans (chain_le bins hm 0 b (Nat.zero_le b) (by omega)) hbin.1
    · exact lt_of_lt_of_le hbin.2
        (chain_le bins hm (b + 1) (bins.length - 1) (by omega) (by omega))
  · rintro ⟨hq, hrm⟩
    unfold rangeMatchB at hrm
    simp only [Bool.and_eq_true, decide_eq_true_eq] at hrm
    obtain ⟨⟨hvm, hge⟩, hlt⟩ := hrm
    obtain ⟨b, hb, hbin⟩ := inBin_exists bins hm (vals.get q r c) hge hlt
    refine ⟨b, hb, hq, ?_⟩
    unfold matchesB
    rw [Bool.and_eq_true]
    exact ⟨hvm, hbin⟩

/-! ## fold-max lemmas and the capacity computation -/

theorem foldl_max_le_iff (l : List Nat) (a x : Nat) :
    l.foldl max a ≤ x ↔ a ≤ x ∧ ∀ y ∈ l, y ≤ x := by
  induction l generalizing a with
  | nil => simp
  | cons y t ihl =>
    rw [List.foldl_cons, ihl, Nat.max_le]
    constructor
    · rintro ⟨⟨ha, hy⟩, ht⟩
      refine ⟨ha, ?_⟩
      intro z hz
      rcases List.mem_cons.mp hz with h | h
      · rw [h]; exact hy
      · exact ht z h
    · rintro ⟨ha, hall⟩
      exact ⟨⟨ha, hall y (List.mem_cons_self y t)⟩,
        fun z hz => hall z (List.mem_cons.mpr (Or.inr hz))⟩

theorem le_foldl_max (l : List Nat) (a : Nat) {x : Nat} (hx : x ∈ l) :
    x ≤ l.foldl max a :=
  ((foldl_max_le_iff l a _).mp (Nat.le_refl _)).2 x hx

theorem map_congr_mem {α β : Type} (l : List α) (f g : α → β)
    (h : ∀ x ∈ l, f x = g x) : l.map f = l.map g := by
  induction l with
  | nil => rfl
  | cons a t ihl =>
    rw [List.map_cons, List.map_cons, h a (List.mem_cons_self a t),
      ihl (fun x hx => h x (List.mem_cons.mpr (Or.inr hx)))]

theorem countSpec_le_capSpec (vals : Arr3 Int) (vm : Arr3 Bool)
    (bins : List Int) {b r c : Nat} (hb : b < bins.length - 1)
    (hr : r < vals.d1) (hc : c < vals.d2) :
    countSpec vals vm bins b r c ≤ capSpec vals vm bins := by
  unfold capSpec
  have h1 : countSpec vals vm bins b r c ≤
      ((List.range vals.d2).map fun c' =>
        countSpec vals vm bins b r c').foldl max 0 :=
    le_foldl_max _ 0 (List.mem_map_of_mem _ (List.mem_range.mpr hc))
  have h2 : ((List.range vals.d2).map fun c' =>
      countSpec vals vm bins b r c').foldl max 0 ≤
      ((List.range vals.d1).map fun r' =>
        ((List.range vals.d2).map fun c' =>
          countSpec vals vm bins b r' c').foldl max 0).foldl max 0 :=
    le_foldl_max _ 0 (List.mem_map_of_mem _ (List.mem_range.mpr hr))
  have h3 : ((List.range vals.d1).map fun r' =>
      ((List.range vals.d2).map fun c' =>
        countSpec vals vm bins b r' c').foldl max 0).foldl max 0 ≤
      ((List.range (bins.length - 1)).map fun b' =>
        ((List.range vals.d1).map fun r' =>
          ((List.range vals.d2).map fun c' =>
            countSpec vals vm bins b' r' c').foldl max 0).foldl max 0).foldl
        max 0 :=
    le_foldl_max _ 0 (List.mem_map_of_mem _ (List.mem_range.mpr hb))
  exact le_trans h1 (le_trans h2 h3)

theorem capSpec_eq_zero (vals : Arr3 Int) (vm : Arr3 Bool) (bins : List Int)
    (hall : ∀ b r c, b < bins.length - 1 → r < vals.d1 → c < vals.d2 →
      countSpec vals vm bins b r c = 0) :
    capSpec vals vm bins = 0 := by
  apply Nat.le_zero.mp
  unfold capSpec
  rw [foldl_max_le_iff]
  refine ⟨Nat.le_refl 0, ?_⟩
  intro y hy
  obtain ⟨b, hb, rfl⟩ := List.mem_map.mp hy
  rw [foldl_max_le_iff]
  refine ⟨Nat.le_refl 0, ?_⟩
  intro z hz
  obtain ⟨r, hr, rfl⟩ := List.mem_map.mp hz
  rw [foldl_max_le_iff]
  refine ⟨Nat.le_refl 0, ?_⟩
  intro w hw
  obtain ⟨c, hc, rfl⟩ := List.mem_map.mp hw
  rw [hall b r c (List.mem_range.mp hb) (List.mem_range.mp hr)
    (List.mem_range.mp hc)]

theorem getD_mem_of_lt {α : Type} (l : List α) (d : α) (j : Nat)
    (hj : j < l.length) : l.getD j d ∈ l := by
  induction l generalizing j with
  | nil => simp at hj
  | cons a t ihl =>
    cases j with
    | zero => exact List.mem_cons_self a t
    | succ j =>
      simp only [List.getD_cons_succ]
      exact List.mem_cons.mpr (Or.inr (ihl j (by simpa using hj)))

theorem matchList_getD (vals : Arr3 Int) (vm : Arr3 Bool) (bins : List Int)
    (b r c j : Nat) (hj : j < countSpec vals vm bins b r c) :
    (matchList vals vm bins b r c).getD j 0 < vals.d0 ∧
      matchesB vals vm bins b r c
        ((matchList vals vm bins b r c).getD j 0) = true := by
  have hmem : (matchList vals vm bins b r c).getD j 0 ∈
      matchList vals vm bins b r c := getD_mem_of_lt _ _ j hj
  unfold matchList matchListUpTo at hmem
  have h := List.mem_filter.mp hmem
  exact ⟨List.mem_range.mp h.1, h.2⟩

theorem option_some_bind {α β : Type} (a : α) (f : α → Option β) :
    (some a).bind f = f a := rfl

theorem maxVal_eq (a : Arr3 Nat) (f : Nat → Nat → Nat → Nat)
    (hget : ∀ i j k, i < a.d0 → j < a.d1 → k < a.d2 → a.get i j k = f i j k)
    (h0 : 0 < a.d0) (h1 : 0 < a.d1) (h2 : 0 < a.d2) :
    a.maxVal = some (((List.range a.d0).map fun i =>
      ((List.range a.d1).map fun j =>
        ((List.range a.d2).map fun k => f i j k).foldl max 0).foldl
        max 0).foldl max 0) := by
  unfold Arr3.maxVal
  rw [if_neg (by rintro (h | h | h) <;> omega)]
  have hmaps : ((List.range a.d0).map fun i =>
      ((List.range a.d1).map fun j =>
        ((List.range a.d2).map fun k => a.get i j k).foldl max 0).foldl
        max 0) =
      ((List.range a.d0).map fun i =>
        ((List.range a.d1).map fun j =>
          ((List.range a.d2).map fun k => f i j k).foldl max 0).foldl
          max 0) := by
    apply map_congr_mem
    intro i hi
    have hmid : ((List.range a.d1).map fun j =>
        ((List.range a.d2).map fun k => a.get i j k).foldl max 0) =
        ((List.range a.d1).map fun j =>
          ((List.range a.d2).map fun k => f i j k).foldl max 0) := by
      apply map_congr_mem
      intro j hj
      have hin : ((List.range a.d2).map fun k => a.get i j k) =
          ((List.range a.d2).map fun k => f i j k) := by
        apply map_congr_mem
        intro k hk
        exact hget i j k (List.mem_range.mp hi) (List.mem_range.mp hj)
          (List.mem_range.mp hk)
      rw [hin]
    rw [hmid]
  rw [hmaps]

/-- The counting pass inside `rebinPtsByHeight`: the `uint16` occupancy
array ends at `countSpec % 2^16`. -/
theorem rebinCountPass_char (vals : Arr3 Int) (vm : Arr3 Bool)
    (bins : List Int) :
    ∃ st1, rebinCountPass vals vm bins = some st1 ∧
      SameA3 st1.countA (zeros3u16 (bins.length - 1) vals.d1 vals.d2) ∧
      ∀ b r c, st1.countA.get b r c =
        if b < bins.length - 1 ∧ r < vals.d1 ∧ c < vals.d2
        then countSpec vals vm bins b r c % 65536 else 0 := by
  obtain ⟨st1, hrun, -, -, -, -, hsame, hget⟩ :=
    stratify_counting_general vals vm (zeros4u16 1 1 1 1) (zeros4u16 1 1 1 1)
      (zeros4u16 1 1 1 1) (ones4bool 1 1 1 1)
      (zeros3u16 (bins.length - 1) vals.d1 vals.d2) bins 65536
      (Nat.le_refl _) (Nat.le_refl _) (Nat.le_refl _) rfl (fun _ _ _ => rfl)
  refine ⟨st1, hrun, hsame, ?_⟩
  intro b r c
  rw [hget b r c]
  by_cases h : b < bins.length - 1 ∧ r < vals.d1 ∧ c < vals.d2
  · rw [if_pos h, if_pos h]
    show (0 + countSpec vals vm bins b r c) % 65536 = _
    rw [Nat.zero_add]
  · rw [if_neg h, if_neg h]
    rfl

/-- Full characterization of `rebinPtsByHeight` on a grid with at least one
row, column and bin, with dimensions inside the `uint16` range: it succeeds,
the result has shape `(capSpec, nbins, nrows, ncols)`, slot `j` of
`(b, r, c)` is unmasked iff `j < countSpec` and then carries the value of
the `j`-th scan-order match. -/
theorem rebin_char (vals : Arr3 Int) (vm : Arr3 Bool) (bins : List Int)
    (hlen : 2 ≤ bins.length) (hr1 : 1 ≤ vals.d1) (hc1 : 1 ≤ vals.d2)
    (hp16 : vals.d0 ≤ 65535) (hr16 : vals.d1 ≤ 65536) (hc16 : vals.d2 ≤ 65536) :
    ∃ out, rebinPtsByHeight vals vm bins = some out ∧
      out.data.d0 = capSpec vals vm bins ∧ out.data.d1 = bins.length - 1 ∧
      out.data.d2 = vals.d1 ∧ out.data.d3 = vals.d2 ∧
      out.mask.d0 = capSpec vals vm bins ∧ out.mask.d1 = bins.length - 1 ∧
      out.mask.d2 = vals.d1 ∧ out.mask.d3 = vals.d2 ∧
      ∀ b r c, b < bins.length - 1 → r < vals.d1 → c < vals.d2 →
        (∀ j, j < countSpec vals vm bins b r c →
          out.mask.get j b r c = false ∧
          out.data.get j b r c =
            vals.get ((matchList vals vm bins b r c).getD j 0) r c) ∧
        (∀ j, countSpec vals vm bins b r c ≤ j →
          out.mask.get j b r c = true) := by
  have hexact : ∀ b r c, b < bins.length - 1 → r < vals.d1 → c < vals.d2 →
      countSpec vals vm bins b r c % 65536 = countSpec vals vm bins b r c :=
    fun b r c _ _ _ => Nat.mod_eq_of_lt
      (Nat.lt_of_le_of_lt (countSpec_le_d0 vals vm bins b r c) (by omega))
  obtain ⟨st1, hrun1, hsame1, hget1⟩ := rebinCountPass_char vals vm bins
  have hd0 : st1.countA.d0 = bins.length - 1 := hsame1.1
  have hd1 : st1.countA.d1 = vals.d1 := hsame1.2.1
  have hd2 : st1.countA.d2 = vals.d2 := hsame1.2.2.1
  have hsto1 : st1.countA.store = u16 := hsame1.2.2.2
  have hmax : st1.countA.maxVal = some (capSpec vals vm bins) := by
    rw [maxVal_eq st1.countA (fun b r c => countSpec vals vm bins b r c)
      (fun b r c hbb hrr hcc => by
        rw [hget1 b r c,
          if_pos ⟨by omega, by rw [← hd1]; exact hrr, by rw [← hd2]; exact hcc⟩]
        exact hexact b r c (by omega) (by rw [← hd1]; exact hrr)
          (by rw [← hd2]; exact hcc))
      (by omega) (by omega) (by omega)]
    rw [hd0, hd1, hd2]
    rfl
  -- the fill pass
  obtain ⟨st2, hrun2, hsh2, hcell2, hfill2, hunf2⟩ :=
    stratify_fill_general vals vm
      (zeros4u16 (capSpec vals vm bins) (bins.length - 1) vals.d1 vals.d2)
      (zeros4u16 (capSpec vals vm bins) (bins.length - 1) vals.d1 vals.d2)
      (zeros4u16 (capSpec vals vm bins) (bins.length - 1) vals.d1 vals.d2)
      (ones4bool (capSpec vals vm bins) (bins.length - 1) vals.d1 vals.d2)
      st1.countA.fillZero bins (capSpec vals vm bins) 65536
      ⟨rfl, Nat.le_refl _, Nat.le_refl _, Nat.le_refl _⟩
      ⟨rfl, Nat.le_refl _, Nat.le_refl _, Nat.le_refl _⟩
      ⟨rfl, Nat.le_refl _, Nat.le_refl _, Nat.le_refl _⟩
      ⟨rfl, Nat.le_refl _, Nat.le_refl _, Nat.le_refl _⟩
      ⟨by show bins.length - 1 ≤ st1.countA.d0; omega,
        by show vals.d1 ≤ st1.countA.d1; omega,
        by show vals.d2 ≤ st1.countA.d2; omega⟩
      (by show st1.countA.store = _; rw [hsto1]; rfl)
      (fun b r' c' _ _ _ => rfl)
      (fun b r' c' hb hr' hc' => hexact b r' c' hb hr' hc')
      (fun b r' c' hb hr' hc' => countSpec_le_capSpec vals vm bins hb hr' hc')
  have hsto2 := shapeEq_stores hsh2
  have hpd0 : st2.pA.d0 = capSpec vals vm bins := hsh2.2.2.1.1
  have hpd1 : st2.pA.d1 = bins.length - 1 := hsh2.2.2.1.2.1
  have hpd2 : st2.pA.d2 = vals.d1 := hsh2.2.2.1.2.2.1
  have hpd3 : st2.pA.d3 = vals.d2 := hsh2.2.2.1.2.2.2.1
  have hmd0 : st2.maskA.d0 = capSpec vals vm bins := hsh2.2.2.2.1.1
  have hmd1 : st2.maskA.d1 = bins.length - 1 := hsh2.2.2.2.1.2.1
  have hmd2 : st2.maskA.d2 = vals.d1 := hsh2.2.2.2.1.2.2.1
  have hmd3 : st2.maskA.d3 = vals.d2 := hsh2.2.2.2.1.2.2.2.1
  -- the gather succeeds
  have hgcond : ∀ q, q < st2.pA.d0 → ∀ b, b < st2.pA.d1 → ∀ r, r < st2.pA.d2 →
      ∀ c, c < st2.pA.d3 →
      st2.pA.get q b r c < vals.d0 ∧ st2.rowA.get q b r c < vals.d1 ∧
        st2.colA.get q b r c < vals.d2 := by
    intro q hq b hb r hr c hc
    rw [hpd0] at hq
    rw [hpd1] at hb
    rw [hpd2] at hr
    rw [hpd3] at hc
    rcases Nat.lt_or_ge q (countSpec vals vm bins b r c) with hqc | hqc
    · obtain ⟨hfr, hfc, hfp, -⟩ := hfill2 b r c q hb hr hc hqc
      refine ⟨?_, ?_, ?_⟩
      · rw [hfp]
        show (matchList vals vm bins b r c).getD q 0 % 65536 < vals.d0
        have hm := matchList_getD vals vm bins b r c q hqc
        rw [Nat.mod_eq_of_lt (by omega)]
        exact hm.1
      · rw [hfr]
        show r % 65536 < vals.d1
        rw [Nat.mod_eq_of_lt (by omega)]
        exact hr
      · rw [hfc]
        show c % 65536 < vals.d2
        rw [Nat.mod_eq_of_lt (by omega)]
        exact hc
    · obtain ⟨hur, huc, hup, -⟩ := hunf2 b r c q hb hr hc hqc
      have hd0pos : 0 < vals.d0 := by
        rcases Nat.eq_zero_or_pos vals.d0 with h0 | h0
        · have hcap0 : capSpec vals vm bins = 0 :=
            capSpec_eq_zero vals vm bins (fun b' r' c' _ _ _ =>
              Nat.le_zero.mp (h0 ▸ countSpec_le_d0 vals vm bins b' r' c'))
          omega
        · exact h0
      refine ⟨?_, ?_, ?_⟩
      · rw [hup]; exact hd0pos
      · rw [hur]; exact hr1
      · rw [huc]; exact hc1
  have hgather : gatherPts vals st2.pA st2.rowA st2.colA =
      some ⟨st2.pA.d0, st2.pA.d1, st2.pA.d2, st2.pA.d3, id, fun q b r c =>
        vals.get (st2.pA.get q b r c) (st2.rowA.get q b r c)
          (st2.colA.get q b r c)⟩ := by
    unfold gatherPts
    rw [if_pos hgcond]
  refine ⟨⟨⟨st2.pA.d0, st2.pA.d1, st2.pA.d2, st2.pA.d3, id, fun q b r c =>
      vals.get (st2.pA.get q b r c) (st2.rowA.get q b r c)
        (st2.colA.get q b r c)⟩, st2.maskA⟩, ?_, hpd0, hpd1, hpd2, hpd3,
    hmd0, hmd1, hmd2, hmd3, ?_⟩
  · unfold rebinPtsByHeight
    rw [if_neg (by omega), hrun1, option_some_bind, hmax, option_some_bind]
    show (rebinFillPass vals vm bins (capSpec vals vm bins) st1.countA).bind
      _ = _
    unfold rebinFillPass
    rw [hrun2, option_some_bind, hgather]
    rfl
  · intro b r c hb hr hc
    constructor
    · intro j hj
      obtain ⟨hfr, hfc, hfp, hfm⟩ := hfill2 b r c j hb hr hc hj
      constructor
      · rw [hfm]
        rfl
      · show vals.get (st2.pA.get j b r c) (st2.rowA.get j b r c)
          (st2.colA.get j b r c) = _
        rw [hfr, hfc, hfp]
        show vals.get ((matchList vals vm bins b r c).getD j 0 % 65536)
          (r % 65536) (c % 65536) = _
        have hm := matchList_getD vals vm bins b r c j hj
        rw [Nat.mod_eq_of_lt (show (matchList vals vm bins b r c).getD j 0 <
            65536 by omega),
          Nat.mod_eq_of_lt (show r < 65536 by omega),
          Nat.mod_eq_of_lt (show c < 65536 by omega)]
    · intro j hj
      obtain ⟨-, -, -, hum⟩ := hunf2 b r c j hb hr hc hj
      rw [hum]
      rfl

/-! ## Counting over a flattened index range (for re-stratification) -/

theorem countP_map' {α β : Type} (f : α → β) (p : β → Bool) (l : List α) :
    (l.map f).countP p = l.countP (fun a => p (f a)) := by
  induction l with
  | nil => rfl
  | cons a t ihl => simp [List.countP_cons, ihl]

theorem filter_length_range_mul (cap nb : Nat) (P : Nat → Bool) :
    ((List.range (cap * nb)).filter P).length =
      Finset.sum (Finset.range cap)
        (fun j => ((List.range nb).filter
          (fun b' => P (j * nb + b'))).length) := by
  induction cap with
  | zero => simp
  | succ cap ihc =>
    have hmul : (cap + 1) * nb = cap * nb + nb := by ring
    rw [hmul, List.range_add, List.filter_append, List.length_append, ihc,
      Finset.sum_range_succ]
    congr 1
    rw [← List.countP_eq_length_filter, ← List.countP_eq_length_filter,
      countP_map']

theorem sum_boole_range (n : Nat) (P : Nat → Prop) [DecidablePred P] :
    Finset.sum (Finset.range n) (fun j => if P j then 1 else 0) =
      ((Finset.range n).filter P).card := by
  induction n with
  | zero => rfl
  | succ n ihn =>
    rw [Finset.sum_range_succ, Finset.range_succ, Finset.filter_insert, ihn]
    by_cases h : P n
    · have hnm : n ∉ (Finset.range n).filter P := fun hmem =>
        absurd (Finset.mem_of_mem_filter n hmem) Finset.not_mem_range_self
      rw [if_pos h, if_pos h, Finset.card_insert_of_not_mem hnm]
    · rw [if_neg h, if_neg h, Nat.add_zero]

theorem filter_lt_range (cap n : Nat) (hn : n ≤ cap) :
    (Finset.range cap).filter (fun j => j < n) = Finset.range n := by
  apply Finset.ext
  intro x
  simp only [Finset.mem_filter, Finset.mem_range]
  omega

theorem sum_ite_lt (cap n : Nat) (hn : n ≤ cap) :
    Finset.sum (Finset.range cap) (fun j => if j < n then 1 else 0) = n := by
  rw [sum_boole_range cap (fun j => j < n), filter_lt_range cap n hn,
    Finset.card_range]

theorem filter_card_unique (n b : Nat) (hb : b < n) (Q : Nat → Bool)
    (hQ : ∀ x, x < n → (Q x = true ↔ x = b)) :
    ((List.range n).filter Q).length = 1 := by
  rw [length_filter_range_eq_card]
  have hset : (Finset.range n).filter (fun x => Q x = true) = {b} := by
    apply Finset.ext
    intro x
    simp only [Finset.mem_filter, Finset.mem_range, Finset.mem_singleton]
    constructor
    · rintro ⟨hx, hq⟩
      exact (hQ x hx).mp hq
    · intro hxb
      rw [hxb]
      exact ⟨hb, (hQ b hb).mpr rfl⟩
  rw [hset]
  exact Finset.card_singleton b

theorem filter_card_empty (n : Nat) (Q : Nat → Bool)
    (hQ : ∀ x, x < n → Q x = false) :
    ((List.range n).filter Q).length = 0 := by
  rw [length_filter_range_eq_card]
  have hset : (Finset.range n).filter (fun x => Q x = true) = ∅ := by
    apply Finset.ext
    intro x
    simp only [Finset.mem_filter, Finset.mem_range, Finset.not_mem_empty,
      iff_false]
    rintro ⟨hx, hq⟩
    rw [hQ x hx] at hq
    exact Bool.noConfusion hq
  rw [hset]
  exact Finset.card_empty

/-- Re-stratifying the gathered values of the rebinned output (reshaped to a
3-d ragged population) reproduces the original per-(bin,cell) counts. -/
theorem rebin_recount (vals : Arr3 Int) (vm : Arr3 Bool) (bins : List Int)
    (hm : ∀ i, i + 1 < bins.length → bins.getD i 0 ≤ bins.getD (i + 1) 0)
    (hlen : 2 ≤ bins.length) (hr1 : 1 ≤ vals.d1) (hc1 : 1 ≤ vals.d2)
    (hp16 : vals.d0 ≤ 65535) (hr16 : vals.d1 ≤ 65536) (hc16 : vals.d2 ≤ 65536)
    (b r c : Nat) (hb : b < bins.length - 1) (hr : r < vals.d1)
    (hc : c < vals.d2) :
    (rebinPtsByHeight vals vm bins).map (fun out =>
      countSpec (flatData out (bins.length - 1))
        (flatMask out (bins.length - 1)) bins b r c) =
      some (countSpec vals vm bins b r c) := by
  obtain ⟨out, hout, hdd0, hdd1, hdd2, hdd3, hmd0, hmd1, hmd2, hmd3, hchar⟩ :=
    rebin_char vals vm bins hlen hr1 hc1 hp16 hr16 hc16
  rw [hout]
  show some (countSpec (flatData out (bins.length - 1))
    (flatMask out (bins.length - 1)) bins b r c) = some _
  congr 1
  have hnb : 0 < bins.length - 1 := by omega
  have hflat : countSpec (flatData out (bins.length - 1))
      (flatMask out (bins.length - 1)) bins b r c =
      Finset.sum (Finset.range out.data.d0) (fun j =>
        ((List.range (bins.length - 1)).filter (fun b' =>
          matchesB (flatData out (bins.length - 1))
            (flatMask out (bins.length - 1)) bins b r c
            (j * (bins.length - 1) + b'))).length) :=
    filter_length_range_mul out.data.d0 (bins.length - 1) _
  rw [hflat]
  have hterm : ∀ j, j ∈ Finset.range out.data.d0 →
      ((List.range (bins.length - 1)).filter (fun b' =>
        matchesB (flatData out (bins.length - 1))
          (flatMask out (bins.length - 1)) bins b r c
          (j * (bins.length - 1) + b'))).length =
      (if j < countSpec vals vm bins b r c then 1 else 0) := by
    intro j hj
    have hQ : ∀ b', b' < bins.length - 1 →
        matchesB (flatData out (bins.length - 1))
          (flatMask out (bins.length - 1)) bins b r c
          (j * (bins.length - 1) + b') =
        (!out.mask.get j b' r c && inBin bins b (out.data.get j b' r c)) := by
      intro b' hb'
      have ha1 : (j * (bins.length - 1) + b') / (bins.length - 1) = j := by
        rw [Nat.mul_comm j (bins.length - 1), Nat.mul_add_div hnb,
          Nat.div_eq_of_lt hb']
        rfl
      have ha2 : (j * (bins.length - 1) + b') % (bins.length - 1) = b' := by
        rw [Nat.mul_comm j (bins.length - 1), Nat.mul_add_mod,
          Nat.mod_eq_of_lt hb']
      show (!out.mask.get ((j * (bins.length - 1) + b') / (bins.length - 1))
          ((j * (bins.length - 1) + b') % (bins.length - 1)) r c &&
        inBin bins b (out.data.get
          ((j * (bins.length - 1) + b') / (bins.length - 1))
          ((j * (bins.length - 1) + b') % (bins.length - 1)) r c)) = _
      rw [ha1, ha2]
    by_cases hjc : j < countSpec vals vm bins b r c
    · rw [if_pos hjc]
      apply filter_card_unique (bins.length - 1) b hb
      intro b' hb'
      rw [hQ b' hb']
      constructor
      · intro hq
        rw [Bool.and_eq_true] at hq
        have hmaskf : out.mask.get j b' r c = false := by
          cases hms : out.mask.get j b' r c
          · rfl
          · rw [hms] at hq
            simp at hq
        have hjb' : j < countSpec vals vm bins b' r c := by
          rcases Nat.lt_or_ge j (countSpec vals vm bins b' r c) with h | h
          · exact h
          · have hmt := (hchar b' r c hb' hr hc).2 j h
            rw [hmaskf] at hmt
            exact Bool.noConfusion hmt
        obtain ⟨hmf, hdata⟩ := (hchar b' r c hb' hr hc).1 j hjb'
        have hmm := matchList_getD vals vm bins b' r c j hjb'
        have hbin' : inBin bins b'
            (vals.get ((matchList vals vm bins b' r c).getD j 0) r c) =
            true := by
          have h2 := hmm.2
          unfold matchesB at h2
          rw [Bool.and_eq_true] at h2
          exact h2.2
        have hbinb := hq.2
        rw [hdata] at hbinb
        exact inBin_unique bins hm _ hb' hb hbin' hbinb
      · intro hbe
        rw [hbe]
        obtain ⟨hmf, hdata⟩ := (hchar b r c hb hr hc).1 j hjc
        rw [hmf, hdata]
        have hmm := matchList_getD vals vm bins b r c j hjc
        have hbinb : inBin bins b
            (vals.get ((matchList vals vm bins b r c).getD j 0) r c) =
            true := by
          have h2 := hmm.2
          unfold matchesB at h2
          rw [Bool.and_eq_true] at h2
          exact h2.2
        rw [hbinb]
        rfl
    · rw [if_neg hjc]
      apply filter_card_empty
      intro b' hb'
      rw [hQ b' hb']
      rcases Nat.lt_or_ge j (countSpec vals vm bins b' r c) with h | h
      · obtain ⟨hmf, hdata⟩ := (hchar b' r c hb' hr hc).1 j h
        rw [hmf, hdata]
        have hmm := matchList_getD vals vm bins b' r c j h
        have hbin' : inBin bins b'
            (vals.get ((matchList vals vm bins b' r c).getD j 0) r c) =
            true := by
          have h2 := hmm.2
          unfold matchesB at h2
          rw [Bool.and_eq_true] at h2
          exact h2.2
        have hbinb : inBin bins b
            (vals.get ((matchList vals vm bins b' r c).getD j 0) r c) =
            false := by
          cases hx : inBin bins b
              (vals.get ((matchList vals vm bins b' r c).getD j 0) r c)
          · rfl
          · have hbb := inBin_unique bins hm _ hb' hb hbin' hx
            rw [hbb] at h
            exact absurd h hjc
        rw [hbinb]
        rfl
      · have hmt := (hchar b' r c hb' hr hc).2 j h
        rw [hmt]
        rfl
  rw [Finset.sum_congr rfl hterm,
    sum_ite_lt out.data.d0 (countSpec vals vm bins b r c)
      (by rw [hdd0]; exact countSpec_le_capSpec vals vm bins hb hr hc)]

/-! ## Claim theorems -/

theorem binsW_mono : ∀ i, i + 1 < binsW.length →
    binsW.getD i 0 ≤ binsW.getD (i + 1) 0 := by
  intro i hi
  have hlen : binsW.length = 2 := rfl
  have h0 : i = 0 := by omega
  rw [h0]
  decide

theorem binsU_mono : ∀ i, i + 1 < binsU.length →
    binsU.getD i 0 ≤ binsU.getD (i + 1) 0 := by
  intro i hi
  have hlen : binsU.length = 2 := rfl
  have h0 : i = 0 := by omega
  rw [h0]
  decide

/-- C1: Counter contract — for every ragged value array, validity mask
(False = valid), monotonic bin edges and zero-initialized exact-integer
occupancy-count array of shape (nBins, nRows, nCols), running
`stratify3DArrayByValue` with `counting=True` succeeds and leaves
`count[b, r, c]` equal to the number of non-masked elements
`v = value[p, r, c]` with `edges[b] <= v < edges[b+1]`. -/
theorem stratify_counting_contract (vals : Arr3 Int) (vm : Arr3 Bool)
    (rA cA pA4 : Arr4 Nat) (mA : Arr4 Bool) (count : Arr3 Nat)
    (bins : List Int)
    (hmono : ∀ i, i + 1 < bins.length → bins.getD i 0 ≤ bins.getD (i + 1) 0)
    (hd0 : count.d0 = bins.length - 1) (hd1 : count.d1 = vals.d1)
    (hd2 : count.d2 = vals.d2) (hstore : count.store = id)
    (hzero : ∀ b r c, count.get b r c = 0)
    (b r c : Nat) (hb : b < bins.length - 1) (hr : r < vals.d1)
    (hc : c < vals.d2) :
    (stratify3DArrayByValue vals vm rA cA pA4 mA count bins true).map
      (fun st => st.countA.get b r c) =
      some (countSpec vals vm bins b r c) := by
  obtain ⟨st', hrun, -, -, -, -, -, hget⟩ :=
    stratify_counting_general vals vm rA cA pA4 mA count bins 0
      (by omega) (by omega) (by omega)
      (by rw [hstore]; funext x; simp)
      (fun b' r' c' => by simp)
  rw [hrun]
  show some (st'.countA.get b r c) = _
  congr 1
  rw [hget b r c, if_pos ⟨hb, hr, hc⟩, hzero b r c, Nat.zero_add,
    Nat.mod_zero]

theorem stratify_counting_contract_witness :
    (stratify3DArrayByValue valsW vmW row4W row4W row4W mask4W count0W binsW
      true).map (fun st => st.countA.get 0 0 0) =
      some (countSpec valsW vmW binsW 0 0 0) :=
  stratify_counting_contract valsW vmW row4W row4W row4W mask4W count0W binsW
    binsW_mono rfl rfl rfl rfl (fun _ _ _ => rfl) 0 0 0 (by decide) (by decide)
    (by decide)

/-- C2: Filler contract — with slotCapacity at least the true
per-(bin,cell) maximum, freshly zeroed exact-integer occupancy counts,
exact-integer index arrays of shape (slotCapacity, nBins, nRows, nCols) and
an all-True mask, running `stratify3DArrayByValue` with `counting=False`
succeeds, places the j-th valid element (in scan order) of bin b of cell
(r,c) at index [j, b, r, c] of the row/col/p arrays, clears its mask entry,
leaves every unfilled slot's mask entry True, and leaves the occupancy
array at the Counter result. -/
theorem stratify_fill_contract (vals : Arr3 Int) (vm : Arr3 Bool)
    (rA cA pA4 : Arr4 Nat) (mA : Arr4 Bool) (count : Arr3 Nat)
    (bins : List Int) (cap : Nat)
    (hrow : rA.d0 = cap ∧ rA.d1 = bins.length - 1 ∧ rA.d2 = vals.d1 ∧
      rA.d3 = vals.d2)
    (hcol : cA.d0 = cap ∧ cA.d1 = bins.length - 1 ∧ cA.d2 = vals.d1 ∧
      cA.d3 = vals.d2)
    (hpa : pA4.d0 = cap ∧ pA4.d1 = bins.length - 1 ∧ pA4.d2 = vals.d1 ∧
      pA4.d3 = vals.d2)
    (hma : mA.d0 = cap ∧ mA.d1 = bins.length - 1 ∧ mA.d2 = vals.d1 ∧
      mA.d3 = vals.d2)
    (hcnt : count.d0 = bins.length - 1 ∧ count.d1 = vals.d1 ∧
      count.d2 = vals.d2)
    (hstR : rA.store = id) (hstC : cA.store = id) (hstP : pA4.store = id)
    (hstM : mA.store = id) (hstN : count.store = id)
    (hzero : ∀ b r c, count.get b r c = 0)
    (hmask1 : ∀ j b r c, mA.get j b r c = true)
    (hcap : ∀ b r c, b < bins.length - 1 → r < vals.d1 → c < vals.d2 →
      countSpec vals vm bins b r c ≤ cap)
    (b r c : Nat) (hb : b < bins.length - 1) (hr : r < vals.d1)
    (hc : c < vals.d2) :
    ∃ st', stratify3DArrayByValue vals vm rA cA pA4 mA count bins false =
        some st' ∧
      st'.countA.get b r c = countSpec vals vm bins b r c ∧
      (∀ j, j < countSpec vals vm bins b r c →
        st'.rowA.get j b r c = r ∧ st'.colA.get j b r c = c ∧
        st'.pA.get j b r c = (matchList vals vm bins b r c).getD j 0 ∧
        st'.maskA.get j b r c = false) ∧
      (∀ j, countSpec vals vm bins b r c ≤ j →
        st'.maskA.get j b r c = true) := by
  obtain ⟨st', hrun, -, hcell, hfill, hunf⟩ :=
    stratify_fill_general vals vm rA cA pA4 mA count bins cap 0
      ⟨hrow.1, by omega, by omega, by omega⟩
      ⟨hcol.1, by omega, by omega, by omega⟩
      ⟨hpa.1, by omega, by omega, by omega⟩
      ⟨hma.1, by omega, by omega, by omega⟩
      ⟨by omega, by omega, by omega⟩
      (by rw [hstN]; funext x; simp)
      (fun b' r' c' _ _ _ => hzero b' r' c')
      (fun b' r' c' _ _ _ => by simp)
      hcap
  refine ⟨st', hrun, hcell b r c hb hr hc, ?_, ?_⟩
  · intro j hj
    obtain ⟨h1, h2, h3, h4⟩ := hfill b r c j hb hr hc hj
    rw [hstR] at h1
    rw [hstC] at h2
    rw [hstP] at h3
    rw [hstM] at h4
    exact ⟨h1, h2, h3, h4⟩
  · intro j hj
    rw [(hunf b r c j hb hr hc hj).2.2.2]
    exact hmask1 j b r c

theorem stratify_fill_contract_witness :
    ∃ st', stratify3DArrayByValue valsW vmW row4W row4W row4W mask4W count0W
        binsW false = some st' ∧
      st'.countA.get 0 0 0 = countSpec valsW vmW binsW 0 0 0 ∧
      (∀ j, j < countSpec valsW vmW binsW 0 0 0 →
        st'.rowA.get j 0 0 0 = 0 ∧ st'.colA.get j 0 0 0 = 0 ∧
        st'.pA.get j 0 0 0 = (matchList valsW vmW binsW 0 0 0).getD j 0 ∧
        st'.maskA.get j 0 0 0 = false) ∧
      (∀ j, countSpec valsW vmW binsW 0 0 0 ≤ j →
        st'.maskA.get j 0 0 0 = true) :=
  stratify_fill_contract valsW vmW row4W row4W row4W mask4W count0W binsW 1
    ⟨rfl, rfl, rfl, rfl⟩ ⟨rfl, rfl, rfl, rfl⟩ ⟨rfl, rfl, rfl, rfl⟩
    ⟨rfl, rfl, rfl, rfl⟩ ⟨rfl, rfl, rfl⟩ rfl rfl rfl rfl rfl
    (fun _ _ _ => rfl) (fun _ _ _ _ => rfl)
    (by
      intro b r c hb hr hc
      have e1 : binsW.length = 2 := rfl
      have e2 : valsW.d1 = 1 := rfl
      have e3 : valsW.d2 = 1 := rfl
      have h3 : b = 0 ∧ r = 0 ∧ c = 0 := ⟨by omega, by omega, by omega⟩
      rw [h3.1, h3.2.1, h3.2.2]
      decide)
    0 0 0 (by decide) (by decide) (by decide)

/-- C3: Bin-count completeness — after the counting pass with monotonic
edges, the per-cell sum of occupancy counts over all bins equals the number
of non-masked elements of the cell whose value lies in
`[edges, edges[-1])`; out-of-range elements increment no bin. -/
theorem stratify_counting_range_sum (vals : Arr3 Int) (vm : Arr3 Bool)
    (rA cA pA4 : Arr4 Nat) (mA : Arr4 Bool) (count : Arr3 Nat)
    (bins : List Int)
    (hmono : ∀ i, i + 1 < bins.length → bins.getD i 0 ≤ bins.getD (i + 1) 0)
    (hd0 : count.d0 = bins.length - 1) (hd1 : count.d1 = vals.d1)
    (hd2 : count.d2 = vals.d2) (hstore : count.store = id)
    (hzero : ∀ b r c, count.get b r c = 0)
    (r c : Nat) (hr : r < vals.d1) (hc : c < vals.d2) :
    (stratify3DArrayByValue vals vm rA cA pA4 mA count bins true).map
      (fun st => Finset.sum (Finset.range (bins.length - 1))
        (fun b => st.countA.get b r c)) =
      some (rangeCount vals vm bins r c) := by
  obtain ⟨st', hrun, -, -, -, -, -, hget⟩ :=
    stratify_counting_general vals vm rA cA pA4 mA count bins 0
      (by omega) (by omega) (by omega)
      (by rw [hstore]; funext x; simp)
      (fun b' r' c' => by simp)
  rw [hrun]
  show some (Finset.sum (Finset.range (bins.length - 1))
    (fun b => st'.countA.get b r c)) = some (rangeCount vals vm bins r c)
  congr 1
  have hcong : ∀ b ∈ Finset.range (bins.length - 1),
      st'.countA.get b r c = countSpec vals vm bins b r c := by
    intro b hbmem
    rw [hget b r c, if_pos ⟨Finset.mem_range.mp hbmem, hr, hc⟩, hzero b r c,
      Nat.zero_add, Nat.mod_zero]
  rw [Finset.sum_congr rfl hcong]
  exact countSpec_sum vals vm bins hmono r c

theorem stratify_counting_range_sum_witness :
    (stratify3DArrayByValue valsW vmW row4W row4W row4W mask4W count0W binsW
      true).map (fun st => Finset.sum (Finset.range (binsW.length - 1))
        (fun b => st.countA.get b 0 0)) =
      some (rangeCount valsW vmW binsW 0 0) :=
  stratify_counting_range_sum valsW vmW row4W row4W row4W mask4W count0W
    binsW binsW_mono rfl rfl rfl rfl (fun _ _ _ => rfl) 0 0 (by decide)
    (by decide)

theorem foldl_max_zero (l : List Nat) (h : ∀ x ∈ l, x = 0) :
    l.foldl max 0 = 0 := by
  apply Nat.le_zero.mp
  rw [foldl_max_le_iff]
  exact ⟨Nat.le_refl 0, fun y hy => Nat.le_of_eq (h y hy)⟩

theorem countSpec_zero_of_masked (vals : Arr3 Int) (vm : Arr3 Bool)
    (bins : List Int) (hmask : ∀ p r c, vm.get p r c = true) (b r c : Nat) :
    countSpec vals vm bins b r c = 0 :=
  filter_card_empty vals.d0 _ (fun p _ => by simp [matchesB, hmask p r c])

/-- C4 counterexample: a fully-masked ragged population whose grid has zero
rows makes `rebinPtsByHeight` fail — `idxCount.max()` is a numpy zero-size
reduction and raises — instead of returning a well-formed empty array. -/
theorem rebin_empty_grid_counterexample :
    rebinPtsByHeight valsE vmE binsU = none := rfl

/-- C4 (amended): for a fully masked population on a grid with at least one
row and column and at least one bin, `rebinPtsByHeight` computes
slotCapacity 0 and returns a well-formed masked array of shape
(0, nBins, nRows, nCols); with an empty grid dimension it instead fails at
the `idxCount.max()` reduction. -/
theorem rebin_fully_masked (vals : Arr3 Int) (vm : Arr3 Bool)
    (bins : List Int) (hmask : ∀ p r c, vm.get p r c = true)
    (hlen : 2 ≤ bins.length) (hr1 : 1 ≤ vals.d1) (hc1 : 1 ≤ vals.d2) :
    (rebinPtsByHeight vals vm bins).map (fun out =>
      ((out.data.d0, out.data.d1, out.data.d2, out.data.d3),
        (out.mask.d0, out.mask.d1, out.mask.d2, out.mask.d3))) =
      some ((0, bins.length - 1, vals.d1, vals.d2),
        (0, bins.length - 1, vals.d1, vals.d2)) := by
  have hcs0 : ∀ b r c, countSpec vals vm bins b r c = 0 :=
    countSpec_zero_of_masked vals vm bins hmask
  obtain ⟨st1, hrun1, hsame1, hget1⟩ := rebinCountPass_char vals vm bins
  have hd0 : st1.countA.d0 = bins.length - 1 := hsame1.1
  have hd1 : st1.countA.d1 = vals.d1 := hsame1.2.1
  have hd2 : st1.countA.d2 = vals.d2 := hsame1.2.2.1
  have hget0 : ∀ b r c, st1.countA.get b r c = 0 := by
    intro b r c
    rw [hget1 b r c]
    by_cases h : b < bins.length - 1 ∧ r < vals.d1 ∧ c < vals.d2
    · rw [if_pos h, hcs0 b r c]
    · rw [if_neg h]
  have hmax : st1.countA.maxVal = some 0 := by
    rw [maxVal_eq st1.countA (fun _ _ _ => 0)
      (fun b r c _ _ _ => hget0 b r c) (by omega) (by omega) (by omega)]
    congr 1
    apply foldl_max_zero
    intro x hx
    obtain ⟨i, hi, rfl⟩ := List.mem_map.mp hx
    apply foldl_max_zero
    intro y hy
    obtain ⟨j, hj, rfl⟩ := List.mem_map.mp hy
    apply foldl_max_zero
    intro z hz
    obtain ⟨k, hk, rfl⟩ := List.mem_map.mp hz
    rfl
  obtain ⟨st2, hrun2, hsh2, -, -, -⟩ :=
    stratify_fill_general vals vm
      (zeros4u16 0 (bins.length - 1) vals.d1 vals.d2)
      (zeros4u16 0 (bins.length - 1) vals.d1 vals.d2)
      (zeros4u16 0 (bins.length - 1) vals.d1 vals.d2)
      (ones4bool 0 (bins.length - 1) vals.d1 vals.d2)
      st1.countA.fillZero bins 0 65536
      ⟨rfl, Nat.le_refl _, Nat.le_refl _, Nat.le_refl _⟩
      ⟨rfl, Nat.le_refl _, Nat.le_refl _, Nat.le_refl _⟩
      ⟨rfl, Nat.le_refl _, Nat.le_refl _, Nat.le_refl _⟩
      ⟨rfl, Nat.le_refl _, Nat.le_refl _, Nat.le_refl _⟩
      ⟨by show bins.length - 1 ≤ st1.countA.d0; omega,
        by show vals.d1 ≤ st1.countA.d1; omega,
        by show vals.d2 ≤ st1.countA.d2; omega⟩
      (by show st1.countA.store = _; rw [hsame1.2.2.2]; rfl)
      (fun _ _ _ _ _ _ => rfl)
      (fun b r' c' _ _ _ => by rw [hcs0])
      (fun b r' c' _ _ _ => Nat.le_of_eq (hcs0 b r' c'))
  have hpd0 : st2.pA.d0 = 0 := hsh2.2.2.1.1
  have hpd1 : st2.pA.d1 = bins.length - 1 := hsh2.2.2.1.2.1
  have hpd2 : st2.pA.d2 = vals.d1 := hsh2.2.2.1.2.2.1
  have hpd3 : st2.pA.d3 = vals.d2 := hsh2.2.2.1.2.2.2.1
  have hmd0 : st2.maskA.d0 = 0 := hsh2.2.2.2.1.1
  have hmd1 : st2.maskA.d1 = bins.length - 1 := hsh2.2.2.2.1.2.1
  have hmd2 : st2.maskA.d2 = vals.d1 := hsh2.2.2.2.1.2.2.1
  have hmd3 : st2.maskA.d3 = vals.d2 := hsh2.2.2.2.1.2.2.2.1
  have hcond : ∀ q, q < st2.pA.d0 → ∀ b, b < st2.pA.d1 → ∀ r, r < st2.pA.d2 →
      ∀ c, c < st2.pA.d3 →
      st2.pA.get q b r c < vals.d0 ∧ st2.rowA.get q b r c < vals.d1 ∧
        st2.colA.get q b r c < vals.d2 := by
    intro q hq
    rw [hpd0] at hq
    exact absurd hq (Nat.not_lt_zero q)
  have hgather : gatherPts vals st2.pA st2.rowA st2.colA =
      some ⟨st2.pA.d0, st2.pA.d1, st2.pA.d2, st2.pA.d3, id, fun q b r c =>
        vals.get (st2.pA.get q b r c) (st2.rowA.get q b r c)
          (st2.colA.get q b r c)⟩ := by
    unfold gatherPts
    rw [if_pos hcond]
  have hout : rebinPtsByHeight vals vm bins =
      some ⟨⟨st2.pA.d0, st2.pA.d1, st2.pA.d2, st2.pA.d3, id, fun q b r c =>
        vals.get (st2.pA.get q b r c) (st2.rowA.get q b r c)
          (st2.colA.get q b r c)⟩, st2.maskA⟩ := by
    unfold rebinPtsByHeight
    rw [if_neg (by omega), hrun1, option_some_bind, hmax, option_some_bind]
    show (rebinFillPass vals vm bins 0 st1.countA).bind _ = _
    unfold rebinFillPass
    rw [hrun2, option_some_bind, hgather]
    rfl
  rw [hout]
  show some ((st2.pA.d0, st2.pA.d1, st2.pA.d2, st2.pA.d3),
    (st2.maskA.d0, st2.maskA.d1, st2.maskA.d2, st2.maskA.d3)) = _
  rw [hpd0, hpd1, hpd2, hpd3, hmd0, hmd1, hmd2, hmd3]

theorem rebin_fully_masked_witness :
    (rebinPtsByHeight valsW vmAllMaskedW binsW).map (fun out =>
      ((out.data.d0, out.data.d1, out.data.d2, out.data.d3),
        (out.mask.d0, out.mask.d1, out.mask.d2, out.mask.d3))) =
      some ((0, 1, 1, 1), (0, 1, 1, 1)) :=
  rebin_fully_masked valsW vmAllMaskedW binsW (fun _ _ _ => rfl) (by decide)
    (by decide) (by decide)

/-- C5 counterexample: with slotCapacity 1 and three valid elements falling
in one bin of one cell, the fill pass fails with an index error (none) —
it does not complete with the excess elements silently dropped. -/
theorem stratify_fill_undersized_counterexample :
    stratify3DArrayByValue vals3W vm3W row4W row4W row4W mask4W count0W binsU
      false = none := rfl

/-- C5 (amended): when the slot capacity of the output arrays is smaller
than the true per-(bin,cell) maximum, the fill pass of
`stratify3DArrayByValue` attempts a write at cursor j = slotCapacity,
outside the allocated slot range, and raises an index error; the excess
elements are not silently dropped. -/
theorem stratify_fill_undersized (vals : Arr3 Int) (vm : Arr3 Bool)
    (rA cA pA4 : Arr4 Nat) (mA : Arr4 Bool) (count : Arr3 Nat)
    (bins : List Int) (cap : Nat)
    (hrow : rA.d0 = cap ∧ rA.d1 = bins.length - 1 ∧ rA.d2 = vals.d1 ∧
      rA.d3 = vals.d2)
    (hcol : cA.d0 = cap ∧ cA.d1 = bins.length - 1 ∧ cA.d2 = vals.d1 ∧
      cA.d3 = vals.d2)
    (hpa : pA4.d0 = cap ∧ pA4.d1 = bins.length - 1 ∧ pA4.d2 = vals.d1 ∧
      pA4.d3 = vals.d2)
    (hma : mA.d0 = cap ∧ mA.d1 = bins.length - 1 ∧ mA.d2 = vals.d1 ∧
      mA.d3 = vals.d2)
    (hcnt : count.d0 = bins.length - 1 ∧ count.d1 = vals.d1 ∧
      count.d2 = vals.d2)
    (hstN : count.store = id)
    (hzero : ∀ b r c, count.get b r c = 0)
    (hbad : ∃ b r c, b < bins.length - 1 ∧ r < vals.d1 ∧ c < vals.d2 ∧
      cap < countSpec vals vm bins b r c) :
    stratify3DArrayByValue vals vm rA cA pA4 mA count bins false = none :=
  stratify_fill_general_none vals vm rA cA pA4 mA count bins cap 0
    ⟨hrow.1, by omega, by omega, by omega⟩
    ⟨hcol.1, by omega, by omega, by omega⟩
    ⟨hpa.1, by omega, by omega, by omega⟩
    ⟨hma.1, by omega, by omega, by omega⟩
    ⟨by omega, by omega, by omega⟩
    (by rw [hstN]; funext x; simp)
    (fun b' r' c' _ _ _ => hzero b' r' c')
    (fun b' r' c' _ _ _ => by simp)
    hbad

theorem stratify_fill_undersized_witness :
    stratify3DArrayByValue vals2W vm2W row4W row4W row4W mask4W count0W binsU
      false = none :=
  stratify_fill_undersized vals2W vm2W row4W row4W row4W mask4W count0W binsU
    1 ⟨rfl, rfl, rfl, rfl⟩ ⟨rfl, rfl, rfl, rfl⟩ ⟨rfl, rfl, rfl, rfl⟩
    ⟨rfl, rfl, rfl, rfl⟩ ⟨rfl, rfl, rfl⟩ rfl (fun _ _ _ => rfl)
    ⟨0, 0, 0, by decide, by decide, by decide, by decide⟩

/-- C6 counterexample: a call of `rebinPtsByHeight` with non-monotonic bin
edges `[1, 0]` is accepted and completes with a result — the operation does
not fail fast at entry on malformed edges. -/
theorem rebin_no_validation_counterexample :
    (rebinPtsByHeight vals2W vm2W binsNM).isSome = true := rfl

/-- C6 (amended): `rebinPtsByHeight` performs no validation of its bin
edges: every edge list of length ≥ 2 — monotonic or not — on a nonempty
grid with dimensions inside the uint16 range is processed to completion;
too-short edge lists only fail later (at allocation or at the occupancy
`max()` reduction), not at a fail-fast entry check. -/
theorem rebin_accepts_unvalidated_bins (vals : Arr3 Int) (vm : Arr3 Bool)
    (bins : List Int) (hlen : 2 ≤ bins.length) (hr1 : 1 ≤ vals.d1)
    (hc1 : 1 ≤ vals.d2) (hp16 : vals.d0 ≤ 65535) (hr16 : vals.d1 ≤ 65536)
    (hc16 : vals.d2 ≤ 65536) :
    (rebinPtsByHeight vals vm bins).isSome = true := by
  obtain ⟨out, hout, -, -, -, -, -, -, -, -, -⟩ :=
    rebin_char vals vm bins hlen hr1 hc1 hp16 hr16 hc16
  rw [hout]
  rfl

theorem rebin_accepts_unvalidated_bins_witness :
    (rebinPtsByHeight valsW vmW binsNM).isSome = true :=
  rebin_accepts_unvalidated_bins valsW vmW binsNM (by decide) (by decide)
    (by decide) (by decide) (by decide) (by decide)

/-- C7: `getPulsesByBins` and `getPointsByBins` raise
`LiDARNonSpatialProcessing` exactly when spatial processing is disabled for
the run; when it is enabled they return the driver's by-bins result without
error, and when it is disabled the raised error is a fixed value produced
without consulting the driver's readers. -/
theorem getByBins_nonspatial_error (ld : LidarData)
    (extent colNames : Option Int) :
    (ld.spatialProcessing = false →
      ld.getPulsesByBins extent colNames = Except.error
        (LiDARError.liDARNonSpatialProcessing
          "Call only valid when doing spatial processing") ∧
      ld.getPointsByBins extent colNames = Except.error
        (LiDARError.liDARNonSpatialProcessing
          "Call only valid when doing spatial processing")) ∧
    (ld.spatialProcessing = true →
      ld.getPulsesByBins extent colNames =
        Except.ok (ld.driver.pulsesByBinsRead extent colNames) ∧
      ld.getPointsByBins extent colNames =
        Except.ok (ld.driver.pointsByBinsRead extent colNames)) ∧
    (∀ e, ld.getPulsesByBins extent colNames = Except.error e →
      ld.spatialProcessing = false) ∧
    (∀ e, ld.getPointsByBins extent colNames = Except.error e →
      ld.spatialProcessing = false) := by
  unfold LidarData.getPulsesByBins LidarData.getPointsByBins
  cases hsp : ld.spatialProcessing
  · simp
  · simp

/-- C9: `LidarData.flush` resets all four write buffers but hands nothing
to the driver — the `driver.writeData(...)` call in the source is commented
out (TODO) — so buffered output is discarded instead of committed;
flushing twice equals flushing once; `ImageData.flush`, by contrast, does
hand its buffered data to the driver and clears it. -/
theorem lidarData_flush_discards (ld : LidarData) (points pulses : List Int)
    (img : ImageData) (d : List Int) :
    ((ld.setPoints points).flush).driver.writeLog = ld.driver.writeLog ∧
    (((ld.setPulses pulses).setPoints points).flush).driver.writeLog =
      ld.driver.writeLog ∧
    ((ld.setPoints points).flush).pointsToWrite = none ∧
    ((ld.setPoints points).flush).pulsesToWrite = none ∧
    ((ld.setPoints points).flush).receivedToWrite = none ∧
    ((ld.setPoints points).flush).transmittedToWrite = none ∧
    (ld.flush).flush = ld.flush ∧
    ((img.setData d).flush).driver.setLog = img.driver.setLog ++ [some d] ∧
    ((img.setData d).flush).data = none :=
  ⟨rfl, rfl, rfl, rfl, rfl, rfl, rfl, rfl, rfl⟩

/-- C10: `rebinPtsByHeight` allocates the occupancy-count array and the
row/col/p index arrays with unsigned 16-bit elements, so the counting pass
stores each per-(bin,cell) count modulo 2^16, and the fill pass stores each
recorded row/col/source-slot coordinate modulo 2^16 — any value exceeding
65535 wraps silently. -/
theorem rebin_uint16_storage (vals : Arr3 Int) (vm : Arr3 Bool)
    (bins : List Int) (b r c : Nat) (hb : b < bins.length - 1)
    (hr : r < vals.d1) (hc : c < vals.d2) :
    ((rebinCountPass vals vm bins).map (fun st => st.countA.get b r c) =
      some (countSpec vals vm bins b r c % 65536)) ∧
    (∀ cap j, (∀ b' r' c', b' < bins.length - 1 → r' < vals.d1 →
        c' < vals.d2 → countSpec vals vm bins b' r' c' ≤ cap ∧
          countSpec vals vm bins b' r' c' < 65536) →
      j < countSpec vals vm bins b r c →
      (rebinFillPass vals vm bins cap
        (zeros3u16 (bins.length - 1) vals.d1 vals.d2)).map (fun st =>
          (st.rowA.get j b r c, st.colA.get j b r c, st.pA.get j b r c)) =
        some (r % 65536, c % 65536,
          (matchList vals vm bins b r c).getD j 0 % 65536)) := by
  constructor
  · obtain ⟨st1, hrun1, -, hget1⟩ := rebinCountPass_char vals vm bins
    rw [hrun1]
    show some (st1.countA.get b r c) = _
    congr 1
    rw [hget1 b r c, if_pos ⟨hb, hr, hc⟩]
  · intro cap j hbig hj
    obtain ⟨st2, hrun2, -, -, hfill2, -⟩ :=
      stratify_fill_general vals vm
        (zeros4u16 cap (bins.length - 1) vals.d1 vals.d2)
        (zeros4u16 cap (bins.length - 1) vals.d1 vals.d2)
        (zeros4u16 cap (bins.length - 1) vals.d1 vals.d2)
        (ones4bool cap (bins.length - 1) vals.d1 vals.d2)
        (zeros3u16 (bins.length - 1) vals.d1 vals.d2).fillZero bins cap 65536
        ⟨rfl, Nat.le_refl _, Nat.le_refl _, Nat.le_refl _⟩
        ⟨rfl, Nat.le_refl _, Nat.le_refl _, Nat.le_refl _⟩
        ⟨rfl, Nat.le_refl _, Nat.le_refl _, Nat.le_refl _⟩
        ⟨rfl, Nat.le_refl _, Nat.le_refl _, Nat.le_refl _⟩
        ⟨Nat.le_refl _, Nat.le_refl _, Nat.le_refl _⟩
        rfl (fun _ _ _ _ _ _ => rfl)
        (fun b' r' c' hb' hr' hc' =>
          Nat.mod_eq_of_lt (hbig b' r' c' hb' hr' hc').2)
        (fun b' r' c' hb' hr' hc' => (hbig b' r' c' hb' hr' hc').1)
    show (stratify3DArrayByValue vals vm
      (zeros4u16 cap (bins.length - 1) vals.d1 vals.d2)
      (zeros4u16 cap (bins.length - 1) vals.d1 vals.d2)
      (zeros4u16 cap (bins.length - 1) vals.d1 vals.d2)
      (ones4bool cap (bins.length - 1) vals.d1 vals.d2)
      (zeros3u16 (bins.length - 1) vals.d1 vals.d2).fillZero bins
      false).map (fun st =>
        (st.rowA.get j b r c, st.colA.get j b r c, st.pA.get j b r c)) = _
    rw [hrun2]
    show some (st2.rowA.get j b r c, st2.colA.get j b r c,
      st2.pA.get j b r c) = _
    congr 1
    obtain ⟨h1, h2, h3, -⟩ := hfill2 b r c j hb hr hc hj
    rw [h1, h2, h3]
    rfl

theorem rebin_uint16_storage_witness :
    ((rebinCountPass valsW vmW binsW).map (fun st => st.countA.get 0 0 0) =
      some (countSpec valsW vmW binsW 0 0 0 % 65536)) ∧
    ((rebinFillPass valsW vmW binsW 1
        (zeros3u16 (binsW.length - 1) valsW.d1 valsW.d2)).map (fun st =>
          (st.rowA.get 0 0 0 0, st.colA.get 0 0 0 0, st.pA.get 0 0 0 0)) =
        some (0 % 65536, 0 % 65536,
          (matchList valsW vmW binsW 0 0 0).getD 0 0 % 65536)) :=
  ⟨(rebin_uint16_storage valsW vmW binsW 0 0 0 (by decide) (by decide)
      (by decide)).1,
    (rebin_uint16_storage valsW vmW binsW 0 0 0 (by decide) (by decide)
      (by decide)).2 1 0
      (by
        intro b' r' c' hb' hr' hc'
        have e1 : binsW.length = 2 := rfl
        have e2 : valsW.d1 = 1 := rfl
        have e3 : valsW.d2 = 1 := rfl
        have h3 : b' = 0 ∧ r' = 0 ∧ c' = 0 := ⟨by omega, by omega, by omega⟩
        rw [h3.1, h3.2.1, h3.2.2]
        exact ⟨by decide, by decide⟩)
      (by decide)⟩

theorem matchesBig_iff (p : Nat) :
    matchesB valsBig vmBig binsW 0 0 0 p = true ↔ p = 65536 := by
  by_cases h : p = 65536
  · subst h
    decide
  · constructor
    · intro hmm
      exfalso
      have hv : vmBig.get p 0 0 = true := by
        show decide (p ≠ 65536) = true
        exact decide_eq_true h
      unfold matchesB at hmm
      rw [hv] at hmm
      simp at hmm
    · intro h'
      exact absurd h' h

theorem countSpec_big : countSpec valsBig vmBig binsW 0 0 0 = 1 := by
  unfold countSpec matchList matchListUpTo
  exact filter_card_unique valsBig.d0 65536 (by decide) _
    (fun x _ => matchesBig_iff x)

theorem matchList_big_getD :
    (matchList valsBig vmBig binsW 0 0 0).getD 0 0 = 65536 := by
  have h := matchList_getD valsBig vmBig binsW 0 0 0 0
    (by rw [countSpec_big]; omega)
  exact (matchesBig_iff _).mp h.2

/-- On `valsBig`, `rebinPtsByHeight` completes: the unique valid element's
slot coordinate 65536 is stored as `65536 % 2^16 = 0` in the `uint16` index
array, so the gather reads slot 0 — the masked value 999 — into an
unmasked output cell. -/
theorem rebin_big :
    ∃ out, rebinPtsByHeight valsBig vmBig binsW = some out ∧
      out.data.d0 = 1 ∧ out.data.d2 = 1 ∧ out.data.d3 = 1 ∧
      out.data.get 0 0 0 0 = 999 ∧ out.mask.get 0 0 0 0 = false := by
  have hbl : binsW.length = 2 := rfl
  have hv0 : valsBig.d0 = 65537 := rfl
  have hv1 : valsBig.d1 = 1 := rfl
  have hv2 : valsBig.d2 = 1 := rfl
  obtain ⟨st1, hrun1, hsame1, hget1⟩ := rebinCountPass_char valsBig vmBig binsW
  have hd0 : st1.countA.d0 = 1 := hsame1.1
  have hd1 : st1.countA.d1 = 1 := hsame1.2.1
  have hd2 : st1.countA.d2 = 1 := hsame1.2.2.1
  have hone : ∀ b r c, b < st1.countA.d0 → r < st1.countA.d1 →
      c < st1.countA.d2 → st1.countA.get b r c = 1 := by
    intro b r c hb hr hc
    have hb0 : b = 0 := by omega
    have hr0 : r = 0 := by omega
    have hc0 : c = 0 := by omega
    subst hb0; subst hr0; subst hc0
    rw [hget1 0 0 0, if_pos ⟨by decide, by decide, by decide⟩, countSpec_big]
  have hmax : st1.countA.maxVal = some 1 := by
    rw [maxVal_eq st1.countA (fun _ _ _ => 1) hone (by omega) (by omega)
      (by omega)]
    rw [hd0, hd1, hd2]
    rfl
  obtain ⟨st2, hrun2, hsh2, -, hfill2, -⟩ :=
    stratify_fill_general valsBig vmBig
      (zeros4u16 1 (binsW.length - 1) valsBig.d1 valsBig.d2)
      (zeros4u16 1 (binsW.length - 1) valsBig.d1 valsBig.d2)
      (zeros4u16 1 (binsW.length - 1) valsBig.d1 valsBig.d2)
      (ones4bool 1 (binsW.length - 1) valsBig.d1 valsBig.d2)
      st1.countA.fillZero binsW 1 65536
      ⟨rfl, Nat.le_refl _, Nat.le_refl _, Nat.le_refl _⟩
      ⟨rfl, Nat.le_refl _, Nat.le_refl _, Nat.le_refl _⟩
      ⟨rfl, Nat.le_refl _, Nat.le_refl _, Nat.le_refl _⟩
      ⟨rfl, Nat.le_refl _, Nat.le_refl _, Nat.le_refl _⟩
      ⟨by show binsW.length - 1 ≤ st1.countA.d0; omega,
        by show valsBig.d1 ≤ st1.countA.d1; omega,
        by show valsBig.d2 ≤ st1.countA.d2; omega⟩
      (by show st1.countA.store = _; rw [hsame1.2.2.2]; rfl)
      (fun _ _ _ _ _ _ => rfl)
      (fun b r' c' hb hr' hc' => by
        have hb0 : b = 0 := by omega
        have hr0 : r' = 0 := by omega
        have hc0 : c' = 0 := by omega
        subst hb0; subst hr0; subst hc0
        rw [countSpec_big])
      (fun b r' c' hb hr' hc' => by
        have hb0 : b = 0 := by omega
        have hr0 : r' = 0 := by omega
        have hc0 : c' = 0 := by omega
        subst hb0; subst hr0; subst hc0
        have hcs := countSpec_big
        omega)
  have hpd0 : st2.pA.d0 = 1 := hsh2.2.2.1.1
  have hpd1 : st2.pA.d1 = binsW.length - 1 := hsh2.2.2.1.2.1
  have hpd2 : st2.pA.d2 = valsBig.d1 := hsh2.2.2.1.2.2.1
  have hpd3 : st2.pA.d3 = valsBig.d2 := hsh2.2.2.1.2.2.2.1
  have hcs1 : 0 < countSpec valsBig vmBig binsW 0 0 0 := by
    rw [countSpec_big]
    omega
  obtain ⟨hfr, hfc, hfp, hfm⟩ :=
    hfill2 0 0 0 0 (by omega) (by omega) (by omega) hcs1
  have hp0 : st2.pA.get 0 0 0 0 = 0 := by
    rw [hfp, matchList_big_getD]
    rfl
  have hrg0 : st2.rowA.get 0 0 0 0 = 0 := by
    rw [hfr]
    rfl
  have hcg0 : st2.colA.get 0 0 0 0 = 0 := by
    rw [hfc]
    rfl
  have hm0 : st2.maskA.get 0 0 0 0 = false := by
    rw [hfm]
    rfl
  have hcond : ∀ q, q < st2.pA.d0 → ∀ b, b < st2.pA.d1 → ∀ r, r < st2.pA.d2 →
      ∀ c, c < st2.pA.d3 →
      st2.pA.get q b r c < valsBig.d0 ∧ st2.rowA.get q b r c < valsBig.d1 ∧
        st2.colA.get q b r c < valsBig.d2 := by
    intro q hq b hb r hr c hc
    rw [hpd0] at hq
    rw [hpd1] at hb
    rw [hpd2] at hr
    rw [hpd3] at hc
    have hq0 : q = 0 := by omega
    have hb0 : b = 0 := by omega
    have hr0 : r = 0 := by omega
    have hc0 : c = 0 := by omega
    subst hq0; subst hb0; subst hr0; subst hc0
    rw [hp0, hrg0, hcg0, hv0, hv1, hv2]
    omega
  have hgather : gatherPts valsBig st2.pA st2.rowA st2.colA =
      some ⟨st2.pA.d0, st2.pA.d1, st2.pA.d2, st2.pA.d3, id, fun q b r c =>
        valsBig.get (st2.pA.get q b r c) (st2.rowA.get q b r c)
          (st2.colA.get q b r c)⟩ := by
    unfold gatherPts
    rw [if_pos hcond]
  refine ⟨⟨⟨st2.pA.d0, st2.pA.d1, st2.pA.d2, st2.pA.d3, id, fun q b r c =>
      valsBig.get (st2.pA.get q b r c) (st2.rowA.get q b r c)
        (st2.colA.get q b r c)⟩, st2.maskA⟩, ?_, hpd0, ?_, ?_, ?_, hm0⟩
  · unfold rebinPtsByHeight
    rw [if_neg (by decide), hrun1, option_some_bind, hmax, option_some_bind]
    show (rebinFillPass valsBig vmBig binsW 1 st1.countA).bind _ = _
    unfold rebinFillPass
    rw [hrun2, option_some_bind, hgather]
    rfl
  · show st2.pA.d2 = 1
    rw [hpd2]
    exact hv1
  · show st2.pA.d3 = 1
    rw [hpd3]
    exact hv2
  · show valsBig.get (st2.pA.get 0 0 0 0) (st2.rowA.get 0 0 0 0)
      (st2.colA.get 0 0 0 0) = 999
    rw [hp0, hrg0, hcg0]
    rfl

/-- C8 counterexample: on a valid single-cell ragged population with 65537
slots — one valid element, at slot 65536, value 5 in the bin `[0, 10)` —
`rebinPtsByHeight` completes, but the slot coordinate is stored as
`65536 % 2^16 = 0` in the `uint16` index array, so the gather reads the
masked slot 0, whose value 999 lies outside every bin.  Re-stratifying the
gathered values with the same edges yields occupancy 0 at the only
(bin, cell) where the first stratification counted 1: re-binning does not
reproduce the per-cell, per-bin counts. -/
theorem stratify_rebin_idempotent_counterexample :
    countSpec valsBig vmBig binsW 0 0 0 = 1 ∧
    (rebinPtsByHeight valsBig vmBig binsW).map (fun out =>
      (stratify3DArrayByValue (flatData out (binsW.length - 1))
        (flatMask out (binsW.length - 1)) row4W row4W row4W mask4W count0W
        binsW true).map (fun st => st.countA.get 0 0 0)) =
      some (some 0) := by
  refine ⟨countSpec_big, ?_⟩
  obtain ⟨out, hout, hod0, hod2, hod3, hdata0, hmask0⟩ := rebin_big
  obtain ⟨st', hrun, -, -, -, -, -, hget⟩ :=
    stratify_counting_general (flatData out (binsW.length - 1))
      (flatMask out (binsW.length - 1)) row4W row4W row4W mask4W count0W
      binsW 0
      (by decide)
      (by show out.data.d2 ≤ 1; omega)
      (by show out.data.d3 ≤ 1; omega)
      (by funext x; show x = x % 0; rw [Nat.mod_zero])
      (fun _ _ _ => rfl)
  have hflat0 : countSpec (flatData out (binsW.length - 1))
      (flatMask out (binsW.length - 1)) binsW 0 0 0 = 0 := by
    unfold countSpec matchList matchListUpTo
    have hfd0 : (flatData out (binsW.length - 1)).d0 = 1 := by
      show out.data.d0 * (binsW.length - 1) = 1
      rw [hod0]
      decide
    rw [hfd0]
    apply filter_card_empty
    intro x hx
    have hx0 : x = 0 := by omega
    subst hx0
    show (!out.mask.get 0 0 0 0 && inBin binsW 0 (out.data.get 0 0 0 0)) = false
    rw [hmask0, hdata0]
    decide
  have hbf : (0:Nat) < binsW.length - 1 := by decide
  have hrf : (0:Nat) < (flatData out (binsW.length - 1)).d1 := by
    show 0 < out.data.d2
    omega
  have hcf : (0:Nat) < (flatData out (binsW.length - 1)).d2 := by
    show 0 < out.data.d3
    omega
  have hcnt0 : st'.countA.get 0 0 0 = 0 := by
    rw [hget 0 0 0, if_pos ⟨hbf, hrf, hcf⟩]
    show (0 + countSpec (flatData out (binsW.length - 1))
      (flatMask out (binsW.length - 1)) binsW 0 0 0) % 0 = 0
    rw [Nat.zero_add, Nat.mod_zero, hflat0]
  rw [hout]
  show some ((stratify3DArrayByValue (flatData out (binsW.length - 1))
    (flatMask out (binsW.length - 1)) row4W row4W row4W mask4W count0W
    binsW true).map (fun st => st.countA.get 0 0 0)) = _
  rw [hrun]
  show some (some (st'.countA.get 0 0 0)) = _
  rw [hcnt0]

/-- C8 (amended): for populations whose slot, row and column dimensions fit
the `uint16` index range, re-running the Counter on the gathered values of
an already-rebinned population (the 4-d result reshaped back to a ragged
3-d population), with the same monotonic edges, reproduces the same
per-cell, per-bin occupancy counts as the first stratification; outside
that range the `uint16` storage of the recorded coordinates makes the
gather read the wrong slot, and the counts are not reproduced. -/
theorem stratify_rebin_idempotent (vals : Arr3 Int) (vm : Arr3 Bool)
    (bins : List Int)
    (hm : ∀ i, i + 1 < bins.length → bins.getD i 0 ≤ bins.getD (i + 1) 0)
    (hlen : 2 ≤ bins.length) (hr1 : 1 ≤ vals.d1) (hc1 : 1 ≤ vals.d2)
    (hp16 : vals.d0 ≤ 65535) (hr16 : vals.d1 ≤ 65536) (hc16 : vals.d2 ≤ 65536)
    (rA cA pA4 : Arr4 Nat) (mA : Arr4 Bool) (count2 : Arr3 Nat)
    (hd0 : count2.d0 = bins.length - 1) (hd1 : count2.d1 = vals.d1)
    (hd2 : count2.d2 = vals.d2) (hst2 : count2.store = id)
    (hz2 : ∀ b r c, count2.get b r c = 0)
    (b r c : Nat) (hb : b < bins.length - 1) (hr : r < vals.d1)
    (hc : c < vals.d2) :
    (rebinPtsByHeight vals vm bins).map (fun out =>
      (stratify3DArrayByValue (flatData out (bins.length - 1))
        (flatMask out (bins.length - 1)) rA cA pA4 mA count2 bins true).map
        (fun st => st.countA.get b r c)) =
      some (some (countSpec vals vm bins b r c)) := by
  obtain ⟨out, hout, hdd0, hdd1, hdd2, hdd3, -, -, -, -, -⟩ :=
    rebin_char vals vm bins hlen hr1 hc1 hp16 hr16 hc16
  have hrc := rebin_recount vals vm bins hm hlen hr1 hc1 hp16 hr16 hc16
    b r c hb hr hc
  rw [hout] at hrc
  have hceq : countSpec (flatData out (bins.length - 1))
      (flatMask out (bins.length - 1)) bins b r c =
      countSpec vals vm bins b r c := Option.some.inj hrc
  rw [hout]
  show some ((stratify3DArrayByValue (flatData out (bins.length - 1))
    (flatMask out (bins.length - 1)) rA cA pA4 mA count2 bins true).map
    (fun st => st.countA.get b r c)) = _
  congr 1
  obtain ⟨st', hrun, -, -, -, -, -, hget⟩ :=
    stratify_counting_general (flatData out (bins.length - 1))
      (flatMask out (bins.length - 1)) rA cA pA4 mA count2 bins 0
      (by omega)
      (by show out.data.d2 ≤ count2.d1; omega)
      (by show out.data.d3 ≤ count2.d2; omega)
      (by rw [hst2]; funext x; simp)
      (fun b' r' c' => by simp)
  rw [hrun]
  show some (st'.countA.get b r c) = _
  congr 1
  have hrf : r < (flatData out (bins.length - 1)).d1 := by
    show r < out.data.d2
    omega
  have hcf : c < (flatData out (bins.length - 1)).d2 := by
    show c < out.data.d3
    omega
  rw [hget b r c, if_pos ⟨hb, hrf, hcf⟩, hz2 b r c, Nat.zero_add,
    Nat.mod_zero, hceq]

theorem stratify_rebin_idempotent_witness :
    (rebinPtsByHeight valsW vmW binsW).map (fun out =>
      (stratify3DArrayByValue (flatData out (binsW.length - 1))
        (flatMask out (binsW.length - 1)) row4W row4W row4W mask4W count0W
        binsW true).map (fun st => st.countA.get 0 0 0)) =
      some (some (countSpec valsW vmW binsW 0 0 0)) :=
  stratify_rebin_idempotent valsW vmW binsW binsW_mono (by decide)
    (by decide) (by decide) (by decide) (by decide) (by decide)
    row4W row4W row4W mask4W count0W rfl rfl rfl rfl (fun _ _ _ => rfl)
    0 0 0 (by decide) (by decide) (by decide)
